import Mathlib

/-! # Optionlet stripping and cap/floor term-volatility curve

A shallow embedding of `ql/termstructures/volatility/capfloor/capfloortermvolcurve.hpp`
and `ql/termstructures/volatility/optionlet/optionletstripper2.hpp`, followed by the result
accessors of `ql/instruments/overnightindexedswap.hpp`, the copula of
`ql/math/copulas/alimikhailhaqcopula.hpp`, `ql/math/bernsteinpolynomial.hpp`, the cost
function of `ql/math/optimization/leastsquare.hpp` and the generator of
`ql/math/randomnumbers/latticersg.hpp`.

Conventions of the embedding:

* `Real` (a C++ `double`) is the field of rationals: arithmetic is exact.  The one
  exception is the copula, whose statements turn on a denominator being exactly zero:
  there every operation is followed by the rounding of the arithmetic, a parameter that
  is the identity for exact arithmetic and `binary64` for IEEE 754 double precision.
* A `std::vector` is a `List`; `v[i]` is `v.getD i default` and `v[i] = x` is `v.set i x`.
* A member function that can throw returns `Except String _`; when the object state
  written before the throw matters, the function returns the state next to the outcome.
* Collaborators whose code is not part of the translated headers (calendar and day-count
  arithmetic, period ordering, cubic interpolation, pricing engines, the root finder) are
  either parameters or definitions marked `Modelled from the spec:`.
-/

set_option autoImplicit false

namespace QuantLib

/-! ## Basic types -/

/-- Exact stand-in for the floating-point type `Real`. -/
abbrev Real := ℚ

abbrev Time := Real
abbrev Rate := Real
abbrev Volatility := Real
abbrev Size := Nat
abbrev Natural := Nat

/-- A date is its serial number; `Date()` is the null date `0`. -/
abbrev Date := Int

inductive TimeUnit where
  | Days
  | Weeks
  | Months
  | Years
deriving DecidableEq

/-- A tenor such as `5Y`: a length and a unit. -/
structure Period where
  length : Int
  units : TimeUnit
deriving DecidableEq

/-- Product `n*Days`, `n*Years`, ... of the source. -/
def Period.ofUnits (n : Int) (u : TimeUnit) : Period := ⟨n, u⟩

/-- A calendar is known by its name only; its arithmetic is a service of `DateServices`. -/
structure Calendar where
  name : String
deriving DecidableEq

/-- Business-day conventions are an enumeration, kept as the enumeration value. -/
abbrev BusinessDayConvention := Nat

/-- A day counter is known by its name; `==` on day counters is equality of names. -/
structure DayCounter where
  name : String
deriving DecidableEq

def Actual365Fixed : DayCounter := ⟨"Actual/365 (Fixed)"⟩

/-- The date and period arithmetic the curve calls but the translated headers do not
contain: `operator>` on periods (which may throw on an undecidable comparison),
`Calendar::advance` and `DayCounter::yearFraction`.  They are parameters. -/
structure DateServices where
  periodGt : Period → Period → Except String Bool
  advance : Calendar → Date → Period → BusinessDayConvention → Date
  yearFraction : DayCounter → Date → Date → Time

/-- The singleton `Settings::instance()`: the global evaluation date. -/
structure Settings where
  evaluationDate : Date

/-- A `Handle<Quote>`: either linked to a live market quote, identified by a key into the
table of current quote values, or to a private `SimpleQuote` holding a number. -/
inductive QuoteHandle where
  | market (key : Nat)
  | simple (value : Real)
deriving DecidableEq

/-- Current values of the live market quotes. -/
abbrev Quotes := Nat → Real

/-- The call `handle->value()`. -/
def QuoteHandle.value (q : Quotes) : QuoteHandle → Real
  | .market key => q key
  | .simple v => v

instance : Inhabited QuoteHandle := ⟨.simple 0⟩
instance : Inhabited Period := ⟨⟨0, .Days⟩⟩

/-! ## Binary searches of the standard library

On a range partitioned with respect to the searched value (the precondition of both
algorithms) the binary searches return the first position satisfying the predicate,
which is what the linear scans below compute. -/

/-- The library routine `std::upper_bound`: index of the first element strictly greater than `x`. -/
def upperBound (x : Real) : List Real → Nat
  | [] => 0
  | e :: es => if x < e then 0 else upperBound x es + 1

/-- The library routine `std::lower_bound`: index of the first element not less than `x`. -/
def lowerBound (x : Real) : List Real → Nat
  | [] => 0
  | e :: es => if e < x then lowerBound x es + 1 else 0

/-- The library routine `std::vector::insert(begin() + i, x)`. -/
def vectorInsert {α : Type} (v : List α) (i : Nat) (x : α) : List α :=
  v.take i ++ x :: v.drop i

/-! ## Cubic interpolation (natural spline) -/

/-- Modelled from the spec: forward elimination of the tridiagonal solve used to fit the
spline (the interpolation classes are not among the translated headers).  Each row is
`(upper[j-1], diagonal[j], lower[j-1], rhs[j])`; the result lists `(temp[j], result[j])`. -/
def forwardSweep : Real → Real → List (Real × Real × Real × Real) → List (Real × Real)
  | _, _, [] => []
  | bet, prev, (u, d, l, r) :: rows =>
    let temp := u / bet
    let bet1 := d - l * temp
    let res := (r - l * prev) / bet1
    (temp, res) :: forwardSweep bet1 res rows

/-- Modelled from the spec: back substitution of the tridiagonal solve,
`result[j] -= temp[j+1] * result[j+1]` from the last row upwards. -/
def backSubstitute : List (Real × Real) → List Real
  | [] => []
  | [(_, r)] => [r]
  | (_, r) :: (t1, r1) :: rest =>
    let tail := backSubstitute ((t1, r1) :: rest)
    (r - t1 * tail.headD 0) :: tail

/-- Modelled from the spec: solution of a tridiagonal system given its three diagonals
and right-hand side (Thomas algorithm). -/
def tridiagonalSolve (lower diagonal upper rhs : List Real) : List Real :=
  match diagonal, rhs with
  | d0 :: ds, r0 :: rs =>
    let rows := List.zip upper (List.zip ds (List.zip lower rs))
    backSubstitute ((0, r0 / d0) :: forwardSweep d0 (r0 / d0) rows)
  | _, _ => []

/-- Coefficients of the piecewise cubic: on segment `j` the value at `x` is
`y[j] + dx*(a[j] + dx*(b[j] + dx*c[j]))` with `dx = x - x[j]`. -/
structure Interpolation where
  a_ : List Real
  b_ : List Real
  c_ : List Real
deriving DecidableEq

/-- Knot spacings `dx[i] = x[i+1] - x[i]`. -/
def knotSpacings (xs : List Real) : List Real :=
  (List.range (xs.length - 1)).map fun i => xs.getD (i + 1) 0 - xs.getD i 0

/-- Secant slopes `S[i] = (y[i+1] - y[i]) / dx[i]`. -/
def secantSlopes (xs ys : List Real) : List Real :=
  (List.range (xs.length - 1)).map fun i =>
    (ys.getD (i + 1) 0 - ys.getD i 0) / (xs.getD (i + 1) 0 - xs.getD i 0)

/-- Modelled from the spec: first derivatives at the knots of the natural cubic spline
(zero second derivative at both ends) through `(xs[i], ys[i])`.  The boundary rows are
`2 t[0] + t[1] = 3 S[0]` and `t[n-2] + 2 t[n-1] = 3 S[n-2]`; row `i` in between is
`dx[i] t[i-1] + 2 (dx[i] + dx[i-1]) t[i] + dx[i-1] t[i+1] = 3 (dx[i] S[i-1] + dx[i-1] S[i])`. -/
def splineDerivatives (xs ys : List Real) : List Real :=
  let n := xs.length
  let dx := knotSpacings xs
  let S := secantSlopes xs ys
  let mid := (List.range (n - 2)).map fun k => k + 1
  let lower := mid.map (fun i => dx.getD i 0) ++ [1]
  let diagonal := 2 :: mid.map (fun i => 2 * (dx.getD i 0 + dx.getD (i - 1) 0)) ++ [2]
  let upper := 1 :: mid.map (fun i => dx.getD (i - 1) 0)
  let rhs := 3 * S.getD 0 0 ::
    mid.map (fun i => 3 * (dx.getD i 0 * S.getD (i - 1) 0 + dx.getD (i - 1) 0 * S.getD i 0))
      ++ [3 * S.getD (n - 2) 0]
  tridiagonalSolve lower diagonal upper rhs

/-- Modelled from the spec: `CubicInterpolation(x, y, Spline, false, SecondDerivative, 0.0,
SecondDerivative, 0.0)` and `Interpolation::update()`: the coefficients of the natural
cubic spline through the knots, in Hermite form from the knot derivatives. -/
def CubicInterpolation (xs ys : List Real) : Interpolation :=
  let dx := knotSpacings xs
  let S := secantSlopes xs ys
  let t := splineDerivatives xs ys
  let idx := List.range (xs.length - 1)
  { a_ := idx.map fun i => t.getD i 0
    b_ := idx.map fun i => (3 * S.getD i 0 - t.getD (i + 1) 0 - 2 * t.getD i 0) / dx.getD i 0
    c_ := idx.map fun i =>
      (t.getD (i + 1) 0 + t.getD i 0 - 2 * S.getD i 0) / (dx.getD i 0 * dx.getD i 0) }

/-- Modelled from the spec: the segment used for `x`: the first one left of the data, the
last one right of it, otherwise the segment whose left knot is the last knot `≤ x`
(the right end of the data belongs to the last segment). -/
def Interpolation.locate (xs : List Real) (x : Real) : Size :=
  if x < xs.headD 0 then 0
  else if x > xs.getLastD 0 then xs.length - 2
  else upperBound x (xs.take (xs.length - 1)) - 1

/-- Modelled from the spec: value of the piecewise cubic on the located segment. -/
def Interpolation.value (xs ys : List Real) (f : Interpolation) (x : Real) : Real :=
  let j := Interpolation.locate xs x
  let dx := x - xs.getD j 0
  ys.getD j 0 + dx * (f.a_.getD j 0 + dx * (f.b_.getD j 0 + dx * f.c_.getD j 0))

/-- Modelled from the spec: `interpolation_(x, true)`: the spline inside the data range,
"extrapolating flat/clamped beyond the data range". -/
def Interpolation.call (xs ys : List Real) (f : Interpolation) (x : Real) : Real :=
  if x < xs.headD 0 then ys.headD 0
  else if x > xs.getLastD 0 then ys.getLastD 0
  else f.value xs ys x

/-! ## CapFloorTermVolCurve -/

/-- The reference-date argument that selects a constructor overload: a number of
settlement days (floating reference date) or a settlement date (fixed reference date). -/
inductive ReferenceDateArg where
  | settlementDays (n : Natural)
  | settlementDate (d : Date)

/-- The market-data argument that selects a constructor overload: quote handles (floating
market data) or volatility numbers (fixed market data). -/
inductive MarketDataArg where
  | handles (vols : List QuoteHandle)
  | numbers (vols : List Volatility)

/-- Number of volatilities passed to the constructor. -/
def MarketDataArg.size : MarketDataArg → Nat
  | .handles vols => vols.length
  | .numbers vols => vols.length

/-- The `i`-th input volatility: the number given, or the current value of the quote given. -/
def MarketDataArg.volatility (q : Quotes) : MarketDataArg → Nat → Volatility
  | .handles vols, i => (vols.getD i default).value q
  | .numbers vols, i => vols.getD i 0

/-- State of a `CapFloorTermVolCurve`: the parts of its base classes it relies on
(reference-date policy, calendar, conventions, the lazy-object flag) and its own members.
`interpolation_` holds the spline coefficients only: the interpolation object of the
source keeps iterators into `optionTimes_` and `vols_`, so the knots it reads are always
the current contents of those vectors. -/
structure CapFloorTermVolCurve where
  moving_ : Bool
  settlementDays_ : Natural
  referenceDate_ : Date
  calendar_ : Calendar
  bdc_ : BusinessDayConvention
  dayCounter_ : DayCounter
  calculated_ : Bool
  nOptionTenors_ : Size
  optionTenors_ : List Period
  optionDates_ : List Date
  optionTimes_ : List Time
  evaluationDate_ : Date
  volHandles_ : List QuoteHandle
  vols_ : List Volatility
  interpolation_ : Interpolation

namespace CapFloorTermVolCurve

/-- Modelled from the spec: `TermStructure::referenceDate()`: the fixed settlement date,
or, for a floating ("moving") reference date, the evaluation date advanced by the
settlement days. -/
def referenceDate (env : DateServices) (settings : Settings) (c : CapFloorTermVolCurve) : Date :=
  if c.moving_ then
    env.advance c.calendar_ settings.evaluationDate (Period.ofUnits c.settlementDays_ .Days) 0
  else c.referenceDate_

/-- Modelled from the spec: `optionDateFromTenor(p)`: the reference date advanced by the
tenor on the curve's calendar. -/
def optionDateFromTenor (env : DateServices) (settings : Settings) (c : CapFloorTermVolCurve)
    (p : Period) : Date :=
  env.advance c.calendar_ (c.referenceDate env settings) p c.bdc_

/-- Modelled from the spec: `timeFromReference(d)`: the year fraction from the reference
date to `d` under the curve's day counter. -/
def timeFromReference (env : DateServices) (settings : Settings) (c : CapFloorTermVolCurve)
    (d : Date) : Time :=
  env.yearFraction c.dayCounter_ (c.referenceDate env settings) d

def dayCounter (c : CapFloorTermVolCurve) : DayCounter := c.dayCounter_

/-- One `QL_REQUIRE(optionTenors_[i] > optionTenors_[i-1], ...)`. -/
def requireIncreasing (env : DateServices) (c : CapFloorTermVolCurve) (i : Nat) :
    Except String Unit :=
  match env.periodGt (c.optionTenors_.getD i default) (c.optionTenors_.getD (i - 1) default) with
  | .error e => .error e
  | .ok false => .error "non increasing option tenor"
  | .ok true => .ok ()

/-- A loop of requirements over the indices `is`: the first failure is thrown. -/
def requireAll (check : Nat → Except String Unit) : List Nat → Except String Unit
  | [] => .ok ()
  | i :: is =>
    match check i with
    | .error e => .error e
    | .ok () => requireAll check is

/-- The source function `CapFloorTermVolCurve::checkInputs`. -/
def checkInputs (env : DateServices) (c : CapFloorTermVolCurve) : Except String Unit :=
  if c.optionTenors_.isEmpty then .error "empty option tenor vector"
  else if c.nOptionTenors_ ≠ c.vols_.length then
    .error "mismatch between number of option tenors and number of volatilities"
  else
    match env.periodGt (c.optionTenors_.getD 0 default) (Period.ofUnits 0 .Days) with
    | .error e => .error e
    | .ok false => .error "negative first option tenor"
    | .ok true => requireAll (c.requireIncreasing env) (List.range' 1 (c.nOptionTenors_ - 1))

/-- Body of the loop of `initializeOptionDatesAndTimes` for index `i`. -/
def initializeStep (env : DateServices) (settings : Settings) (c : CapFloorTermVolCurve)
    (i : Nat) : CapFloorTermVolCurve :=
  let d := c.optionDateFromTenor env settings (c.optionTenors_.getD i default)
  let c1 := { c with optionDates_ := c.optionDates_.set i d }
  { c1 with optionTimes_ :=
      c1.optionTimes_.set i (c1.timeFromReference env settings (c1.optionDates_.getD i 0)) }

/-- The source function `CapFloorTermVolCurve::initializeOptionDatesAndTimes`. -/
def initializeOptionDatesAndTimes (env : DateServices) (settings : Settings)
    (c : CapFloorTermVolCurve) : CapFloorTermVolCurve :=
  (List.range c.nOptionTenors_).foldl (initializeStep env settings) c

/-- The source function `CapFloorTermVolCurve::interpolate`. -/
def interpolate (c : CapFloorTermVolCurve) : CapFloorTermVolCurve :=
  { c with interpolation_ := CubicInterpolation c.optionTimes_ c.vols_ }

/-- The source function `CapFloorTermVolCurve::performCalculations`. -/
def performCalculations (q : Quotes) (c : CapFloorTermVolCurve) : CapFloorTermVolCurve :=
  let c1 := (List.range c.vols_.length).foldl
    (fun c i => { c with vols_ := c.vols_.set i ((c.volHandles_.getD i default).value q) }) c
  { c1 with interpolation_ := CubicInterpolation c1.optionTimes_ c1.vols_ }

/-- Modelled from the spec: `LazyObject::calculate()`: recalculates if the object is stale. -/
def calculate (q : Quotes) (c : CapFloorTermVolCurve) : CapFloorTermVolCurve :=
  if c.calculated_ then c else performCalculations q { c with calculated_ := true }

/-- The source function `CapFloorTermVolCurve::volatilityImpl`: the value and the curve after `calculate()`. -/
def volatilityImpl (q : Quotes) (c : CapFloorTermVolCurve) (t : Time) (_strike : Rate) :
    Volatility × CapFloorTermVolCurve :=
  let c1 := c.calculate q
  (Interpolation.call c1.optionTimes_ c1.vols_ c1.interpolation_ t, c1)

/-- Modelled from the spec: the public `volatility(t, strike)` of the base class, which
"always succeeds for any non-negative time once calibrated" and forwards to
`volatilityImpl`. -/
def volatility (q : Quotes) (c : CapFloorTermVolCurve) (t : Time) (strike : Rate) :
    Volatility × CapFloorTermVolCurve :=
  c.volatilityImpl q t strike

def optionTenors (c : CapFloorTermVolCurve) : List Period := c.optionTenors_

/-- The source function `CapFloorTermVolCurve::optionTimes`. -/
def optionTimes (q : Quotes) (c : CapFloorTermVolCurve) : List Time × CapFloorTermVolCurve :=
  let c1 := c.calculate q
  (c1.optionTimes_, c1)

/-- The source function `CapFloorTermVolCurve::optionDates`. -/
def optionDates (q : Quotes) (c : CapFloorTermVolCurve) : List Date × CapFloorTermVolCurve :=
  let c1 := c.calculate q
  (c1.optionDates_, c1)

/-- Member initialisation shared by the constructors: the base-class part and the vectors,
before the constructor body runs. -/
def init (moving : Bool) (settlementDays : Natural) (settlementDate : Date) (calendar : Calendar)
    (bdc : BusinessDayConvention) (optionTenors : List Period) (volHandles : List QuoteHandle)
    (vols : List Volatility) (dc : DayCounter) : CapFloorTermVolCurve :=
  { moving_ := moving
    settlementDays_ := settlementDays
    referenceDate_ := settlementDate
    calendar_ := calendar
    bdc_ := bdc
    dayCounter_ := dc
    calculated_ := false
    nOptionTenors_ := optionTenors.length
    optionTenors_ := optionTenors
    optionDates_ := List.replicate optionTenors.length 0
    optionTimes_ := List.replicate optionTenors.length 0
    evaluationDate_ := 0
    volHandles_ := volHandles
    vols_ := vols
    interpolation_ := ⟨[], [], []⟩ }

/-- Constructor body for floating market data: `checkInputs(); initializeOptionDatesAndTimes();
registerWithMarketData(); interpolate();` (registration has no effect on the state). -/
def bodyHandles (env : DateServices) (settings : Settings) (c : CapFloorTermVolCurve) :
    Except String CapFloorTermVolCurve :=
  match c.checkInputs env with
  | .error e => .error e
  | .ok () => .ok (c.initializeOptionDatesAndTimes env settings).interpolate

/-- The loop filling `volHandles_[i]` with a `SimpleQuote` holding `vols_[i]`. -/
def fillHandles (c : CapFloorTermVolCurve) : CapFloorTermVolCurve :=
  (List.range c.nOptionTenors_).foldl
    (fun c i => { c with volHandles_ := c.volHandles_.set i (.simple (c.vols_.getD i 0)) }) c

/-- Constructor body for fixed market data: `checkInputs(); initializeOptionDatesAndTimes();`
the handle-filling loop, then `interpolate();`. -/
def bodyFixed (env : DateServices) (settings : Settings) (c : CapFloorTermVolCurve) :
    Except String CapFloorTermVolCurve :=
  match c.checkInputs env with
  | .error e => .error e
  | .ok () => .ok (c.initializeOptionDatesAndTimes env settings).fillHandles.interpolate

/-- Constructor: floating reference date, floating market data. -/
def mkFloatingHandles (env : DateServices) (settings : Settings) (settlementDays : Natural)
    (calendar : Calendar) (bdc : BusinessDayConvention) (optionTenors : List Period)
    (vols : List QuoteHandle) (dc : DayCounter) : Except String CapFloorTermVolCurve :=
  bodyHandles env settings
    (init true settlementDays 0 calendar bdc optionTenors vols (List.replicate vols.length 0) dc)

/-- Constructor: fixed reference date, floating market data. -/
def mkFixedHandles (env : DateServices) (settings : Settings) (settlementDate : Date)
    (calendar : Calendar) (bdc : BusinessDayConvention) (optionTenors : List Period)
    (vols : List QuoteHandle) (dc : DayCounter) : Except String CapFloorTermVolCurve :=
  bodyHandles env settings
    (init false 0 settlementDate calendar bdc optionTenors vols (List.replicate vols.length 0) dc)

/-- Constructor: fixed reference date, fixed market data. -/
def mkFixedVols (env : DateServices) (settings : Settings) (settlementDate : Date)
    (calendar : Calendar) (bdc : BusinessDayConvention) (optionTenors : List Period)
    (vols : List Volatility) (dc : DayCounter) : Except String CapFloorTermVolCurve :=
  bodyFixed env settings
    (init false 0 settlementDate calendar bdc optionTenors
      (List.replicate vols.length default) vols dc)

/-- Constructor: floating reference date, fixed market data. -/
def mkFloatingVols (env : DateServices) (settings : Settings) (settlementDays : Natural)
    (calendar : Calendar) (bdc : BusinessDayConvention) (optionTenors : List Period)
    (vols : List Volatility) (dc : DayCounter) : Except String CapFloorTermVolCurve :=
  bodyFixed env settings
    (init true settlementDays 0 calendar bdc optionTenors
      (List.replicate vols.length default) vols dc)

/-- The members as initialised by the overload selected by the arguments, before the
constructor body runs. -/
def members (ref : ReferenceDateArg) (calendar : Calendar) (bdc : BusinessDayConvention)
    (optionTenors : List Period) (data : MarketDataArg) (dc : DayCounter) :
    CapFloorTermVolCurve :=
  match ref, data with
  | .settlementDays n, .handles vols =>
    init true n 0 calendar bdc optionTenors vols (List.replicate vols.length 0) dc
  | .settlementDate d, .handles vols =>
    init false 0 d calendar bdc optionTenors vols (List.replicate vols.length 0) dc
  | .settlementDate d, .numbers vols =>
    init false 0 d calendar bdc optionTenors (List.replicate vols.length default) vols dc
  | .settlementDays n, .numbers vols =>
    init true n 0 calendar bdc optionTenors (List.replicate vols.length default) vols dc

/-- Overload resolution of `CapFloorTermVolCurve(...)`: the constructor selected by the
kinds of the reference-date and market-data arguments. -/
def new (env : DateServices) (settings : Settings) (ref : ReferenceDateArg) (calendar : Calendar)
    (bdc : BusinessDayConvention) (optionTenors : List Period) (data : MarketDataArg)
    (dc : DayCounter) : Except String CapFloorTermVolCurve :=
  match ref, data with
  | .settlementDays n, .handles vols =>
    mkFloatingHandles env settings n calendar bdc optionTenors vols dc
  | .settlementDate d, .handles vols =>
    mkFixedHandles env settings d calendar bdc optionTenors vols dc
  | .settlementDate d, .numbers vols =>
    mkFixedVols env settings d calendar bdc optionTenors vols dc
  | .settlementDays n, .numbers vols =>
    mkFloatingVols env settings n calendar bdc optionTenors vols dc

/-- The inputs the specification calls valid: a non-empty tenor list, as many volatilities
as tenors, a first tenor greater than zero days and every tenor greater than its
predecessor (each comparison answering `true`). -/
def ValidInputs (env : DateServices) (optionTenors : List Period) (nVols : Nat) : Prop :=
  optionTenors ≠ [] ∧ optionTenors.length = nVols ∧
  env.periodGt (optionTenors.getD 0 default) (Period.ofUnits 0 .Days) = .ok true ∧
  ∀ i, 1 ≤ i → i < optionTenors.length →
    env.periodGt (optionTenors.getD i default) (optionTenors.getD (i - 1) default) = .ok true

end CapFloorTermVolCurve

/-! ## OptionletStripper2 -/

/-- The upstream stripper as seen through the `OptionletStripper` interface: the vectors
its accessors return.  The accessors take the upstream object as already calculated. -/
structure OptionletStripper1 where
  termVolSurfaceDayCounter : DayCounter
  optionletFixingDates_ : List Date
  optionletPaymentDates_ : List Date
  optionletAccrualPeriods_ : List Time
  optionletFixingTimes_ : List Time
  atmOptionletRates_ : List Rate
  optionletStrikes_ : List (List Rate)
  optionletVolatilities_ : List (List Volatility)
deriving DecidableEq

namespace OptionletStripper1

def optionletStrikes (s : OptionletStripper1) (i : Size) : List Rate :=
  s.optionletStrikes_.getD i []

def optionletVolatilities (s : OptionletStripper1) (i : Size) : List Volatility :=
  s.optionletVolatilities_.getD i []

end OptionletStripper1

/-- The contractual part of a cap built by `MakeCapFloor`: the tenor it was built for and
the number of coupons of its floating leg. -/
structure CapFloorTerms where
  tenor : Period
  floatingLegSize : Size
deriving DecidableEq

/-- The two ways the source builds a `BlackCapFloorEngine`: on a constant volatility, or on
the upstream surface (through a `StrippedOptionletAdapter`) shifted by a spread quote. -/
inductive PricingEngine where
  | none
  | flat (vol : Volatility) (dc : DayCounter)
  | spreaded (base : OptionletStripper1)
deriving DecidableEq

/-- A `CapFloor` instrument: its terms, its pricing engine and the lazily cached result. -/
structure CapFloor where
  terms : CapFloorTerms
  engine_ : PricingEngine
  calculated_ : Bool
  NPV_ : Real
deriving DecidableEq

instance : Inhabited CapFloor := ⟨⟨⟨default, 0⟩, .none, false, 0⟩⟩

/-- The valuation collaborators of the stripper, none of which is in the translated headers:
`MakeCapFloor` (the cap of a given tenor on the index), `CapFloor::atmRate` on the
forwarding curve, the Black engine's valuation of a cap on a volatility surface (which may
fail) and `StrippedOptionletAdapter::volatility` on an upstream stripper.  They are
parameters. -/
structure Pricing where
  makeCapFloor : Period → CapFloorTerms
  atmRate : CapFloorTerms → Rate
  blackNPV : CapFloorTerms → (Time → Rate → Volatility) → Except String Real
  adapterVolatility : OptionletStripper1 → Time → Rate → Volatility

/-- The volatility surface an engine prices on; `spread` is the current value of the spread
quote a spreaded surface is wired to. -/
def PricingEngine.surface (pricing : Pricing) (spread : Real) :
    PricingEngine → Time → Rate → Volatility
  | .none => fun _ _ => 0
  | .flat vol _ => fun _ _ => vol
  | .spreaded base => fun t k => pricing.adapterVolatility base t k + spread

namespace CapFloor

def floatingLegSize (cap : CapFloor) : Size := cap.terms.floatingLegSize

/-- Modelled from the spec: `LazyObject::update()` on the instrument: the cached result
becomes stale. -/
def update (cap : CapFloor) : CapFloor := { cap with calculated_ := false }

/-- Modelled from the spec: `Instrument::setPricingEngine`: installs the engine and marks
the instrument stale. -/
def setPricingEngine (cap : CapFloor) (e : PricingEngine) : CapFloor :=
  { cap with engine_ := e }.update

/-- Modelled from the spec: `Instrument::NPV()`: recalculates with the engine if the
instrument is stale (a failing engine leaves it stale), then returns the cached value. -/
def NPV (pricing : Pricing) (spread : Real) (cap : CapFloor) : Except String Real × CapFloor :=
  if cap.calculated_ then (.ok cap.NPV_, cap)
  else
    match pricing.blackNPV cap.terms (cap.engine_.surface pricing spread) with
    | .ok v => (.ok v, { cap with calculated_ := true, NPV_ := v })
    | .error e => (.error e, { cap with calculated_ := false })

end CapFloor

/-- Modelled from the spec: a `SimpleQuote`; `setValueCalls` counts the calls of `setValue`
(a ghost field used to state when the quote is written). -/
structure SimpleQuote where
  value_ : Real
  setValueCalls : Nat
deriving DecidableEq

namespace SimpleQuote

def value (q : SimpleQuote) : Real := q.value_

/-- Modelled from the spec: `SimpleQuote::setValue`: stores the value; observers are
notified (second component) when the value changed. -/
def setValue (q : SimpleQuote) (v : Real) : SimpleQuote × Bool :=
  if v - q.value_ ≠ 0 then (⟨v, q.setValueCalls + 1⟩, true)
  else (⟨q.value_, q.setValueCalls + 1⟩, false)

end SimpleQuote

/-- The class `OptionletStripper2::ObjectiveFunction`.  The cap's engine prices on the upstream
surface shifted by `spreadQuote_`; the cap observes the quote through that engine. -/
structure ObjectiveFunction where
  spreadQuote_ : SimpleQuote
  cap_ : CapFloor
  targetValue_ : Real
deriving DecidableEq

namespace ObjectiveFunction

/-- The constructor `ObjectiveFunction::ObjectiveFunction`. -/
def new (optionletStripper1 : OptionletStripper1) (cap : CapFloor) (targetValue : Real) :
    ObjectiveFunction :=
  { spreadQuote_ := ⟨-1, 0⟩
    cap_ := cap.setPricingEngine (.spreaded optionletStripper1)
    targetValue_ := targetValue }

/-- The source function `ObjectiveFunction::operator()`: the outcome and the object afterwards. -/
def call (pricing : Pricing) (f : ObjectiveFunction) (s : Volatility) :
    Except String Real × ObjectiveFunction :=
  let f1 : ObjectiveFunction :=
    if s ≠ f.spreadQuote_.value then
      let w := f.spreadQuote_.setValue s
      { f with spreadQuote_ := w.1, cap_ := if w.2 then f.cap_.update else f.cap_ }
    else f
  match f1.cap_.NPV pricing f1.spreadQuote_.value with
  | (.ok v, cap1) => (.ok (v - f1.targetValue_), { f1 with cap_ := cap1 })
  | (.error e, cap1) => (.error e, { f1 with cap_ := cap1 })

/-- The object after a sequence of calls at the given arguments. -/
def afterCalls (pricing : Pricing) (f : ObjectiveFunction) (history : List Volatility) :
    ObjectiveFunction :=
  history.foldl (fun g s => (g.call pricing s).2) f

end ObjectiveFunction

/-- The root finder `Brent::solve(f, accuracy, guess, xMin, xMax)` with its evaluation budget, for
`f` an `ObjectiveFunction`: the solver receives the call operator and the object.  The
solver is a parameter. -/
abbrev Solver1D :=
  (ObjectiveFunction → Volatility → Except String Real × ObjectiveFunction) →
    ObjectiveFunction → Real → Real → Real → Real → Size → Except String Real

/-- Modelled from the spec: the root finder's contract, "fails with a ConvergenceFailure
if the bracket does not contain a sign change or the evaluation budget is exhausted before
the residual is within `accuracy`": a returned root was evaluated, after some calls of the
function, with a residual within the accuracy. -/
def Solver1D.MeetsContract (pricing : Pricing) (solve : Solver1D) : Prop :=
  ∀ (f : ObjectiveFunction) (accuracy guess xMin xMax : Real) (maxEvaluations : Size)
    (root : Real),
    solve (ObjectiveFunction.call pricing) f accuracy guess xMin xMax maxEvaluations = .ok root →
    ∃ (history : List Volatility) (v : Real),
      ((f.afterCalls pricing history).call pricing root).1 = .ok v ∧ |v| ≤ accuracy

/-- State of an `OptionletStripper2`: the result vectors of its `OptionletStripper` base,
the lazy-object flag and its own members.  `stripper1_` and `atmCapFloorTermVolCurve_`
are the objects behind the shared pointer and the handle. -/
structure OptionletStripper2 where
  optionletDates_ : List Date
  optionletPaymentDates_ : List Date
  optionletAccrualPeriods_ : List Time
  optionletTimes_ : List Time
  atmOptionletRate_ : List Rate
  optionletStrikes_ : List (List Rate)
  optionletVolatilities_ : List (List Volatility)
  calculated_ : Bool
  stripper1_ : OptionletStripper1
  atmCapFloorTermVolCurve_ : CapFloorTermVolCurve
  dc_ : DayCounter
  nOptionExpiries_ : Size
  atmCapFloorStrikes_ : List Rate
  atmCapFloorPrices_ : List Real
  spreadsVolImplied_ : List Volatility
  caps_ : List CapFloor
  maxEvaluations_ : Size
  accuracy_ : Real

namespace OptionletStripper2

/-- The constructor `OptionletStripper2::OptionletStripper2`.  The base-class constructor sizes the
per-expiry grids by the number of optionlets, the same as in the upstream stripper built
on the same surface and index; a null `caps_` entry is the default cap. -/
def new (optionletStripper1 : OptionletStripper1) (atmCapFloorTermVolCurve : CapFloorTermVolCurve) :
    Except String OptionletStripper2 :=
  let n := atmCapFloorTermVolCurve.optionTenors.length
  let nOptionlets := optionletStripper1.optionletFixingTimes_.length
  let self : OptionletStripper2 :=
    { optionletDates_ := List.replicate nOptionlets 0
      optionletPaymentDates_ := List.replicate nOptionlets 0
      optionletAccrualPeriods_ := List.replicate nOptionlets 0
      optionletTimes_ := List.replicate nOptionlets 0
      atmOptionletRate_ := List.replicate nOptionlets 0
      optionletStrikes_ := List.replicate nOptionlets []
      optionletVolatilities_ := List.replicate nOptionlets []
      calculated_ := false
      stripper1_ := optionletStripper1
      atmCapFloorTermVolCurve_ := atmCapFloorTermVolCurve
      dc_ := optionletStripper1.termVolSurfaceDayCounter
      nOptionExpiries_ := n
      atmCapFloorStrikes_ := List.replicate n 0
      atmCapFloorPrices_ := List.replicate n 0
      spreadsVolImplied_ := List.replicate n 0
      caps_ := List.replicate n default
      maxEvaluations_ := 10000
      accuracy_ := 1 / 1000000 }
  if self.dc_ = atmCapFloorTermVolCurve.dayCounter then .ok self
  else .error "different day counters provided"

/-- First block of `performCalculations`: the upstream data copied into this object. -/
def copyUpstream (self : OptionletStripper2) : OptionletStripper2 :=
  let s0 : OptionletStripper2 :=
    { self with
      optionletDates_ := self.stripper1_.optionletFixingDates_
      optionletPaymentDates_ := self.stripper1_.optionletPaymentDates_
      optionletAccrualPeriods_ := self.stripper1_.optionletAccrualPeriods_
      optionletTimes_ := self.stripper1_.optionletFixingTimes_
      atmOptionletRate_ := self.stripper1_.atmOptionletRates_ }
  (List.range s0.optionletTimes_.length).foldl
    (fun s i =>
      { s with
        optionletStrikes_ := s.optionletStrikes_.set i (s.stripper1_.optionletStrikes i)
        optionletVolatilities_ :=
          s.optionletVolatilities_.set i (s.stripper1_.optionletVolatilities i) })
    s0

/-- Body of the loop building, for tenor `j`, the reference cap priced on the flat ATM
volatility, its ATM strike and its price.  A failing valuation throws after `caps_[j]` and
`atmCapFloorStrikes_[j]` were written. -/
def atmStep (pricing : Pricing) (q : Quotes) (optionExpiriesTenors : List Period)
    (optionExpiriesTimes : List Time) (self : OptionletStripper2) (j : Size) :
    Except String Unit × OptionletStripper2 :=
  let r := self.atmCapFloorTermVolCurve_.volatility q (optionExpiriesTimes.getD j 0)
    (333333 / 10000)
  let atmOptionVol := r.1
  let engine := PricingEngine.flat atmOptionVol self.dc_
  let cap : CapFloor :=
    (⟨pricing.makeCapFloor (optionExpiriesTenors.getD j default), .none, false, 0⟩ :
      CapFloor).setPricingEngine engine
  let s1 : OptionletStripper2 :=
    { self with
      atmCapFloorTermVolCurve_ := r.2
      caps_ := self.caps_.set j cap
      atmCapFloorStrikes_ := self.atmCapFloorStrikes_.set j (pricing.atmRate cap.terms) }
  match cap.NPV pricing 0 with
  | (.ok v, cap1) =>
    (.ok (), { s1 with caps_ := s1.caps_.set j cap1
                       atmCapFloorPrices_ := s1.atmCapFloorPrices_.set j v })
  | (.error e, cap1) => (.error e, { s1 with caps_ := s1.caps_.set j cap1 })

/-- The loop `for (j=0; j<nOptionExpiries_; ++j)` over `atmStep`, leaving at the first
failure. -/
def atmLoop (pricing : Pricing) (q : Quotes) (optionExpiriesTenors : List Period)
    (optionExpiriesTimes : List Time) :
    List Size → OptionletStripper2 → Except String Unit × OptionletStripper2
  | [], self => (.ok (), self)
  | j :: js, self =>
    match atmStep pricing q optionExpiriesTenors optionExpiriesTimes self j with
    | (.ok (), s1) => atmLoop pricing q optionExpiriesTenors optionExpiriesTimes js s1
    | (.error e, s1) => (.error e, s1)

/-- The loop of `spreadsVolImplied` over the tenors `js`, writing the roots into `result`.
The objective function and the solver work on the cap behind `caps_[j]`; of that cap the
rest of the pass reads only the floating leg, which they do not change, so the cap in
`caps_` is left as it is. -/
def spreadsLoop (pricing : Pricing) (solve : Solver1D) (self : OptionletStripper2) :
    List Size → List Volatility → Except String (List Volatility)
  | [], result => .ok result
  | j :: js, result =>
    let guess : Volatility := 1 / 10000
    let minSpread : Volatility := -1 / 10
    let maxSpread : Volatility := 1 / 10
    let f := ObjectiveFunction.new self.stripper1_ (self.caps_.getD j default)
      (self.atmCapFloorPrices_.getD j 0)
    match solve (ObjectiveFunction.call pricing) f self.accuracy_ guess minSpread maxSpread
        self.maxEvaluations_ with
    | .error e => .error e
    | .ok root => spreadsLoop pricing solve self js (result.set j root)

/-- The source function `OptionletStripper2::spreadsVolImplied`. -/
def spreadsVolImplied (pricing : Pricing) (solve : Solver1D) (self : OptionletStripper2) :
    Except String (List Volatility) :=
  spreadsLoop pricing solve self (List.range self.nOptionExpiries_)
    (List.replicate self.nOptionExpiries_ 0)

/-- Body of the insertion loops for tenor `j` and expiry `i`. -/
def insertAtm (pricing : Pricing) (j i : Size) (self : OptionletStripper2) : OptionletStripper2 :=
  if i ≤ (self.caps_.getD j default).floatingLegSize then
    let unadjustedVol := pricing.adapterVolatility self.stripper1_ (self.optionletTimes_.getD i 0)
      (self.atmCapFloorStrikes_.getD j 0)
    let adjustedVol := unadjustedVol + self.spreadsVolImplied_.getD j 0
    let insertIndex := lowerBound (self.atmCapFloorStrikes_.getD j 0)
      (self.optionletStrikes_.getD i [])
    let s1 : OptionletStripper2 :=
      { self with
        optionletStrikes_ := self.optionletStrikes_.set i
          (vectorInsert (self.optionletStrikes_.getD i []) insertIndex
            (self.atmCapFloorStrikes_.getD j 0)) }
    { s1 with
      optionletVolatilities_ := s1.optionletVolatilities_.set i
        (vectorInsert (s1.optionletVolatilities_.getD i []) insertIndex adjustedVol) }
  else self

/-- The nested insertion loops of `performCalculations`. -/
def insertionLoops (pricing : Pricing) (self : OptionletStripper2) : OptionletStripper2 :=
  (List.range self.nOptionExpiries_).foldl
    (fun s j =>
      (List.range s.optionletVolatilities_.length).foldl (fun s i => insertAtm pricing j i s) s)
    self

/-- The state after the first two blocks of `performCalculations`: upstream data copied and
the ATM caps, strikes and prices built. -/
def atmStage (pricing : Pricing) (q : Quotes) (self : OptionletStripper2) :
    Except String Unit × OptionletStripper2 :=
  let s1 := self.copyUpstream
  let optionExpiriesTenors := s1.atmCapFloorTermVolCurve_.optionTenors
  let r := s1.atmCapFloorTermVolCurve_.optionTimes q
  let s2 : OptionletStripper2 := { s1 with atmCapFloorTermVolCurve_ := r.2 }
  atmLoop pricing q optionExpiriesTenors r.1 (List.range s2.nOptionExpiries_) s2

/-- The source function `OptionletStripper2::performCalculations`: the outcome and the object afterwards. -/
def performCalculations (pricing : Pricing) (solve : Solver1D) (q : Quotes)
    (self : OptionletStripper2) : Except String Unit × OptionletStripper2 :=
  match self.atmStage pricing q with
  | (.error e, s3) => (.error e, s3)
  | (.ok (), s3) =>
    match s3.spreadsVolImplied pricing solve with
    | .error e => (.error e, s3)
    | .ok spreads =>
      let s4 : OptionletStripper2 := { s3 with spreadsVolImplied_ := spreads }
      (.ok (), s4.insertionLoops pricing)

/-- Modelled from the spec: `LazyObject::calculate()`: runs `performCalculations` if the
object is stale; a failure leaves it stale and is rethrown. -/
def calculate (pricing : Pricing) (solve : Solver1D) (q : Quotes) (self : OptionletStripper2) :
    Except String Unit × OptionletStripper2 :=
  if self.calculated_ then (.ok (), self)
  else
    match performCalculations pricing solve q { self with calculated_ := true } with
    | (.ok (), s) => (.ok (), s)
    | (.error e, s) => (.error e, { s with calculated_ := false })

/-- The source function `OptionletStripper2::spreadsVol`. -/
def spreadsVol (pricing : Pricing) (solve : Solver1D) (q : Quotes) (self : OptionletStripper2) :
    Except String (List Volatility) × OptionletStripper2 :=
  match self.calculate pricing solve q with
  | (.ok (), s) => (.ok s.spreadsVolImplied_, s)
  | (.error e, s) => (.error e, s)

/-- The source function `OptionletStripper2::atmCapFloorStrikes`. -/
def atmCapFloorStrikes (pricing : Pricing) (solve : Solver1D) (q : Quotes)
    (self : OptionletStripper2) : Except String (List Rate) × OptionletStripper2 :=
  match self.calculate pricing solve q with
  | (.ok (), s) => (.ok s.atmCapFloorStrikes_, s)
  | (.error e, s) => (.error e, s)

/-- The source function `OptionletStripper2::atmCapFloorPrices`. -/
def atmCapFloorPrices (pricing : Pricing) (solve : Solver1D) (q : Quotes)
    (self : OptionletStripper2) : Except String (List Real) × OptionletStripper2 :=
  match self.calculate pricing solve q with
  | (.ok (), s) => (.ok s.atmCapFloorPrices_, s)
  | (.error e, s) => (.error e, s)

/-! ### Vocabulary for the statements about a calibration pass -/

/-- Two states that differ at most in the per-expiry strike and volatility grids. -/
def SameButGrids (a b : OptionletStripper2) : Prop :=
  a = { b with optionletStrikes_ := a.optionletStrikes_
               optionletVolatilities_ := a.optionletVolatilities_ }

/-- Two states that differ at most in what the ATM loop writes: the reference caps, the
ATM strikes and prices, and the (lazily recalculated) ATM curve. -/
def SameButAtm (a b : OptionletStripper2) : Prop :=
  a = { b with atmCapFloorTermVolCurve_ := a.atmCapFloorTermVolCurve_
               caps_ := a.caps_
               atmCapFloorStrikes_ := a.atmCapFloorStrikes_
               atmCapFloorPrices_ := a.atmCapFloorPrices_ }

/-- The objective function `spreadsVolImplied` builds for tenor `j`. -/
def objective (self : OptionletStripper2) (j : Size) : ObjectiveFunction :=
  ObjectiveFunction.new self.stripper1_ (self.caps_.getD j default)
    (self.atmCapFloorPrices_.getD j 0)

/-- The root finder run `spreadsVolImplied` makes for tenor `j`. -/
def solveTenor (pricing : Pricing) (solve : Solver1D) (self : OptionletStripper2) (j : Size) :
    Except String Real :=
  solve (ObjectiveFunction.call pricing) (self.objective j) self.accuracy_ (1 / 10000)
    (-1 / 10) (1 / 10) self.maxEvaluations_

/-- The strike grid and the volatility grid of expiry `i`. -/
def grid (self : OptionletStripper2) (i : Size) : List Rate × List Volatility :=
  (self.optionletStrikes_.getD i [], self.optionletVolatilities_.getD i [])

/-- The tenors whose ATM point goes into the grids of expiry `i`, in insertion order. -/
def insertedTenors (self : OptionletStripper2) (i : Size) : List Size :=
  (List.range self.nOptionExpiries_).filter
    fun j => decide (i ≤ (self.caps_.getD j default).floatingLegSize)

/-- The point of tenor `j` for expiry `i`: the tenor's ATM strike, and the upstream surface
volatility at (fixing time `i`, that strike) plus the tenor's solved spread. -/
def atmPoint (pricing : Pricing) (self : OptionletStripper2) (j i : Size) : Rate × Volatility :=
  (self.atmCapFloorStrikes_.getD j 0,
    pricing.adapterVolatility self.stripper1_ (self.stripper1_.optionletFixingTimes_.getD i 0)
      (self.atmCapFloorStrikes_.getD j 0) + self.spreadsVolImplied_.getD j 0)

end OptionletStripper2

/-- Insertion of one (strike, volatility) point into the grids of one expiry: both at the
lower-bound position of the strike in the strike grid. -/
def insertPoint (g : List Rate × List Volatility) (p : Rate × Volatility) :
    List Rate × List Volatility :=
  (vectorInsert g.1 (lowerBound p.1 g.1) p.1, vectorInsert g.2 (lowerBound p.1 g.1) p.2)

/-! ## A concrete market, used to instantiate the statements -/

/-- Date services of a toy market: periods are compared by length (never throwing), a
period advances a date by 365 days per unit of length and the year fraction is
Actual/365. -/
def exampleDateServices : DateServices :=
  { periodGt := fun a b => .ok (decide (b.length < a.length))
    advance := fun _ d p _ => d + 365 * p.length
    yearFraction := fun _ a b => ((b - a : Int) : Real) / 365 }

def exampleCalendar : Calendar := ⟨"TARGET"⟩

/-- Market quotes all equal to zero. -/
def exampleQuotes : Quotes := fun _ => 0

/-- A small upstream stripper: two optionlets, the same two strikes for each. -/
def exampleStripper1 : OptionletStripper1 :=
  { termVolSurfaceDayCounter := Actual365Fixed
    optionletFixingDates_ := [182, 365]
    optionletPaymentDates_ := [365, 547]
    optionletAccrualPeriods_ := [1 / 2, 1 / 2]
    optionletFixingTimes_ := [1 / 2, 1]
    atmOptionletRates_ := [3 / 100, 3 / 100]
    optionletStrikes_ := [[1 / 100, 3 / 100], [1 / 100, 3 / 100]]
    optionletVolatilities_ := [[1 / 5, 1 / 5], [1 / 5, 1 / 5]] }

/-- The ATM curve with tenors 1Y and 2Y and volatilities 0.20 and 0.22, as its fixed-data
constructor leaves it. -/
def exampleCurve : CapFloorTermVolCurve :=
  ((CapFloorTermVolCurve.members (.settlementDate 0) exampleCalendar 0
      [⟨1, .Years⟩, ⟨2, .Years⟩] (.numbers [1 / 5, 11 / 50])
      Actual365Fixed).initializeOptionDatesAndTimes exampleDateServices ⟨0⟩).fillHandles.interpolate

/-- The scenario curve: tenors 1Y, 2Y, 5Y with volatilities 0.20, 0.22, 0.25 under
Actual/365 (Fixed), as its fixed-data constructor leaves it in the toy market. -/
def exampleScenarioCurve : CapFloorTermVolCurve :=
  ((CapFloorTermVolCurve.members (.settlementDate 0) exampleCalendar 0
      [⟨1, .Years⟩, ⟨2, .Years⟩, ⟨5, .Years⟩] (.numbers [1 / 5, 11 / 50, 1 / 4])
      Actual365Fixed).initializeOptionDatesAndTimes exampleDateServices ⟨0⟩).fillHandles.interpolate

/-- The stripper built on `exampleStripper1` and `exampleCurve`, as its constructor leaves
it. -/
def exampleStripper2 : OptionletStripper2 :=
  { optionletDates_ := [0, 0]
    optionletPaymentDates_ := [0, 0]
    optionletAccrualPeriods_ := [0, 0]
    optionletTimes_ := [0, 0]
    atmOptionletRate_ := [0, 0]
    optionletStrikes_ := [[], []]
    optionletVolatilities_ := [[], []]
    calculated_ := false
    stripper1_ := exampleStripper1
    atmCapFloorTermVolCurve_ := exampleCurve
    dc_ := Actual365Fixed
    nOptionExpiries_ := 2
    atmCapFloorStrikes_ := [0, 0]
    atmCapFloorPrices_ := [0, 0]
    spreadsVolImplied_ := [0, 0]
    caps_ := [default, default]
    maxEvaluations_ := 10000
    accuracy_ := 1 / 1000000 }

/-- Valuation services of a toy market: a cap of `n` years has `2 n` coupons, its ATM rate
grows with the number of coupons, its price is the volatility the surface gives at the
origin, and the upstream surface is flat at 0.20. -/
def examplePricing : Pricing :=
  { makeCapFloor := fun p => ⟨p, 2 * p.length.toNat⟩
    atmRate := fun terms => 1 / 50 + (terms.floatingLegSize : Real) / 1000
    blackNPV := fun _ surface => .ok (surface 0 0)
    adapterVolatility := fun _ _ _ => 1 / 5 }

/-- The toy market with a flat forward curve: every cap has the ATM rate 0.03. -/
def flatForwardPricing : Pricing :=
  { examplePricing with atmRate := fun _ => 3 / 100 }

/-- A root finder for the toy market: one step of slope one from the guess, accepted if
the residual there is within the accuracy. -/
def exampleSolver : Solver1D := fun call f accuracy guess _ _ _ =>
  match call f guess with
  | (.error e, _) => .error e
  | (.ok v, f1) =>
    match call f1 (guess - v) with
    | (.error e, _) => .error e
    | (.ok w, _) => if |w| ≤ accuracy then .ok (guess - v) else .error "convergence failure"

/-- A root finder that never brackets a root. -/
def failingSolver : Solver1D := fun _ _ _ _ _ _ _ => .error "root not bracketed"

/-! ## Notifications and recalculations of the curve -/

namespace CapFloorTermVolCurve

/-- The source function `CapFloorTermVolCurve::update`: with a floating reference date the
option dates and times are recomputed when the evaluation date is not the recorded one;
then the base-class updates run, of which `LazyObject::update()` marks the curve stale. -/
def update (env : DateServices) (settings : Settings) (c : CapFloorTermVolCurve) :
    CapFloorTermVolCurve :=
  let c1 : CapFloorTermVolCurve :=
    if c.moving_ then
      let d := settings.evaluationDate
      if c.evaluationDate_ ≠ d then
        ({ c with evaluationDate_ := d } : CapFloorTermVolCurve).initializeOptionDatesAndTimes
          env settings
      else c
    else c
  { c1 with calculated_ := false }

end CapFloorTermVolCurve

/-- What happens to a curve after its construction: a notification from an observable,
under the settings then in force; a read, which recalculates a stale curve from the quotes
then current; or a recalculation run directly. -/
inductive CurveEvent where
  | notified (settings : Settings)
  | read (q : Quotes)
  | recalculated (q : Quotes)

/-- The curve after one event. -/
def CapFloorTermVolCurve.step (env : DateServices) (c : CapFloorTermVolCurve) :
    CurveEvent → CapFloorTermVolCurve
  | .notified settings => c.update env settings
  | .read q => c.calculate q
  | .recalculated q => c.performCalculations q

/-- The curve after a sequence of events. -/
def CapFloorTermVolCurve.after (env : DateServices) (c : CapFloorTermVolCurve)
    (events : List CurveEvent) : CapFloorTermVolCurve :=
  events.foldl (CapFloorTermVolCurve.step env) c

/-- The toy market with shorter caps: a cap of `n` years has `n` coupons. -/
def shortLegPricing : Pricing :=
  { examplePricing with makeCapFloor := fun p => ⟨p, p.length.toNat⟩ }

/-! ## OvernightIndexedSwap -/

/-- State of an `OvernightIndexedSwap`: its own members that carry numbers and the results
of its `Swap` and `Instrument` bases (`Swap(2)` sizes the per-leg vectors to two entries:
the fixed leg is leg 0 and the overnight leg is leg 1). -/
structure OvernightIndexedSwap where
  nominals_ : List Real
  fixedRate_ : Rate
  spread_ : Real
  calculated_ : Bool
  NPV_ : Real
  legBPS_ : List Real
  legNPV_ : List Real
  payer_ : List Real

/-- What the swap's result accessors rely on without its code being among the translated
headers: the sentinel `Null<Real>()` and `Instrument::calculate()`, which may throw and
otherwise leaves the results stored in the object.  They are parameters. -/
structure SwapServices where
  nullReal : Real
  calculate : OvernightIndexedSwap → Except String Unit × OvernightIndexedSwap

namespace OvernightIndexedSwap

/-- The source function `OvernightIndexedSwap::nominal`. -/
def nominal (self : OvernightIndexedSwap) : Except String Real :=
  if self.nominals_.length = 1 then .ok (self.nominals_.getD 0 0) else .error "varying nominals"

/-- The source function `OvernightIndexedSwap::fixedLegBPS`: the outcome and the object
afterwards. -/
def fixedLegBPS (env : SwapServices) (self : OvernightIndexedSwap) :
    Except String Real × OvernightIndexedSwap :=
  match env.calculate self with
  | (.error e, s) => (.error e, s)
  | (.ok (), s) =>
    if s.legBPS_.getD 0 0 ≠ env.nullReal then (.ok (s.legBPS_.getD 0 0), s)
    else (.error "result not available", s)

/-- The source function `OvernightIndexedSwap::overnightLegBPS`. -/
def overnightLegBPS (env : SwapServices) (self : OvernightIndexedSwap) :
    Except String Real × OvernightIndexedSwap :=
  match env.calculate self with
  | (.error e, s) => (.error e, s)
  | (.ok (), s) =>
    if s.legBPS_.getD 1 0 ≠ env.nullReal then (.ok (s.legBPS_.getD 1 0), s)
    else (.error "result not available", s)

/-- The source function `OvernightIndexedSwap::fixedLegNPV`. -/
def fixedLegNPV (env : SwapServices) (self : OvernightIndexedSwap) :
    Except String Real × OvernightIndexedSwap :=
  match env.calculate self with
  | (.error e, s) => (.error e, s)
  | (.ok (), s) =>
    if s.legNPV_.getD 0 0 ≠ env.nullReal then (.ok (s.legNPV_.getD 0 0), s)
    else (.error "result not available", s)

/-- The source function `OvernightIndexedSwap::overnightLegNPV`. -/
def overnightLegNPV (env : SwapServices) (self : OvernightIndexedSwap) :
    Except String Real × OvernightIndexedSwap :=
  match env.calculate self with
  | (.error e, s) => (.error e, s)
  | (.ok (), s) =>
    if s.legNPV_.getD 1 0 ≠ env.nullReal then (.ok (s.legNPV_.getD 1 0), s)
    else (.error "result not available", s)

end OvernightIndexedSwap

/-- A swap as constructed, before any calculation. -/
def exampleSwap : OvernightIndexedSwap :=
  { nominals_ := [100]
    fixedRate_ := 1 / 50
    spread_ := 0
    calculated_ := false
    NPV_ := 0
    legBPS_ := [-1, -1]
    legNPV_ := [-1, -1]
    payer_ := [1, -1] }

/-- Swap services with the sentinel `-1` and a calculation that stores the results of the
fixed leg only. -/
def exampleSwapServices : SwapServices :=
  { nullReal := -1
    calculate := fun x =>
      (.ok (), { x with calculated_ := true, legBPS_ := [3, -1], legNPV_ := [5, -1] }) }

/-! ## Rounding of the machine arithmetic

The statements on the copula turn on whether a denominator is exactly zero, which the
rounding of the `double` operations decides.  There every arithmetic operation of the
source is followed by the rounding `fl` of the arithmetic it runs in: the identity for
exact arithmetic, `binary64` for IEEE 754 double precision. -/

/-- Rounding of a rational to the nearest integer, ties to the even one. -/
def roundHalfEven (q : Real) : Int :=
  if q - ⌊q⌋ < 1 / 2 then ⌊q⌋
  else if 1 / 2 < q - ⌊q⌋ then ⌊q⌋ + 1
  else if ⌊q⌋ % 2 = 0 then ⌊q⌋ else ⌊q⌋ + 1

/-- The exponent of the binade of a positive number in binary64: `⌊log₂ x⌋`, and `-1022`
for everything below `2^-1022` (the subnormal numbers share the exponent of the smallest
normal ones). -/
def binade (x : Real) : Int := max (Int.log 2 x) (-1022)

/-- The spacing of the binary64 numbers in the binade of `x`: 53 significant bits. -/
def ulp (x : Real) : Real := (2 : Real) ^ (binade x - 52)

/-- Rounding of a non-negative number to the nearest multiple of the spacing of its
binade, ties to the even multiple. -/
def roundMagnitude (x : Real) : Real := (roundHalfEven (x / ulp x) : Real) * ulp x

/-- The rounding of IEEE 754 binary64 (`double`) arithmetic in its default mode: to the
nearest representable number, ties to even, on sign and magnitude.  Overflow to an
infinity (beyond about `1.8e308`) is not modelled; the operations of the copula stay
within `[-2^53, 2^53]`. -/
def binary64 (x : Real) : Real :=
  if 0 ≤ x then roundMagnitude x else -roundMagnitude (-x)

/-- The laws of a rounding to nearest that the statements on the copula use: it is
monotone, it leaves its own values, zero and one as they are, and the difference of one
and a machine number rounds to zero only if it is zero. -/
structure IsRounding (fl : Real → Real) : Prop where
  mono : ∀ a b : Real, a ≤ b → fl a ≤ fl b
  idem : ∀ a : Real, fl (fl a) = fl a
  zero : fl 0 = 0
  one : fl 1 = 1
  sub_one : ∀ a : Real, fl (1 - fl a) = 0 → fl a = 1

/-! ## AliMikhailHaqCopula -/

/-- The quotient `a/b` of two `Real`s as the source computes it: a division by zero throws
nothing and yields a non-finite number (an infinity or a NaN), which the rationals do not
have and which is `none` here. -/
def divide (a b : Real) : Option Real :=
  if b = 0 then none else some (a / b)

structure AliMikhailHaqCopula where
  theta_ : Real
deriving DecidableEq

namespace AliMikhailHaqCopula

/-- The constructor `AliMikhailHaqCopula::AliMikhailHaqCopula`. -/
def new (theta : Real) : Except String AliMikhailHaqCopula :=
  if theta ≥ -1 ∧ theta ≤ 1 then .ok ⟨theta⟩ else .error "theta must be in [-1,1]"

/-- The denominator `1.0-theta_*(1.0-x)*(1.0-y)` of the quotient `operator()` returns, each
operation rounded by `fl`. -/
def denominator (fl : Real → Real) (self : AliMikhailHaqCopula) (x y : Real) : Real :=
  fl (1 - fl (fl (self.theta_ * fl (1 - x)) * fl (1 - y)))

/-- The source function `AliMikhailHaqCopula::operator()` in the arithmetic with rounding
`fl`.  The division throws nothing: on a zero denominator it yields a non-finite number,
which is `none` here. -/
def call (fl : Real → Real) (self : AliMikhailHaqCopula) (x y : Real) :
    Except String (Option Real) :=
  if ¬ (x ≥ 0 ∧ x ≤ 1) then .error "1st argument must be in [0,1]"
  else if ¬ (y ≥ 0 ∧ y ≤ 1) then .error "2nd argument must be in [0,1]"
  else .ok ((divide (fl (x * y))
    (fl (1 - fl (fl (self.theta_ * fl (1 - x)) * fl (1 - y))))).map fl)

end AliMikhailHaqCopula

/-! ## BernsteinPolynomial -/

namespace BernsteinPolynomial

/-- The source function `BernsteinPolynomial::get`.  `Natural` and `int` are the unbounded
naturals and integers (the wrap-around of the machine types is not modelled), so `n-i` is
the truncated subtraction and `int(i)` the inclusion of the naturals in the integers;
`std::pow(x, int)` is the integer power.  `Factorial::get`, whose table is not among the
translated headers, is the parameter `factorial`. -/
def get (factorial : Natural → Real) (i n : Natural) (x : Real) : Real :=
  let coeff : Real := factorial n / (factorial (n - i) * factorial i)
  coeff * x ^ (Int.ofNat i) * (1 - x) ^ (Int.ofNat (n - i))

end BernsteinPolynomial

/-! ## Least-square cost function -/

/-- A `QuantLib::Array`: a vector of `Real`s. -/
abbrev Array := List Real

/-- A `QuantLib::Matrix`: its dimensions and its rows. -/
structure Matrix where
  rows_ : Size
  columns_ : Size
  data_ : List (List Real)
deriving DecidableEq

namespace Matrix

/-- The element `m[i][j]`. -/
def elem (m : Matrix) (i j : Size) : Real := (m.data_.getD i []).getD j 0

end Matrix

/-- Modelled from the spec: `Array(size)`, whose `Array` class is not among the translated
headers: a vector of `size` elements (zeros here; the source leaves them indeterminate
until the problem has written them). -/
def Array.ofSize (size : Size) : Array := List.replicate size 0

/-- Modelled from the spec: `Matrix(rows, columns)`: a matrix of the given dimensions. -/
def Matrix.ofSize (rows columns : Size) : Matrix :=
  ⟨rows, columns, List.replicate rows (List.replicate columns 0)⟩

/-- Modelled from the spec: `operator-(const Array&, const Array&)`: the element-wise
difference, required to be of arrays of one size. -/
def Array.sub (v1 v2 : Array) : Except String Array :=
  if v1.length = v2.length then .ok (List.zipWith (· - ·) v1 v2)
  else .error "arrays with different sizes cannot be subtracted"

/-- Modelled from the spec: `operator*(const Array&, const Array&)`: the element-wise
product, required to be of arrays of one size. -/
def Array.mul (v1 v2 : Array) : Except String Array :=
  if v1.length = v2.length then .ok (List.zipWith (· * ·) v1 v2)
  else .error "arrays with different sizes cannot be multiplied"

/-- Modelled from the spec: `DotProduct(const Array&, const Array&)`: "the scalar
product", required to be of arrays of one size. -/
def DotProduct (v1 v2 : Array) : Except String Real :=
  if v1.length = v2.length then .ok (List.zipWith (· * ·) v1 v2).sum
  else .error "arrays with different sizes cannot be multiplied"

/-- Modelled from the spec: `transpose(const Matrix&)`. -/
def transpose (m : Matrix) : Matrix :=
  ⟨m.columns_, m.rows_,
    (List.range m.columns_).map fun j => (List.range m.rows_).map fun i => m.elem i j⟩

/-- Modelled from the spec: `operator*(const Matrix&, const Array&)`: the product of a
matrix and a vector, required to have as many elements as the matrix has columns. -/
def Matrix.mulVec (m : Matrix) (v : Array) : Except String Array :=
  if v.length = m.columns_ then
    .ok ((List.range m.rows_).map fun i =>
      ((List.range m.columns_).map fun k => v.getD k 0 * m.elem i k).sum)
  else .error "vectors and matrices with different sizes cannot be multiplied"

/-- Modelled from the spec: `operator*(Real, const Array&)`: the multiple of a vector. -/
def Array.smul (a : Real) (v : Array) : Array := v.map fun e => a * e

/-- The interface `LeastSquareProblem`: the size of the target vector and the two
evaluations, which write into the arrays (and the matrix) they are passed and are taken
to return. -/
structure LeastSquareProblem where
  size : Size
  targetAndValue : Array → Array → Array → Array × Array
  targetValueAndGradient : Array → Matrix → Array → Array → Matrix × Array × Array

namespace LeastSquareFunction

/-- The source function `LeastSquareFunction::value`. -/
def value (lsp_ : LeastSquareProblem) (x : Array) : Except String Real :=
  let r := lsp_.targetAndValue x (Array.ofSize lsp_.size) (Array.ofSize lsp_.size)
  match Array.sub r.1 r.2 with
  | .error e => .error e
  | .ok diff => DotProduct diff diff

/-- The source function `LeastSquareFunction::values`. -/
def values (lsp_ : LeastSquareProblem) (x : Array) : Except String Array :=
  let r := lsp_.targetAndValue x (Array.ofSize lsp_.size) (Array.ofSize lsp_.size)
  match Array.sub r.1 r.2 with
  | .error e => .error e
  | .ok diff => Array.mul diff diff

/-- The source function `LeastSquareFunction::gradient`: the outcome and `grad_f`
afterwards. -/
def gradient (lsp_ : LeastSquareProblem) (grad_f : Array) (x : Array) :
    Except String Unit × Array :=
  let r := lsp_.targetValueAndGradient x (Matrix.ofSize lsp_.size x.length)
    (Array.ofSize lsp_.size) (Array.ofSize lsp_.size)
  match Array.sub r.2.1 r.2.2 with
  | .error e => (.error e, grad_f)
  | .ok diff =>
    match (transpose r.1).mulVec diff with
    | .error e => (.error e, grad_f)
    | .ok g => (.ok (), Array.smul (-2) g)

/-- The source function `LeastSquareFunction::valueAndGradient`: the outcome and `grad_f`
afterwards. -/
def valueAndGradient (lsp_ : LeastSquareProblem) (grad_f : Array) (x : Array) :
    Except String Real × Array :=
  let r := lsp_.targetValueAndGradient x (Matrix.ofSize lsp_.size x.length)
    (Array.ofSize lsp_.size) (Array.ofSize lsp_.size)
  match Array.sub r.2.1 r.2.2 with
  | .error e => (.error e, grad_f)
  | .ok diff =>
    match (transpose r.1).mulVec diff with
    | .error e => (.error e, grad_f)
    | .ok g => (DotProduct diff diff, Array.smul (-2) g)

end LeastSquareFunction

/-- A least-square problem with two residuals in one unknown: target `(1, 2)`, fitted
values `(x, x²)` and derivatives `(1, 2x)`. -/
def exampleProblem : LeastSquareProblem :=
  { size := 2
    targetAndValue := fun x _ _ => ([1, 2], [x.getD 0 0, x.getD 0 0 * x.getD 0 0])
    targetValueAndGradient := fun x _ _ _ =>
      (⟨2, 1, [[1], [2 * x.getD 0 0]]⟩, [1, 2], [x.getD 0 0, x.getD 0 0 * x.getD 0 0]) }

/-! ## LatticeRsg -/

/-- The library routine `std::fmod(x, y)`: `x - n*y` with `n` the quotient `x/y` truncated
towards zero. -/
def fmod (x y : Real) : Real :=
  x - (if 0 ≤ x / y then (⌊x / y⌋ : Int) else (⌈x / y⌉ : Int)) * y

/-- A `Sample<std::vector<Real> >`: a value and its weight. -/
structure Sample where
  value : List Real
  weight : Real
deriving DecidableEq

structure LatticeRsg where
  dimensionality_ : Size
  N_ : Size
  i_ : Size
  z_ : List Real
  sequence_ : Sample
deriving DecidableEq

namespace LatticeRsg

/-- The constructor `LatticeRsg::LatticeRsg`. -/
def new (dimensionality : Size) (z : List Real) (N : Size) : LatticeRsg :=
  { dimensionality_ := dimensionality
    N_ := N
    i_ := 0
    z_ := z
    sequence_ := ⟨List.replicate dimensionality 0, 1⟩ }

/-- The source function `LatticeRsg::skipTo`. -/
def skipTo (self : LatticeRsg) (n : Nat) : LatticeRsg :=
  { self with i_ := self.i_ + n }

/-- The source function `LatticeRsg::nextSequence`: the sample returned and the generator
afterwards.  The quotient by `N_` is the division of the rationals (for `N_ = 0` the source
yields non-finite numbers). -/
def nextSequence (self : LatticeRsg) : Sample × LatticeRsg :=
  let s1 : LatticeRsg := (List.range self.dimensionality_).foldl
    (fun s j =>
      let theta : Real := (s.i_ : Real) * s.z_.getD j 0 / (s.N_ : Real)
      { s with sequence_ := { s.sequence_ with value := s.sequence_.value.set j (fmod theta 1) } })
    self
  let s2 : LatticeRsg := { s1 with i_ := s1.i_ + 1 }
  (s2.sequence_, s2)

def dimension (self : LatticeRsg) : Size := self.dimensionality_

def lastSequence (self : LatticeRsg) : Sample := self.sequence_

/-- The generator after `k` calls of `nextSequence`. -/
def afterDraws (self : LatticeRsg) : Nat → LatticeRsg
  | 0 => self
  | k + 1 => (self.afterDraws k).nextSequence.2

end LatticeRsg

namespace OptionletStripper2

/-- The sizes the constructor gives the vectors of an `OptionletStripper2`: one strike
grid and one volatility grid per upstream optionlet, and one reference cap, one ATM strike
and one ATM price per tenor of the ATM curve. -/
def Sized (s : OptionletStripper2) : Prop :=
  s.optionletStrikes_.length = s.stripper1_.optionletFixingTimes_.length ∧
    s.optionletVolatilities_.length = s.stripper1_.optionletFixingTimes_.length ∧
    s.caps_.length = s.nOptionExpiries_ ∧
    s.atmCapFloorStrikes_.length = s.nOptionExpiries_ ∧
    s.atmCapFloorPrices_.length = s.nOptionExpiries_

end OptionletStripper2

end QuantLib

namespace QuantLib

/-! ## Validation of the curve inputs -/

theorem requireAll_eq_ok_iff (check : Nat → Except String Unit) (is : List Nat) :
    CapFloorTermVolCurve.requireAll check is = .ok () ↔ ∀ i ∈ is, check i = .ok () := by
  induction is with
  | nil => simp [CapFloorTermVolCurve.requireAll]
  | cons i is ih =>
    simp only [CapFloorTermVolCurve.requireAll, List.mem_cons, forall_eq_or_imp]
    cases h : check i with
    | error e => simp
    | ok u => simpa using ih

theorem requireIncreasing_eq_ok_iff (env : DateServices) (c : CapFloorTermVolCurve) (i : Nat) :
    c.requireIncreasing env i = .ok () ↔
      env.periodGt (c.optionTenors_.getD i default) (c.optionTenors_.getD (i - 1) default)
        = .ok true := by
  unfold CapFloorTermVolCurve.requireIncreasing
  cases h : env.periodGt (c.optionTenors_.getD i default) (c.optionTenors_.getD (i - 1) default) with
  | error e => simp
  | ok b => cases b <;> simp

/-- What `checkInputs` accepts, for a curve whose `nOptionTenors_` is the number of
tenors (as every constructor sets it). -/
theorem checkInputs_eq_ok_iff (env : DateServices) (c : CapFloorTermVolCurve)
    (hn : c.nOptionTenors_ = c.optionTenors_.length) :
    c.checkInputs env = .ok () ↔
      CapFloorTermVolCurve.ValidInputs env c.optionTenors_ c.vols_.length := by
  unfold CapFloorTermVolCurve.checkInputs CapFloorTermVolCurve.ValidInputs
  by_cases he : c.optionTenors_ = []
  · simp [he]
  have hpos : 0 < c.optionTenors_.length := List.length_pos.mpr he
  by_cases hv : c.nOptionTenors_ = c.vols_.length
  · have hv2 : c.optionTenors_.length = c.vols_.length := hn ▸ hv
    simp only [List.isEmpty_iff, he, if_false, hv, ne_eq, not_true_eq_false, not_false_eq_true,
      true_and, hv2]
    cases h0 : env.periodGt (c.optionTenors_.getD 0 default) (Period.ofUnits 0 .Days) with
    | error e => simp
    | ok b =>
      cases b
      · simp
      · simp only [requireAll_eq_ok_iff, requireIncreasing_eq_ok_iff, List.mem_range'_1, true_and]
        constructor
        · intro h i h1 h2
          exact h i ⟨h1, by omega⟩
        · intro h i hi
          exact h i hi.1 (by omega)
  · have hv2 : ¬ c.optionTenors_.length = c.vols_.length := hn ▸ hv
    simp [he, hv, hv2]

/-! ## The spline passes through its knots -/

theorem upperBound_of_forall_le (x : Real) (l : List Real) (h : ∀ e ∈ l, e ≤ x) :
    upperBound x l = l.length := by
  induction l with
  | nil => rfl
  | cons e es ih =>
    have he : ¬ x < e := not_lt.mpr (h e (List.mem_cons_self _ _))
    simp only [upperBound, he, if_false, List.length_cons]
    rw [ih (fun a ha => h a (List.mem_cons_of_mem _ ha))]

theorem upperBound_at_knot (l : List Real) (hs : l.Pairwise (· < ·)) (i : Nat)
    (hi : i < l.length) : upperBound (l.getD i 0) l = i + 1 := by
  induction l generalizing i with
  | nil => simp at hi
  | cons e es ih =>
    rw [List.pairwise_cons] at hs
    cases i with
    | zero =>
      simp only [List.getD_cons_zero, upperBound, lt_irrefl, if_false, Nat.zero_add,
        Nat.add_left_eq_self]
      cases es with
      | nil => rfl
      | cons e1 es1 =>
        have : e < e1 := hs.1 e1 (List.mem_cons_self _ _)
        simp [upperBound, this]
    | succ k =>
      have hk : k < es.length := by simpa using hi
      have hmem : es.getD k 0 ∈ es := by
        rw [List.getD_eq_getElem es 0 hk]; exact List.getElem_mem hk
      have hlt : ¬ es.getD k 0 < e := not_lt.mpr (le_of_lt (hs.1 _ hmem))
      simp only [List.getD_cons_succ, upperBound, hlt, if_false]
      rw [ih hs.2 k hk]

theorem getD_map_range (f : Nat → Real) (n j : Nat) (hj : j < n) :
    ((List.range n).map f).getD j 0 = f j := by
  rw [List.getD_eq_getElem _ _ (by simpa using hj)]
  simp

theorem knotSpacings_getD (xs : List Real) (j : Nat) (hj : j < xs.length - 1) :
    (knotSpacings xs).getD j 0 = xs.getD (j + 1) 0 - xs.getD j 0 :=
  getD_map_range _ _ _ hj

theorem secantSlopes_getD (xs ys : List Real) (j : Nat) (hj : j < xs.length - 1) :
    (secantSlopes xs ys).getD j 0
      = (ys.getD (j + 1) 0 - ys.getD j 0) / (xs.getD (j + 1) 0 - xs.getD j 0) :=
  getD_map_range _ _ _ hj

theorem hermite_right_end (y0 y1 t0 t1 h : Real) (hh : h ≠ 0) :
    y0 + h * (t0 + h * ((3 * ((y1 - y0) / h) - t1 - 2 * t0) / h
      + h * ((t1 + t0 - 2 * ((y1 - y0) / h)) / (h * h)))) = y1 := by
  field_simp
  ring

/-- The Hermite form reaches the right knot of a segment whatever the knot derivatives. -/
theorem cubic_value_at_right_knot (xs ys : List Real) (j : Nat) (hj : j < xs.length - 1)
    (hne : xs.getD (j + 1) 0 - xs.getD j 0 ≠ 0) :
    ys.getD j 0 + (xs.getD (j + 1) 0 - xs.getD j 0) *
      ((CubicInterpolation xs ys).a_.getD j 0 + (xs.getD (j + 1) 0 - xs.getD j 0) *
        ((CubicInterpolation xs ys).b_.getD j 0 + (xs.getD (j + 1) 0 - xs.getD j 0) *
          (CubicInterpolation xs ys).c_.getD j 0))
      = ys.getD (j + 1) 0 := by
  simp only [CubicInterpolation, getD_map_range _ _ _ hj, knotSpacings_getD xs j hj,
    secantSlopes_getD xs ys j hj]
  exact hermite_right_end _ _ _ _ _ hne

theorem pairwise_getD_lt (xs : List Real) (hs : xs.Pairwise (· < ·)) (i j : Nat)
    (hij : i < j) (hj : j < xs.length) : xs.getD i 0 < xs.getD j 0 := by
  rw [List.getD_eq_getElem xs 0 (lt_trans hij hj), List.getD_eq_getElem xs 0 hj]
  exact List.pairwise_iff_getElem.mp hs i j _ _ hij

theorem pairwise_getD_le (xs : List Real) (hs : xs.Pairwise (· < ·)) (i j : Nat)
    (hij : i ≤ j) (hj : j < xs.length) : xs.getD i 0 ≤ xs.getD j 0 := by
  rcases Nat.lt_or_eq_of_le hij with h | h
  · exact le_of_lt (pairwise_getD_lt xs hs i j h hj)
  · rw [h]

theorem headD_eq_getD (xs : List Real) : xs.headD 0 = xs.getD 0 0 := by
  cases xs <;> rfl

theorem getLastD_eq_getD (xs : List Real) : xs.getLastD 0 = xs.getD (xs.length - 1) 0 := by
  rw [List.getLastD_eq_getLast?, List.getLast?_eq_getElem?, List.getD_eq_getElem?_getD]

/-- The segment located for a knot: the knot's own segment, or the last segment for the
last knot. -/
theorem locate_at_knot (xs : List Real) (hs : xs.Pairwise (· < ·)) (i : Nat)
    (hi : i < xs.length) :
    Interpolation.locate xs (xs.getD i 0) = if i < xs.length - 1 then i else xs.length - 2 := by
  have h1 : ¬ xs.getD i 0 < xs.headD 0 := by
    rw [headD_eq_getD]; exact not_lt.mpr (pairwise_getD_le xs hs 0 i (Nat.zero_le _) hi)
  have h2 : ¬ xs.getD i 0 > xs.getLastD 0 := by
    rw [getLastD_eq_getD]
    exact not_lt.mpr (pairwise_getD_le xs hs i _ (by omega) (by omega))
  simp only [Interpolation.locate, h1, h2, if_false]
  by_cases hlast : i < xs.length - 1
  · have hlen : i < (xs.take (xs.length - 1)).length := by
      rw [List.length_take]; omega
    have hx : xs.getD i 0 = (xs.take (xs.length - 1)).getD i 0 := by
      rw [List.getD_eq_getElem _ _ hi, List.getD_eq_getElem _ _ hlen, List.getElem_take]
    rw [hx, upperBound_at_knot _ (hs.sublist (List.take_sublist _ _)) i hlen]
    simp [hlast]
  · have hall : ∀ e ∈ xs.take (xs.length - 1), e ≤ xs.getD i 0 := by
      intro e he
      rw [List.mem_take_iff_getElem] at he
      obtain ⟨k, hk, rfl⟩ := he
      have hk2 : k < xs.length := by omega
      rw [← List.getD_eq_getElem xs 0 hk2]
      exact pairwise_getD_le xs hs k i (by omega) hi
    rw [upperBound_of_forall_le _ _ hall, List.length_take]
    simp only [hlast, if_false, inf_of_le_left (Nat.sub_le _ _)]
    rfl

/-- The natural cubic spline through `(xs[i], ys[i])` returns `ys[i]` at `xs[i]`. -/
theorem interpolation_at_knot (xs ys : List Real) (hs : xs.Pairwise (· < ·)) (i : Nat)
    (hi : i < xs.length) :
    Interpolation.call xs ys (CubicInterpolation xs ys) (xs.getD i 0) = ys.getD i 0 := by
  have h1 : ¬ xs.getD i 0 < xs.headD 0 := by
    rw [headD_eq_getD]; exact not_lt.mpr (pairwise_getD_le xs hs 0 i (Nat.zero_le _) hi)
  have h2 : ¬ xs.getD i 0 > xs.getLastD 0 := by
    rw [getLastD_eq_getD]
    exact not_lt.mpr (pairwise_getD_le xs hs i _ (by omega) (by omega))
  simp only [Interpolation.call, h1, h2, if_false, Interpolation.value, locate_at_knot xs hs i hi]
  by_cases hlast : i < xs.length - 1
  · simp [hlast]
  · simp only [hlast, if_false]
    by_cases hone : xs.length = 1
    · have hi0 : i = 0 := by omega
      subst hi0
      simp [hone]
    · have hj : xs.length - 2 < xs.length - 1 := by omega
      have hi2 : i = xs.length - 2 + 1 := by omega
      have hne : xs.getD (xs.length - 2 + 1) 0 - xs.getD (xs.length - 2) 0 ≠ 0 := by
        have := pairwise_getD_lt xs hs (xs.length - 2) (xs.length - 2 + 1) (by omega) (by omega)
        exact ne_of_gt (sub_pos.mpr this)
      rw [hi2]
      exact cubic_value_at_right_knot xs ys _ hj hne

theorem bodyHandles_of_checkInputs_error (env : DateServices) (settings : Settings)
    (c : CapFloorTermVolCurve) (e : String) (h : c.checkInputs env = .error e) :
    c.bodyHandles env settings = .error e := by
  simp [CapFloorTermVolCurve.bodyHandles, h]

theorem bodyFixed_of_checkInputs_error (env : DateServices) (settings : Settings)
    (c : CapFloorTermVolCurve) (e : String) (h : c.checkInputs env = .error e) :
    c.bodyFixed env settings = .error e := by
  simp [CapFloorTermVolCurve.bodyFixed, h]

theorem members_optionTenors (ref : ReferenceDateArg) (calendar : Calendar)
    (bdc : BusinessDayConvention) (optionTenors : List Period) (data : MarketDataArg)
    (dc : DayCounter) :
    (CapFloorTermVolCurve.members ref calendar bdc optionTenors data dc).optionTenors_
        = optionTenors ∧
      (CapFloorTermVolCurve.members ref calendar bdc optionTenors data dc).nOptionTenors_
        = optionTenors.length ∧
      (CapFloorTermVolCurve.members ref calendar bdc optionTenors data dc).vols_.length
        = data.size := by
  cases ref <;> cases data <;>
    simp [CapFloorTermVolCurve.members, CapFloorTermVolCurve.init, MarketDataArg.size]

/-- Every overload runs `checkInputs` on its freshly initialised members and throws what
`checkInputs` throws. -/
theorem new_of_checkInputs_error (env : DateServices) (settings : Settings)
    (ref : ReferenceDateArg) (calendar : Calendar) (bdc : BusinessDayConvention)
    (optionTenors : List Period) (data : MarketDataArg) (dc : DayCounter) (e : String)
    (h : (CapFloorTermVolCurve.members ref calendar bdc optionTenors data dc).checkInputs env
      = .error e) :
    CapFloorTermVolCurve.new env settings ref calendar bdc optionTenors data dc = .error e := by
  cases ref <;> cases data <;>
    simp only [CapFloorTermVolCurve.new, CapFloorTermVolCurve.mkFloatingHandles,
      CapFloorTermVolCurve.mkFixedHandles, CapFloorTermVolCurve.mkFixedVols,
      CapFloorTermVolCurve.mkFloatingVols, CapFloorTermVolCurve.members] at h ⊢
  · exact bodyHandles_of_checkInputs_error _ _ _ _ h
  · exact bodyFixed_of_checkInputs_error _ _ _ _ h
  · exact bodyHandles_of_checkInputs_error _ _ _ _ h
  · exact bodyFixed_of_checkInputs_error _ _ _ _ h

/-- Validation inside a constructor accepts exactly the valid inputs. -/
theorem members_checkInputs_iff (env : DateServices)
    (ref : ReferenceDateArg) (calendar : Calendar) (bdc : BusinessDayConvention)
    (optionTenors : List Period) (data : MarketDataArg) (dc : DayCounter) :
    (CapFloorTermVolCurve.members ref calendar bdc optionTenors data dc).checkInputs env = .ok ()
      ↔ CapFloorTermVolCurve.ValidInputs env optionTenors data.size := by
  obtain ⟨h1, h2, h3⟩ := members_optionTenors ref calendar bdc optionTenors data dc
  have hiff := checkInputs_eq_ok_iff env
    (CapFloorTermVolCurve.members ref calendar bdc optionTenors data dc) (by rw [h2, h1])
  rw [h1, h3] at hiff
  exact hiff

/-- A constructor that returns a curve was given valid inputs. -/
theorem valid_of_new_ok (env : DateServices) (settings : Settings)
    (ref : ReferenceDateArg) (calendar : Calendar) (bdc : BusinessDayConvention)
    (optionTenors : List Period) (data : MarketDataArg) (dc : DayCounter)
    (c : CapFloorTermVolCurve)
    (hc : CapFloorTermVolCurve.new env settings ref calendar bdc optionTenors data dc = .ok c) :
    CapFloorTermVolCurve.ValidInputs env optionTenors data.size := by
  rw [← members_checkInputs_iff env ref calendar bdc optionTenors data dc]
  cases hres : (CapFloorTermVolCurve.members ref calendar bdc optionTenors data dc).checkInputs env with
  | error e =>
    rw [new_of_checkInputs_error _ _ _ _ _ _ _ _ _ hres] at hc
    cases hc
  | ok u => rfl

/-- C8: for each of the four `CapFloorTermVolCurve` constructors (selected by the kinds of
the reference-date and market-data arguments), the input validation run by the constructor
succeeds if and only if the tenor list is non-empty, there are as many volatilities (or
quote handles) as tenors, the first tenor is greater than zero days and every tenor is
greater than its predecessor; in every other case the construction fails with an error. -/
theorem constructor_validation_iff (env : DateServices) (settings : Settings)
    (ref : ReferenceDateArg) (calendar : Calendar) (bdc : BusinessDayConvention)
    (optionTenors : List Period) (data : MarketDataArg) (dc : DayCounter) :
    ((CapFloorTermVolCurve.members ref calendar bdc optionTenors data dc).checkInputs env = .ok ()
        ↔ CapFloorTermVolCurve.ValidInputs env optionTenors data.size) ∧
      (¬ CapFloorTermVolCurve.ValidInputs env optionTenors data.size →
        ∃ e, CapFloorTermVolCurve.new env settings ref calendar bdc optionTenors data dc
          = .error e) := by
  obtain ⟨h1, h2, h3⟩ := members_optionTenors ref calendar bdc optionTenors data dc
  have hiff := checkInputs_eq_ok_iff env
    (CapFloorTermVolCurve.members ref calendar bdc optionTenors data dc) (by rw [h2, h1])
  rw [h1, h3] at hiff
  refine ⟨hiff, fun hnot => ?_⟩
  cases hres : (CapFloorTermVolCurve.members ref calendar bdc optionTenors data dc).checkInputs env with
  | error e => exact ⟨e, new_of_checkInputs_error _ _ _ _ _ _ _ _ _ hres⟩
  | ok u => exact absurd (hiff.mp hres) hnot

/-! ## Loops that assign a vector element by element -/

theorem foldl_set_range_aux {α : Type} (f : Nat → α) (l : List α) (n : Nat) (hn : n ≤ l.length) :
    (List.range n).foldl (fun v i => v.set i (f i)) l = (List.range n).map f ++ l.drop n := by
  induction n with
  | zero => simp
  | succ k ih =>
    rw [List.range_succ, List.foldl_append, ih (by omega)]
    simp only [List.foldl_cons, List.foldl_nil, List.map_append, List.map_cons, List.map_nil]
    have hk : k < l.length := by omega
    have hlen : ((List.range k).map f).length = k := by simp
    have hdrop : l.drop k = l[k] :: l.drop (k + 1) := List.drop_eq_getElem_cons hk
    rw [List.set_append_right _ _ (by rw [hlen]), hlen, Nat.sub_self, hdrop]
    simp only [List.set_cons_zero, List.append_assoc, List.singleton_append]

/-- The loop `for (i=0; i<v.size(); ++i) v[i] = f(i);` leaves `v = [f 0, f 1, ...]`. -/
theorem foldl_set_range {α : Type} (f : Nat → α) (l : List α) :
    (List.range l.length).foldl (fun v i => v.set i (f i)) l = (List.range l.length).map f := by
  rw [foldl_set_range_aux f l l.length (le_refl _)]
  simp

theorem getD_map_range_of_lt {α : Type} (f : Nat → α) (d : α) (n j : Nat) (hj : j < n) :
    ((List.range n).map f).getD j d = f j := by
  rw [List.getD_eq_getElem _ _ (by simpa using hj)]
  simp

/-! ## Frame and effect of the curve's member functions -/

theorem performCalculations_vols_fold (q : Quotes) (is : List Nat) (c : CapFloorTermVolCurve) :
    is.foldl (fun c i =>
        { c with vols_ := c.vols_.set i ((c.volHandles_.getD i default).value q) }) c
      = { c with vols_ :=
            (is.foldl (fun v i => v.set i ((c.volHandles_.getD i default).value q)) c.vols_) } := by
  induction is generalizing c with
  | nil => rfl
  | cons i is ih => simp only [List.foldl_cons]; rw [ih]

/-- The function `performCalculations` reloads every volatility from its handle, refits the spline on
the reloaded volatilities and leaves everything else as it was. -/
theorem performCalculations_eq (q : Quotes) (c : CapFloorTermVolCurve) :
    c.performCalculations q =
      { c with
        vols_ := ((List.range c.vols_.length).map
          (fun i => (c.volHandles_.getD i default).value q)),
        interpolation_ := (CubicInterpolation c.optionTimes_
          ((List.range c.vols_.length).map (fun i => (c.volHandles_.getD i default).value q))) } := by
  unfold CapFloorTermVolCurve.performCalculations
  simp only [performCalculations_vols_fold, foldl_set_range]

theorem fillHandles_fold (is : List Nat) (c : CapFloorTermVolCurve) :
    is.foldl (fun c i =>
        { c with volHandles_ := c.volHandles_.set i (.simple (c.vols_.getD i 0)) }) c
      = { c with volHandles_ :=
            (is.foldl (fun v i => v.set i (QuoteHandle.simple (c.vols_.getD i 0)))
              c.volHandles_) } := by
  induction is generalizing c with
  | nil => rfl
  | cons i is ih => simp only [List.foldl_cons]; rw [ih]

/-- The handle-filling loop of the fixed-data constructors: handle `i` holds `vols_[i]`. -/
theorem fillHandles_eq (c : CapFloorTermVolCurve) (hn : c.nOptionTenors_ = c.volHandles_.length) :
    c.fillHandles =
      { c with volHandles_ :=
          ((List.range c.nOptionTenors_).map (fun i => QuoteHandle.simple (c.vols_.getD i 0))) } := by
  unfold CapFloorTermVolCurve.fillHandles
  rw [fillHandles_fold, hn, foldl_set_range]

theorem initializeStep_frame (env : DateServices) (settings : Settings)
    (c : CapFloorTermVolCurve) (i : Nat) :
    ∃ dates times, dates.length = c.optionDates_.length ∧ times.length = c.optionTimes_.length ∧
      c.initializeStep env settings i = { c with optionDates_ := dates, optionTimes_ := times } :=
  ⟨_, _, by simp, by simp, rfl⟩

/-- What `initializeOptionDatesAndTimes` leaves alone: everything but the option dates and
times, whose sizes it keeps. -/
theorem initializeOptionDatesAndTimes_frame (env : DateServices) (settings : Settings)
    (c : CapFloorTermVolCurve) :
    ∃ dates times, dates.length = c.optionDates_.length ∧ times.length = c.optionTimes_.length ∧
      c.initializeOptionDatesAndTimes env settings
        = { c with optionDates_ := dates, optionTimes_ := times } := by
  unfold CapFloorTermVolCurve.initializeOptionDatesAndTimes
  generalize List.range c.nOptionTenors_ = is
  induction is generalizing c with
  | nil => exact ⟨c.optionDates_, c.optionTimes_, rfl, rfl, rfl⟩
  | cons i is ih =>
    simp only [List.foldl_cons]
    obtain ⟨d1, t1, hd1, ht1, h1⟩ := initializeStep_frame env settings c i
    rw [h1]
    obtain ⟨dates, times, hd, ht, h⟩ := ih { c with optionDates_ := d1, optionTimes_ := t1 }
    exact ⟨dates, times, hd.trans hd1, ht.trans ht1, h⟩

theorem calculate_optionTimes (q : Quotes) (c : CapFloorTermVolCurve) :
    (c.calculate q).optionTimes_ = c.optionTimes_ := by
  unfold CapFloorTermVolCurve.calculate
  split
  · rfl
  · rw [performCalculations_eq]

/-- The accessor `optionTimes()` returns the stored knot times. -/
theorem optionTimes_fst (q : Quotes) (c : CapFloorTermVolCurve) :
    (c.optionTimes q).1 = c.optionTimes_ :=
  calculate_optionTimes q c

/-- On a stale curve, `volatilityImpl` at a knot time returns the current value of the
knot's quote handle. -/
theorem volatilityImpl_at_knot_of_stale (q : Quotes) (c : CapFloorTermVolCurve) (strike : Rate)
    (hstale : c.calculated_ = false) (hlen : c.vols_.length = c.optionTimes_.length)
    (hinc : c.optionTimes_.Pairwise (· < ·)) (i : Nat) (hi : i < c.optionTimes_.length) :
    (c.volatilityImpl q (c.optionTimes_.getD i 0) strike).1
      = (c.volHandles_.getD i default).value q := by
  simp only [CapFloorTermVolCurve.volatilityImpl, CapFloorTermVolCurve.calculate, hstale,
    Bool.false_eq_true, if_false, performCalculations_eq]
  rw [interpolation_at_knot _ _ hinc i hi, getD_map_range_of_lt _ _ _ _ (by omega)]

/-- What a successful construction establishes. -/
theorem new_ok_facts (env : DateServices) (settings : Settings) (q : Quotes)
    (ref : ReferenceDateArg) (calendar : Calendar) (bdc : BusinessDayConvention)
    (optionTenors : List Period) (data : MarketDataArg) (dc : DayCounter)
    (c : CapFloorTermVolCurve)
    (hc : CapFloorTermVolCurve.new env settings ref calendar bdc optionTenors data dc = .ok c) :
    c.calculated_ = false ∧ c.vols_.length = data.size ∧ c.optionTimes_.length = data.size ∧
      c.volHandles_.length = data.size ∧
      ∀ i, i < data.size → (c.volHandles_.getD i default).value q = data.volatility q i := by
  have hvalid := valid_of_new_ok env settings ref calendar bdc optionTenors data dc c hc
  have hchk := (members_checkInputs_iff env ref calendar bdc optionTenors data dc).mpr hvalid
  have hsize : optionTenors.length = data.size := hvalid.2.1
  cases ref <;> cases data <;>
    simp only [CapFloorTermVolCurve.new, CapFloorTermVolCurve.mkFloatingHandles,
      CapFloorTermVolCurve.mkFixedHandles, CapFloorTermVolCurve.mkFixedVols,
      CapFloorTermVolCurve.mkFloatingVols, CapFloorTermVolCurve.members,
      CapFloorTermVolCurve.bodyHandles, CapFloorTermVolCurve.bodyFixed,
      MarketDataArg.size, MarketDataArg.volatility] at hc hchk hsize ⊢ <;>
    rw [hchk] at hc <;>
    simp only [Except.ok.injEq] at hc <;>
    subst hc
  all_goals
    obtain ⟨dates, times, hd, ht, heq⟩ := initializeOptionDatesAndTimes_frame env settings
      (CapFloorTermVolCurve.init _ _ _ calendar bdc optionTenors _ _ dc)
    rw [heq]
  · simp [CapFloorTermVolCurve.interpolate, CapFloorTermVolCurve.init, ht, hsize]
  · rw [fillHandles_eq _ (by simp [CapFloorTermVolCurve.init, hsize])]
    simp only [CapFloorTermVolCurve.interpolate, CapFloorTermVolCurve.init, ht, hsize,
      List.length_replicate, List.length_map, List.length_range, true_and]
    intro i hi
    rw [getD_map_range_of_lt _ _ _ _ (by omega)]
    rfl
  · simp [CapFloorTermVolCurve.interpolate, CapFloorTermVolCurve.init, ht, hsize]
  · rw [fillHandles_eq _ (by simp [CapFloorTermVolCurve.init, hsize])]
    simp only [CapFloorTermVolCurve.interpolate, CapFloorTermVolCurve.init, ht, hsize,
      List.length_replicate, List.length_map, List.length_range, true_and]
    intro i hi
    rw [getD_map_range_of_lt _ _ _ _ (by omega)]
    rfl

/-! ## The objective function -/

/-- The price of the cap of an objective function on the upstream surface shifted by `s`. -/
theorem surface_spreaded (pricing : Pricing) (base : OptionletStripper1) (s : Real) :
    (PricingEngine.spreaded base).surface pricing s
      = fun t k => pricing.adapterVolatility base t k + s := rfl

/-- One call of the objective function on an object whose cached price, if any, is the
price at the current spread: the outcome is the price at `s` minus the target, the quote
holds `s` afterwards, it was written exactly when `s` differed from its value, and the
cache is again consistent. -/
theorem call_of_consistent (pricing : Pricing) (base : OptionletStripper1) (f : ObjectiveFunction)
    (s : Volatility) (hengine : f.cap_.engine_ = .spreaded base)
    (hcache : f.cap_.calculated_ = true →
      pricing.blackNPV f.cap_.terms (fun t k => pricing.adapterVolatility base t k
        + f.spreadQuote_.value) = .ok f.cap_.NPV_) :
    (f.call pricing s).1
        = (pricing.blackNPV f.cap_.terms
            (fun t k => pricing.adapterVolatility base t k + s)).map (· - f.targetValue_) ∧
      (f.call pricing s).2.spreadQuote_.value = s ∧
      (f.call pricing s).2.spreadQuote_.setValueCalls
        = f.spreadQuote_.setValueCalls + (if s ≠ f.spreadQuote_.value then 1 else 0) ∧
      (f.call pricing s).2.cap_.engine_ = .spreaded base ∧
      (f.call pricing s).2.cap_.terms = f.cap_.terms ∧
      (f.call pricing s).2.targetValue_ = f.targetValue_ ∧
      ((f.call pricing s).2.cap_.calculated_ = true →
        pricing.blackNPV f.cap_.terms (fun t k => pricing.adapterVolatility base t k
          + (f.call pricing s).2.spreadQuote_.value) = .ok (f.call pricing s).2.cap_.NPV_) := by
  by_cases hs : s = f.spreadQuote_.value
  · subst hs
    cases hcalc : f.cap_.calculated_ with
    | true =>
      have hp := hcache hcalc
      simp [ObjectiveFunction.call, CapFloor.NPV, hcalc, hp, hengine, Except.map]
    | false =>
      cases hp : pricing.blackNPV f.cap_.terms
          (fun t k => pricing.adapterVolatility base t k + f.spreadQuote_.value) with
      | ok v =>
        simp [ObjectiveFunction.call, CapFloor.NPV, hcalc, hp, hengine, Except.map,
          surface_spreaded]
      | error e =>
        simp [ObjectiveFunction.call, CapFloor.NPV, hcalc, hp, hengine, Except.map,
          surface_spreaded]
  · have hne : s - f.spreadQuote_.value_ ≠ 0 := sub_ne_zero.mpr hs
    have hs1 : ¬ s = f.spreadQuote_.value_ := hs
    cases hp : pricing.blackNPV f.cap_.terms
        (fun t k => pricing.adapterVolatility base t k + s) with
    | ok v =>
      simp [ObjectiveFunction.call, CapFloor.NPV, hp, hengine, Except.map, surface_spreaded,
        SimpleQuote.setValue, SimpleQuote.value, CapFloor.update, hs1, hne]
    | error e =>
      simp [ObjectiveFunction.call, CapFloor.NPV, hp, hengine, Except.map, surface_spreaded,
        SimpleQuote.setValue, SimpleQuote.value, CapFloor.update, hs1, hne]

/-- The invariant of an objective function built on `cap` and `targetValue`, after any
sequence of calls: same terms, engine and target, and a cache consistent with the quote. -/
theorem afterCalls_consistent (pricing : Pricing) (base : OptionletStripper1) (cap : CapFloor)
    (targetValue : Real) (history : List Volatility) :
    ((ObjectiveFunction.new base cap targetValue).afterCalls pricing history).cap_.engine_
        = .spreaded base ∧
      ((ObjectiveFunction.new base cap targetValue).afterCalls pricing history).cap_.terms
        = cap.terms ∧
      ((ObjectiveFunction.new base cap targetValue).afterCalls pricing history).targetValue_
        = targetValue ∧
      (((ObjectiveFunction.new base cap targetValue).afterCalls pricing history).cap_.calculated_
          = true →
        pricing.blackNPV cap.terms (fun t k => pricing.adapterVolatility base t k
          + ((ObjectiveFunction.new base cap targetValue).afterCalls pricing
              history).spreadQuote_.value)
          = .ok ((ObjectiveFunction.new base cap targetValue).afterCalls pricing
              history).cap_.NPV_) := by
  induction history using List.reverseRecOn with
  | nil =>
    simp [ObjectiveFunction.afterCalls, ObjectiveFunction.new, CapFloor.setPricingEngine,
      CapFloor.update]
  | append_singleton history s ih =>
    obtain ⟨h1, h2, h3, h4⟩ := ih
    have hstep : (ObjectiveFunction.new base cap targetValue).afterCalls pricing (history ++ [s])
        = (((ObjectiveFunction.new base cap targetValue).afterCalls pricing history).call
            pricing s).2 := by
      simp [ObjectiveFunction.afterCalls, List.foldl_append]
    rw [hstep]
    obtain ⟨_, _, _, k4, k5, k6, k7⟩ := call_of_consistent pricing base
      ((ObjectiveFunction.new base cap targetValue).afterCalls pricing history) s h1
      (by rw [h2]; exact h4)
    refine ⟨k4, k5.trans h2, k6.trans h3, ?_⟩
    rw [h2] at k7
    exact k7

/-- The outcome of a call after any sequence of earlier calls. -/
theorem call_afterCalls (pricing : Pricing) (base : OptionletStripper1) (cap : CapFloor)
    (targetValue : Real) (history : List Volatility) (s : Volatility) :
    (((ObjectiveFunction.new base cap targetValue).afterCalls pricing history).call pricing s).1
      = (pricing.blackNPV cap.terms
          (fun t k => pricing.adapterVolatility base t k + s)).map (· - targetValue) := by
  obtain ⟨h1, h2, h3, h4⟩ := afterCalls_consistent pricing base cap targetValue history
  obtain ⟨k1, _⟩ := call_of_consistent pricing base
    ((ObjectiveFunction.new base cap targetValue).afterCalls pricing history) s h1
    (by rw [h2]; exact h4)
  rw [k1, h2, h3]

/-- C6: for every candidate spread `s` and every history of earlier calls (the empty
history, a history ending in `s`, and `s` equal to the initial `-1.0` included),
`ObjectiveFunction::operator()(s)` returns the reference cap's price under spread `s` minus
the target value (or the engine's failure), leaves the spread quote holding `s`, and
writes the quote only when `s` differs from the quote's current value. -/
theorem objective_call_returns_price_minus_target (pricing : Pricing)
    (base : OptionletStripper1) (cap : CapFloor) (targetValue : Real)
    (history : List Volatility) (s : Volatility) :
    (((ObjectiveFunction.new base cap targetValue).afterCalls pricing history).call pricing s).1
        = (pricing.blackNPV cap.terms
            (fun t k => pricing.adapterVolatility base t k + s)).map (· - targetValue) ∧
      (((ObjectiveFunction.new base cap targetValue).afterCalls pricing history).call
          pricing s).2.spreadQuote_.value = s ∧
      (((ObjectiveFunction.new base cap targetValue).afterCalls pricing history).call
          pricing s).2.spreadQuote_.setValueCalls
        = ((ObjectiveFunction.new base cap targetValue).afterCalls pricing
            history).spreadQuote_.setValueCalls
          + (if s ≠ ((ObjectiveFunction.new base cap targetValue).afterCalls pricing
              history).spreadQuote_.value then 1 else 0) := by
  obtain ⟨h1, h2, h3, h4⟩ := afterCalls_consistent pricing base cap targetValue history
  obtain ⟨_, k2, k3, _⟩ := call_of_consistent pricing base
    ((ObjectiveFunction.new base cap targetValue).afterCalls pricing history) s h1
    (by rw [h2]; exact h4)
  exact ⟨call_afterCalls pricing base cap targetValue history s, k2, k3⟩

/-- C7: for every spread `s` at which the reference instrument's price equals the target
value, `ObjectiveFunction::operator()(s)` returns `0`, after any history of calls; hence a
value within the solver's accuracy `1e-6`. -/
theorem objective_call_zero_at_exact_spread (pricing : Pricing) (base : OptionletStripper1)
    (cap : CapFloor) (targetValue : Real) (history : List Volatility) (s : Volatility)
    (hprice : pricing.blackNPV cap.terms (fun t k => pricing.adapterVolatility base t k + s)
      = .ok targetValue) :
    (((ObjectiveFunction.new base cap targetValue).afterCalls pricing history).call pricing s).1
        = .ok 0 ∧ |(0 : Real)| ≤ 1 / 1000000 := by
  rw [call_afterCalls, hprice]
  simp [Except.map]

/-! ## The insertion loops -/

theorem getD_set_eq {α : Type} (l : List α) (i j : Nat) (a d : α) :
    (l.set i a).getD j d = if i = j ∧ i < l.length then a else l.getD j d := by
  simp only [List.getD_eq_getElem?_getD, List.getElem?_set]
  by_cases hij : i = j
  · subst hij
    by_cases hi : i < l.length
    · simp [hi]
    · simp [hi, List.getElem?_eq_none (not_lt.mp hi)]
  · simp [hij]

namespace OptionletStripper2

theorem sameButGrids_refl (a : OptionletStripper2) : SameButGrids a a := rfl

theorem sameButGrids_trans {a b c : OptionletStripper2} (h1 : SameButGrids a b)
    (h2 : SameButGrids b c) : SameButGrids a c := by
  unfold SameButGrids at *
  rw [h2] at h1
  exact h1

theorem sameButGrids_fields {a b : OptionletStripper2} (h : SameButGrids a b) :
    a.caps_ = b.caps_ ∧ a.atmCapFloorStrikes_ = b.atmCapFloorStrikes_ ∧
      a.spreadsVolImplied_ = b.spreadsVolImplied_ ∧ a.stripper1_ = b.stripper1_ ∧
      a.optionletTimes_ = b.optionletTimes_ ∧ a.nOptionExpiries_ = b.nOptionExpiries_ ∧
      a.atmCapFloorPrices_ = b.atmCapFloorPrices_ ∧ a.accuracy_ = b.accuracy_ ∧
      a.maxEvaluations_ = b.maxEvaluations_ ∧ a.calculated_ = b.calculated_ := by
  unfold SameButGrids at h
  refine ⟨?_, ?_, ?_, ?_, ?_, ?_, ?_, ?_, ?_, ?_⟩ <;> rw [h]

/-- The point the loop body inserts, read from the object's own copy of the fixing times. -/
theorem insertAtm_grid (pricing : Pricing) (j i : Nat) (s : OptionletStripper2)
    (hS : i < s.optionletStrikes_.length) (hV : i < s.optionletVolatilities_.length) :
    SameButGrids (insertAtm pricing j i s) s ∧
      (insertAtm pricing j i s).optionletStrikes_.length = s.optionletStrikes_.length ∧
      (insertAtm pricing j i s).optionletVolatilities_.length
        = s.optionletVolatilities_.length ∧
      ∀ k : Nat, (insertAtm pricing j i s).grid k =
        if k = i ∧ i ≤ (s.caps_.getD j default).floatingLegSize then
          insertPoint (s.grid i)
            (s.atmCapFloorStrikes_.getD j 0,
              pricing.adapterVolatility s.stripper1_ (s.optionletTimes_.getD i 0)
                (s.atmCapFloorStrikes_.getD j 0) + s.spreadsVolImplied_.getD j 0)
        else s.grid k := by
  unfold insertAtm
  by_cases hc : i ≤ (s.caps_.getD j default).floatingLegSize
  · simp only [hc, if_true, and_true]
    refine ⟨rfl, by simp, by simp, fun k => ?_⟩
    simp only [grid, getD_set_eq, hS, hV, and_true, insertPoint]
    by_cases hk : k = i
    · subst hk; simp
    · have hk2 : ¬ i = k := fun h => hk h.symm
      simp [hk, hk2]
  · rw [if_neg hc]
    exact ⟨rfl, rfl, rfl, fun k => by rw [if_neg (fun h => hc h.2)]⟩

/-- The inner loop for tenor `j` over the first `m` expiries. -/
theorem inner_loop_grid (pricing : Pricing) (j : Nat) (s : OptionletStripper2) (m : Nat)
    (hm : m ≤ s.optionletVolatilities_.length)
    (hlen : s.optionletStrikes_.length = s.optionletVolatilities_.length) :
    SameButGrids ((List.range m).foldl (fun s i => insertAtm pricing j i s) s) s ∧
      ((List.range m).foldl (fun s i => insertAtm pricing j i s) s).optionletStrikes_.length
        = s.optionletStrikes_.length ∧
      ((List.range m).foldl (fun s i => insertAtm pricing j i s) s).optionletVolatilities_.length
        = s.optionletVolatilities_.length ∧
      ∀ k : Nat, ((List.range m).foldl (fun s i => insertAtm pricing j i s) s).grid k =
        if k < m ∧ k ≤ (s.caps_.getD j default).floatingLegSize then
          insertPoint (s.grid k)
            (s.atmCapFloorStrikes_.getD j 0,
              pricing.adapterVolatility s.stripper1_ (s.optionletTimes_.getD k 0)
                (s.atmCapFloorStrikes_.getD j 0) + s.spreadsVolImplied_.getD j 0)
        else s.grid k := by
  induction m with
  | zero => exact ⟨rfl, rfl, rfl, fun k => by simp⟩
  | succ m ih =>
    obtain ⟨hf, h1, h2, hg⟩ := ih (by omega)
    rw [List.range_succ, List.foldl_append]
    simp only [List.foldl_cons, List.foldl_nil]
    obtain ⟨kf, k1, k2, kg⟩ := insertAtm_grid pricing j m
      ((List.range m).foldl (fun s i => insertAtm pricing j i s) s)
      (by rw [h1, hlen]; omega) (by rw [h2]; omega)
    obtain ⟨e1, e2, e3, e4, e5, -⟩ := sameButGrids_fields hf
    refine ⟨sameButGrids_trans kf hf, k1.trans h1, k2.trans h2, fun (k : Nat) => ?_⟩
    rw [kg k, e1, e2, e3, e4, e5, hg m, hg k]
    by_cases hk : k = m
    · subst hk
      simp
    · have hk2 : (k < m + 1) = (k < m) := by
        apply propext; constructor <;> intro h <;> omega
      simp only [hk, false_and, if_false, hk2]

/-- The nested loops over the tenors `js`: each expiry grid receives, in the order of the
tenors, the point of every tenor whose leg reaches the expiry index. -/
theorem outer_loop_grid (pricing : Pricing) (js : List Nat) (s : OptionletStripper2)
    (hlen : s.optionletStrikes_.length = s.optionletVolatilities_.length) :
    SameButGrids (js.foldl (fun s j =>
        (List.range s.optionletVolatilities_.length).foldl
          (fun s i => insertAtm pricing j i s) s) s) s ∧
      ∀ k : Nat, k < s.optionletVolatilities_.length →
        (js.foldl (fun s j =>
          (List.range s.optionletVolatilities_.length).foldl
            (fun s i => insertAtm pricing j i s) s) s).grid k =
        ((js.filter fun j => decide (k ≤ (s.caps_.getD j default).floatingLegSize)).map
          fun j => (s.atmCapFloorStrikes_.getD j 0,
              pricing.adapterVolatility s.stripper1_ (s.optionletTimes_.getD k 0)
                (s.atmCapFloorStrikes_.getD j 0) + s.spreadsVolImplied_.getD j 0)).foldl
          insertPoint (s.grid k) := by
  induction js generalizing s with
  | nil => exact ⟨rfl, fun k _ => rfl⟩
  | cons j js ih =>
    simp only [List.foldl_cons]
    obtain ⟨hf, h1, h2, hg⟩ := inner_loop_grid pricing j s s.optionletVolatilities_.length
      (le_refl _) hlen
    obtain ⟨kf, kg⟩ := ih
      ((List.range s.optionletVolatilities_.length).foldl (fun s i => insertAtm pricing j i s) s)
      (by rw [h1, h2, hlen])
    obtain ⟨e1, e2, e3, e4, e5, -⟩ := sameButGrids_fields hf
    refine ⟨sameButGrids_trans kf hf, fun (k : Nat) hk => ?_⟩
    rw [kg k (by rw [h2]; exact hk), e1, e2, e3, e4, e5, hg k]
    by_cases hc : k ≤ (s.caps_.getD j default).floatingLegSize
    · rw [if_pos ⟨hk, hc⟩, List.filter_cons_of_pos (by simpa using hc)]
      simp only [List.map_cons, List.foldl_cons]
    · rw [if_neg (fun h => hc h.2), List.filter_cons_of_neg (by simpa using hc)]

end OptionletStripper2

/-! ## The stages of a calibration pass -/

namespace OptionletStripper2

theorem sameButAtm_refl (a : OptionletStripper2) : SameButAtm a a := rfl

theorem sameButAtm_trans {a b c : OptionletStripper2} (h1 : SameButAtm a b)
    (h2 : SameButAtm b c) : SameButAtm a c := by
  unfold SameButAtm at *
  rw [h2] at h1
  exact h1

theorem sameButAtm_fields {a b : OptionletStripper2} (h : SameButAtm a b) :
    a.optionletStrikes_ = b.optionletStrikes_ ∧
      a.optionletVolatilities_ = b.optionletVolatilities_ ∧
      a.spreadsVolImplied_ = b.spreadsVolImplied_ ∧ a.stripper1_ = b.stripper1_ ∧
      a.optionletTimes_ = b.optionletTimes_ ∧ a.nOptionExpiries_ = b.nOptionExpiries_ ∧
      a.accuracy_ = b.accuracy_ ∧ a.maxEvaluations_ = b.maxEvaluations_ ∧
      a.calculated_ = b.calculated_ := by
  unfold SameButAtm at h
  refine ⟨?_, ?_, ?_, ?_, ?_, ?_, ?_, ?_, ?_⟩ <;> rw [h]

theorem copyUpstream_fold (is : List Nat) (s : OptionletStripper2) :
    is.foldl (fun s i =>
        { s with
          optionletStrikes_ := s.optionletStrikes_.set i (s.stripper1_.optionletStrikes i)
          optionletVolatilities_ :=
            s.optionletVolatilities_.set i (s.stripper1_.optionletVolatilities i) }) s
      = { s with
          optionletStrikes_ :=
            (is.foldl (fun v i => v.set i (s.stripper1_.optionletStrikes i)) s.optionletStrikes_),
          optionletVolatilities_ :=
            (is.foldl (fun v i => v.set i (s.stripper1_.optionletVolatilities i))
              s.optionletVolatilities_) } := by
  induction is generalizing s with
  | nil => rfl
  | cons i is ih => simp only [List.foldl_cons]; rw [ih]

/-- The first block of `performCalculations`: every upstream vector is copied; the grids of
the object become copies of the upstream grids. -/
theorem copyUpstream_eq (s : OptionletStripper2)
    (hS : s.optionletStrikes_.length = s.stripper1_.optionletFixingTimes_.length)
    (hV : s.optionletVolatilities_.length = s.stripper1_.optionletFixingTimes_.length) :
    s.copyUpstream =
      { s with
        optionletDates_ := s.stripper1_.optionletFixingDates_,
        optionletPaymentDates_ := s.stripper1_.optionletPaymentDates_,
        optionletAccrualPeriods_ := s.stripper1_.optionletAccrualPeriods_,
        optionletTimes_ := s.stripper1_.optionletFixingTimes_,
        atmOptionletRate_ := s.stripper1_.atmOptionletRates_,
        optionletStrikes_ := ((List.range s.stripper1_.optionletFixingTimes_.length).map
          s.stripper1_.optionletStrikes),
        optionletVolatilities_ := ((List.range s.stripper1_.optionletFixingTimes_.length).map
          s.stripper1_.optionletVolatilities) } := by
  unfold copyUpstream
  rw [copyUpstream_fold]
  simp only
  have h1 := foldl_set_range s.stripper1_.optionletStrikes s.optionletStrikes_
  have h2 := foldl_set_range s.stripper1_.optionletVolatilities s.optionletVolatilities_
  rw [hS] at h1
  rw [hV] at h2
  rw [h1, h2]

theorem atmStep_frame (pricing : Pricing) (q : Quotes) (tenors : List Period)
    (times : List Time) (s : OptionletStripper2) (j : Nat) :
    SameButAtm (atmStep pricing q tenors times s j).2 s := by
  unfold atmStep
  simp only
  split <;> rfl

theorem atmLoop_frame (pricing : Pricing) (q : Quotes) (tenors : List Period)
    (times : List Time) (js : List Nat) (s : OptionletStripper2) :
    SameButAtm (atmLoop pricing q tenors times js s).2 s := by
  induction js generalizing s with
  | nil => exact sameButAtm_refl s
  | cons j js ih =>
    unfold atmLoop
    have hstep := atmStep_frame pricing q tenors times s j
    rcases hr : atmStep pricing q tenors times s j with ⟨r, s1⟩
    rw [hr] at hstep
    cases r with
    | ok u => exact sameButAtm_trans (ih s1) hstep
    | error e => exact hstep

/-- The state after the ATM stage differs from the state after the upstream copy at most
in the caps, ATM strikes, ATM prices and the curve. -/
theorem atmStage_frame (pricing : Pricing) (q : Quotes) (s : OptionletStripper2) :
    SameButAtm (s.atmStage pricing q).2 s.copyUpstream := by
  unfold atmStage
  exact sameButAtm_trans (atmLoop_frame pricing q _ _ _ _) rfl

theorem insertAtm_sameButGrids (pricing : Pricing) (j i : Nat) (s : OptionletStripper2) :
    SameButGrids (insertAtm pricing j i s) s := by
  unfold insertAtm
  split <;> rfl

theorem foldl_sameButGrids (step : OptionletStripper2 → Nat → OptionletStripper2)
    (hstep : ∀ s i, SameButGrids (step s i) s) (is : List Nat) (s : OptionletStripper2) :
    SameButGrids (is.foldl step s) s := by
  induction is generalizing s with
  | nil => exact sameButGrids_refl s
  | cons i is ih => exact sameButGrids_trans (ih (step s i)) (hstep s i)

/-- The insertion loops change nothing but the grids. -/
theorem insertionLoops_sameButGrids (pricing : Pricing) (s : OptionletStripper2) :
    SameButGrids (s.insertionLoops pricing) s := by
  unfold insertionLoops
  apply foldl_sameButGrids
  intro s j
  apply foldl_sameButGrids
  intro s i
  exact insertAtm_sameButGrids pricing j i s

/-- The loop of `spreadsVolImplied`, when it succeeds: the result keeps its size, holds
for every visited tenor the root the solver returned, and is unchanged elsewhere. -/
theorem spreadsLoop_ok (pricing : Pricing) (solve : Solver1D) (s : OptionletStripper2)
    (js : List Nat) (result r : List Volatility) (hnodup : js.Nodup)
    (h : spreadsLoop pricing solve s js result = .ok r) :
    r.length = result.length ∧
      (∀ j : Nat, j ∈ js → j < result.length →
        s.solveTenor pricing solve j = .ok (r.getD j 0)) ∧
      ∀ k : Nat, k ∉ js → r.getD k 0 = result.getD k 0 := by
  induction js generalizing result with
  | nil =>
    simp only [spreadsLoop, Except.ok.injEq] at h
    subst h
    exact ⟨rfl, fun _ hj => absurd hj (List.not_mem_nil _), fun _ _ => rfl⟩
  | cons j js ih =>
    rw [List.nodup_cons] at hnodup
    unfold spreadsLoop at h
    simp only at h
    cases hsolve : solve (ObjectiveFunction.call pricing)
        (ObjectiveFunction.new s.stripper1_ (s.caps_.getD j default)
          (s.atmCapFloorPrices_.getD j 0)) s.accuracy_ (1 / 10000) (-1 / 10) (1 / 10)
        s.maxEvaluations_ with
    | error e => rw [hsolve] at h; cases h
    | ok root =>
      rw [hsolve] at h
      obtain ⟨h1, h2, h3⟩ := ih (result.set j root) hnodup.2 h
      rw [List.length_set] at h1
      refine ⟨h1, fun k hk hlt => ?_, fun k hk => ?_⟩
      · rcases List.mem_cons.mp hk with rfl | hk
        · rw [h3 k hnodup.1, getD_set_eq]
          simp only [hlt, and_self, if_true]
          exact hsolve
        · exact h2 k hk (by rw [List.length_set]; exact hlt)
      · rw [h3 k (fun hmem => hk (List.mem_cons_of_mem _ hmem)), getD_set_eq]
        have hne : ¬ j = k := fun hjk => hk (hjk ▸ List.mem_cons_self _ _)
        simp [hne]

/-- The loop of `spreadsVolImplied` throws the error of the first tenor whose solve fails. -/
theorem spreadsLoop_error (pricing : Pricing) (solve : Solver1D) (s : OptionletStripper2)
    (js : List Nat) (result : List Volatility) (j : Nat) (e : String) (hj : j ∈ js)
    (hsorted : js.Pairwise (· < ·))
    (hprev : ∀ i : Nat, i ∈ js → i < j → ∃ r, s.solveTenor pricing solve i = .ok r)
    (hfail : s.solveTenor pricing solve j = .error e) :
    spreadsLoop pricing solve s js result = .error e := by
  induction js generalizing result with
  | nil => exact absurd hj (List.not_mem_nil _)
  | cons a js ih =>
    rw [List.pairwise_cons] at hsorted
    unfold spreadsLoop
    simp only
    rcases List.mem_cons.mp hj with rfl | hmem
    · unfold solveTenor objective at hfail
      rw [hfail]
    · obtain ⟨r, hr⟩ := hprev a (List.mem_cons_self _ _) (hsorted.1 j hmem)
      unfold solveTenor objective at hr
      rw [hr]
      exact ih (result.set a r) hmem hsorted.2
        (fun i hi hlt => hprev i (List.mem_cons_of_mem _ hi) hlt)

/-- A successful pass went through its three stages. -/
theorem performCalculations_ok_inv (pricing : Pricing) (solve : Solver1D) (q : Quotes)
    (self s1 : OptionletStripper2)
    (h : self.performCalculations pricing solve q = (.ok (), s1)) :
    ∃ s3 spreads, self.atmStage pricing q = (.ok (), s3) ∧
      s3.spreadsVolImplied pricing solve = .ok spreads ∧
      s1 = ({ s3 with spreadsVolImplied_ := spreads } : OptionletStripper2).insertionLoops
        pricing := by
  unfold performCalculations at h
  rcases hatm : self.atmStage pricing q with ⟨r, s3⟩
  rw [hatm] at h
  cases r with
  | error e => simp at h
  | ok u =>
    simp only at h
    cases hsp : s3.spreadsVolImplied pricing solve with
    | error e => rw [hsp] at h; simp at h
    | ok spreads =>
      rw [hsp] at h
      simp only [Prod.mk.injEq, true_and] at h
      exact ⟨s3, spreads, rfl, hsp, h.symm⟩

end OptionletStripper2

namespace OptionletStripper2

/-- What one step of the ATM loop writes at each index of `caps_` and
`atmCapFloorStrikes_`: the cap built for tenor `j` and its ATM rate at index `j`. -/
theorem atmStep_results (pricing : Pricing) (q : Quotes) (tenors : List Period)
    (times : List Time) (s : OptionletStripper2) (j : Nat) :
    (atmStep pricing q tenors times s j).2.caps_.length = s.caps_.length ∧
      (atmStep pricing q tenors times s j).2.atmCapFloorStrikes_.length
        = s.atmCapFloorStrikes_.length ∧
      ∀ k : Nat,
        ((atmStep pricing q tenors times s j).2.caps_.getD k default).terms
          = (if j = k ∧ j < s.caps_.length then pricing.makeCapFloor (tenors.getD j default)
              else (s.caps_.getD k default).terms) ∧
        (atmStep pricing q tenors times s j).2.atmCapFloorStrikes_.getD k 0
          = (if j = k ∧ j < s.atmCapFloorStrikes_.length then
              pricing.atmRate (pricing.makeCapFloor (tenors.getD j default))
              else s.atmCapFloorStrikes_.getD k 0) := by
  unfold atmStep
  simp only [CapFloor.NPV, CapFloor.setPricingEngine, CapFloor.update, Bool.false_eq_true,
    if_false]
  split
  · rename_i v cap1 heq
    split at heq
    · simp only [Prod.mk.injEq, Except.ok.injEq] at heq
      obtain ⟨_, rfl⟩ := heq
      refine ⟨by simp, by simp, fun k => ?_⟩
      simp only [getD_set_eq, List.length_set]
      by_cases hk : j = k ∧ j < s.caps_.length
      · obtain ⟨rfl, hlt⟩ := hk
        simp [hlt]
      · simp [hk]
    · simp at heq
  · rename_i e cap1 heq
    split at heq
    · simp at heq
    · simp only [Prod.mk.injEq, Except.error.injEq] at heq
      obtain ⟨_, rfl⟩ := heq
      refine ⟨by simp, by simp, fun k => ?_⟩
      simp only [getD_set_eq, List.length_set]
      by_cases hk : j = k ∧ j < s.caps_.length
      · obtain ⟨rfl, hlt⟩ := hk
        simp [hlt]
      · simp [hk]

/-- After a successful ATM loop over distinct tenors `js`, every visited index holds the
cap built for its tenor and that cap's ATM rate; other indices are untouched. -/
theorem atmLoop_results (pricing : Pricing) (q : Quotes) (tenors : List Period)
    (times : List Time) (js : List Nat) (s : OptionletStripper2) (hnodup : js.Nodup)
    (hok : (atmLoop pricing q tenors times js s).1 = .ok ()) :
    (atmLoop pricing q tenors times js s).2.caps_.length = s.caps_.length ∧
      (atmLoop pricing q tenors times js s).2.atmCapFloorStrikes_.length
        = s.atmCapFloorStrikes_.length ∧
      ∀ k : Nat,
        ((atmLoop pricing q tenors times js s).2.caps_.getD k default).terms
          = (if k ∈ js ∧ k < s.caps_.length then pricing.makeCapFloor (tenors.getD k default)
              else (s.caps_.getD k default).terms) ∧
        (atmLoop pricing q tenors times js s).2.atmCapFloorStrikes_.getD k 0
          = (if k ∈ js ∧ k < s.atmCapFloorStrikes_.length then
              pricing.atmRate (pricing.makeCapFloor (tenors.getD k default))
              else s.atmCapFloorStrikes_.getD k 0) := by
  induction js generalizing s with
  | nil => exact ⟨rfl, rfl, fun k => by simp [atmLoop]⟩
  | cons j js ih =>
    rw [List.nodup_cons] at hnodup
    unfold atmLoop at hok ⊢
    obtain ⟨h1, h2, h3⟩ := atmStep_results pricing q tenors times s j
    rcases hr : atmStep pricing q tenors times s j with ⟨r, s1⟩
    rw [hr] at hok h1 h2 h3
    cases r with
    | error e => simp at hok
    | ok u =>
      simp only at hok h1 h2 h3 ⊢
      obtain ⟨k1, k2, k3⟩ := ih s1 hnodup.2 hok
      refine ⟨k1.trans h1, k2.trans h2, fun k => ?_⟩
      rw [(k3 k).1, (k3 k).2, (h3 k).1, (h3 k).2, h1, h2]
      by_cases hkj : j = k
      · subst hkj
        simp [hnodup.1]
      · have hkj2 : ¬ k = j := fun h => hkj h.symm
        simp only [List.mem_cons, hkj, hkj2, false_or, false_and, if_false]
        constructor
        · by_cases hk : k ∈ js ∧ k < s.caps_.length
          · simp [hk]
          · simp [hk]
        · by_cases hk : k ∈ js ∧ k < s.atmCapFloorStrikes_.length
          · simp [hk]
          · simp [hk]

/-- With a pricing engine that never fails, the ATM loop succeeds. -/
theorem atmLoop_ok_of_total (pricing : Pricing) (q : Quotes) (tenors : List Period)
    (times : List Time) (js : List Nat) (s : OptionletStripper2)
    (htotal : ∀ terms surface, ∃ v, pricing.blackNPV terms surface = .ok v) :
    (atmLoop pricing q tenors times js s).1 = .ok () := by
  induction js generalizing s with
  | nil => rfl
  | cons j js ih =>
    unfold atmLoop
    have hstep : (atmStep pricing q tenors times s j).1 = .ok () := by
      unfold atmStep
      simp only [CapFloor.NPV, CapFloor.setPricingEngine, CapFloor.update, Bool.false_eq_true,
        if_false]
      obtain ⟨v, hv⟩ := htotal (pricing.makeCapFloor (tenors.getD j default))
        ((PricingEngine.flat (s.atmCapFloorTermVolCurve_.volatility q (times.getD j 0)
          (333333 / 10000)).1 s.dc_).surface pricing 0)
      rw [hv]
    rcases hr : atmStep pricing q tenors times s j with ⟨r, s1⟩
    rw [hr] at hstep
    simp only at hstep
    subst hstep
    exact ih s1

/-- When the solver succeeds for every visited tenor, the loop of `spreadsVolImplied`
returns a result. -/
theorem spreadsLoop_ok_of_solves (pricing : Pricing) (solve : Solver1D) (s : OptionletStripper2)
    (js : List Nat) (result : List Volatility)
    (hsolves : ∀ j : Nat, j ∈ js → ∃ r, s.solveTenor pricing solve j = .ok r) :
    ∃ r, spreadsLoop pricing solve s js result = .ok r := by
  induction js generalizing result with
  | nil => exact ⟨result, rfl⟩
  | cons j js ih =>
    obtain ⟨root, hroot⟩ := hsolves j (List.mem_cons_self _ _)
    unfold solveTenor objective at hroot
    unfold spreadsLoop
    simp only
    rw [hroot]
    exact ih (result.set j root) (fun k hk => hsolves k (List.mem_cons_of_mem _ hk))

theorem copyUpstream_nOptionExpiries (s : OptionletStripper2) :
    s.copyUpstream.nOptionExpiries_ = s.nOptionExpiries_ ∧
      s.copyUpstream.stripper1_ = s.stripper1_ ∧
      s.copyUpstream.spreadsVolImplied_ = s.spreadsVolImplied_ ∧
      s.copyUpstream.accuracy_ = s.accuracy_ ∧
      s.copyUpstream.caps_ = s.caps_ ∧
      s.copyUpstream.atmCapFloorStrikes_ = s.atmCapFloorStrikes_ ∧
      s.copyUpstream.atmCapFloorTermVolCurve_ = s.atmCapFloorTermVolCurve_ := by
  unfold copyUpstream
  rw [copyUpstream_fold]
  exact ⟨rfl, rfl, rfl, rfl, rfl, rfl, rfl⟩

/-- The pass returns normally when the ATM stage does and the solver succeeds for every
tenor. -/
theorem performCalculations_ok_of_solves (pricing : Pricing) (solve : Solver1D) (q : Quotes)
    (self : OptionletStripper2) (hatm : (self.atmStage pricing q).1 = .ok ())
    (hsolves : ∀ j : Nat, j < self.nOptionExpiries_ →
      ∃ r, (self.atmStage pricing q).2.solveTenor pricing solve j = .ok r) :
    (self.performCalculations pricing solve q).1 = .ok () := by
  unfold performCalculations
  rcases hr : self.atmStage pricing q with ⟨r, s3⟩
  rw [hr] at hatm hsolves
  simp only at hatm hsolves
  subst hatm
  have hn : s3.nOptionExpiries_ = self.nOptionExpiries_ := by
    have h1 := atmStage_frame pricing q self
    rw [hr] at h1
    rw [(sameButAtm_fields h1).2.2.2.2.2.1]
    exact (copyUpstream_nOptionExpiries self).1
  obtain ⟨spreads, hsp⟩ := spreadsLoop_ok_of_solves pricing solve s3
    (List.range s3.nOptionExpiries_) (List.replicate s3.nOptionExpiries_ 0)
    (fun j hj => hsolves j (by rw [← hn]; exact List.mem_range.mp hj))
  unfold spreadsVolImplied
  simp only
  rw [hsp]

end OptionletStripper2

/-! ## The concrete market -/

theorem exampleSolver_meetsContract (pricing : Pricing) :
    Solver1D.MeetsContract pricing exampleSolver := by
  intro f accuracy guess xMin xMax maxEvaluations root h
  unfold exampleSolver at h
  rcases h1 : f.call pricing guess with ⟨r1, f1⟩
  rw [h1] at h
  cases r1 with
  | error e => simp at h
  | ok v =>
    simp only at h
    rcases h2 : f1.call pricing (guess - v) with ⟨r2, f2⟩
    rw [h2] at h
    cases r2 with
    | error e => simp at h
    | ok w =>
      simp only at h
      by_cases hw : |w| ≤ accuracy
      · rw [if_pos hw] at h
        simp only [Except.ok.injEq] at h
        subst h
        refine ⟨[guess], w, ?_, hw⟩
        simp only [ObjectiveFunction.afterCalls, List.foldl_cons, List.foldl_nil, h1, h2]
      · rw [if_neg hw] at h
        cases h

/-- In a market where a cap's price is the surface volatility at the origin, the example
solver finds the spread that reprices the target exactly. -/
theorem exampleSolver_run (pricing : Pricing) (base : OptionletStripper1) (cap : CapFloor)
    (target accuracy guess xMin xMax : Real) (n : Nat)
    (hprice : ∀ terms surface, pricing.blackNPV terms surface = .ok (surface 0 0))
    (hacc : 0 ≤ accuracy) :
    exampleSolver (ObjectiveFunction.call pricing) (ObjectiveFunction.new base cap target)
        accuracy guess xMin xMax n
      = .ok (target - pricing.adapterVolatility base 0 0) := by
  unfold exampleSolver
  have h1 := call_afterCalls pricing base cap target [] guess
  simp only [ObjectiveFunction.afterCalls, List.foldl_nil, hprice, Except.map] at h1
  rcases hc1 : (ObjectiveFunction.new base cap target).call pricing guess with ⟨r1, f1⟩
  rw [hc1] at h1
  simp only at h1
  subst h1
  simp only
  have h2 := call_afterCalls pricing base cap target [guess]
    (guess - (pricing.adapterVolatility base 0 0 + guess - target))
  simp only [ObjectiveFunction.afterCalls, List.foldl_cons, List.foldl_nil, hprice, Except.map,
    hc1] at h2
  rcases hc2 : f1.call pricing (guess - (pricing.adapterVolatility base 0 0 + guess - target))
    with ⟨r2, f2⟩
  rw [hc2] at h2
  simp only at h2
  subst h2
  simp only
  have hz : pricing.adapterVolatility base 0 0
      + (guess - (pricing.adapterVolatility base 0 0 + guess - target)) - target = 0 := by ring
  rw [hz, abs_zero, if_pos hacc]
  congr 1
  ring

theorem exampleSolver_solves (pricing : Pricing) (s : OptionletStripper2) (j : Nat)
    (hprice : ∀ terms surface, pricing.blackNPV terms surface = .ok (surface 0 0))
    (hacc : 0 ≤ s.accuracy_) :
    s.solveTenor pricing exampleSolver j
      = .ok (s.atmCapFloorPrices_.getD j 0 - pricing.adapterVolatility s.stripper1_ 0 0) := by
  rw [OptionletStripper2.solveTenor, OptionletStripper2.objective]
  exact exampleSolver_run pricing _ _ _ _ _ _ _ _ hprice hacc

theorem exampleCurve_fields :
    exampleCurve.optionTenors_ = [⟨1, .Years⟩, ⟨2, .Years⟩] ∧
      exampleCurve.dayCounter_ = Actual365Fixed ∧ exampleCurve.optionTimes_ = [1, 2] ∧
      exampleCurve.calculated_ = false := by
  have hrange : List.range 2 = [0, 1] := rfl
  simp [exampleCurve, CapFloorTermVolCurve.members, CapFloorTermVolCurve.init,
    CapFloorTermVolCurve.initializeOptionDatesAndTimes, CapFloorTermVolCurve.initializeStep,
    CapFloorTermVolCurve.fillHandles, CapFloorTermVolCurve.interpolate, hrange,
    CapFloorTermVolCurve.optionDateFromTenor, CapFloorTermVolCurve.timeFromReference,
    CapFloorTermVolCurve.referenceDate, exampleDateServices]
  norm_num

theorem new_exampleStripper2 :
    OptionletStripper2.new exampleStripper1 exampleCurve = .ok exampleStripper2 := by
  obtain ⟨h1, h2, -, -⟩ := exampleCurve_fields
  simp [OptionletStripper2.new, CapFloorTermVolCurve.optionTenors,
    CapFloorTermVolCurve.dayCounter, h1, h2, exampleStripper1, exampleStripper2]

/-! ## Construction of the stripper -/

/-- C5: constructing an `OptionletStripper2` fails if and only if the day counter of the
upstream stripper's term-volatility surface differs from the day counter of the ATM
cap/floor term-volatility curve. -/
theorem new_fails_iff_day_counters_differ (optionletStripper1 : OptionletStripper1)
    (atmCapFloorTermVolCurve : CapFloorTermVolCurve) :
    (∃ e, OptionletStripper2.new optionletStripper1 atmCapFloorTermVolCurve = .error e) ↔
      optionletStripper1.termVolSurfaceDayCounter ≠ atmCapFloorTermVolCurve.dayCounter := by
  unfold OptionletStripper2.new
  simp only
  by_cases h : optionletStripper1.termVolSurfaceDayCounter = atmCapFloorTermVolCurve.dayCounter
  · simp [h]
  · simp [h]

/-! ## The calibration pass -/

namespace OptionletStripper2

/-- The ATM stage keeps the number of tenors, the upstream stripper, the previous spreads
and the solver settings, and leaves the grids as copied from upstream. -/
theorem atmStage_fields (pricing : Pricing) (q : Quotes) (self : OptionletStripper2) :
    (self.atmStage pricing q).2.nOptionExpiries_ = self.nOptionExpiries_ ∧
      (self.atmStage pricing q).2.stripper1_ = self.stripper1_ ∧
      (self.atmStage pricing q).2.spreadsVolImplied_ = self.spreadsVolImplied_ ∧
      (self.atmStage pricing q).2.accuracy_ = self.accuracy_ ∧
      (self.atmStage pricing q).2.optionletStrikes_ = self.copyUpstream.optionletStrikes_ ∧
      (self.atmStage pricing q).2.optionletVolatilities_
        = self.copyUpstream.optionletVolatilities_ ∧
      (self.atmStage pricing q).2.optionletTimes_ = self.copyUpstream.optionletTimes_ := by
  obtain ⟨h1, h2, h3, h4, h5, h6, h7, -⟩ := sameButAtm_fields (atmStage_frame pricing q self)
  obtain ⟨c1, c2, c3, c4, -⟩ := copyUpstream_nOptionExpiries self
  exact ⟨h6.trans c1, h4.trans c2, h3.trans c3, h7.trans c4, h1, h2, h5⟩

/-- In a successful pass the spread stored for tenor `j` is the root the solver returned
for the objective function of tenor `j`. -/
theorem spreadsVolImplied_getD (pricing : Pricing) (solve : Solver1D) (s3 : OptionletStripper2)
    (spreads : List Volatility) (j : Nat) (hj : j < s3.nOptionExpiries_)
    (h : s3.spreadsVolImplied pricing solve = .ok spreads) :
    s3.solveTenor pricing solve j = .ok (spreads.getD j 0) := by
  unfold spreadsVolImplied at h
  obtain ⟨-, h2, -⟩ := spreadsLoop_ok pricing solve s3 (List.range s3.nOptionExpiries_)
    (List.replicate s3.nOptionExpiries_ 0) spreads (List.nodup_range _) h
  exact h2 j (List.mem_range.mpr hj) (by simpa using hj)

end OptionletStripper2

/-- C1: after a successful `OptionletStripper2` recalculation, for every ATM tenor `j` the
solved spread `spreadsVol()[j]` is a root of that tenor's objective function: repricing the
tenor-`j` reference cap on the upstream surface shifted by the spread gives
`atmCapFloorPrices()[j]` within the solver accuracy `1e-6`, given that the root finder
meets its stated contract. -/
theorem solved_spreads_reprice_targets (pricing : Pricing) (solve : Solver1D) (q : Quotes)
    (self s1 : OptionletStripper2) (j : Nat)
    (hsolver : Solver1D.MeetsContract pricing solve)
    (hacc : self.accuracy_ = 1 / 1000000)
    (hpass : self.performCalculations pricing solve q = (.ok (), s1))
    (hj : j < self.nOptionExpiries_) :
    ∃ price,
      pricing.blackNPV (s1.caps_.getD j default).terms
          (fun t k => pricing.adapterVolatility s1.stripper1_ t k + s1.spreadsVolImplied_.getD j 0)
        = .ok price ∧
      |price - s1.atmCapFloorPrices_.getD j 0| ≤ 1 / 1000000 := by
  obtain ⟨s3, spreads, hatm, hsp, rfl⟩ :=
    OptionletStripper2.performCalculations_ok_inv pricing solve q self s1 hpass
  obtain ⟨e1, -, e3, e4, -, -, e7, -⟩ :=
    OptionletStripper2.sameButGrids_fields (OptionletStripper2.insertionLoops_sameButGrids pricing
      ({ s3 with spreadsVolImplied_ := spreads } : OptionletStripper2))
  rw [e1, e3, e4, e7]
  simp only
  obtain ⟨a1, -, -, a4, -⟩ := OptionletStripper2.atmStage_fields pricing q self
  rw [hatm] at a1 a4
  simp only at a1 a4
  have hroot := OptionletStripper2.spreadsVolImplied_getD pricing solve s3 spreads j
    (by rw [a1]; exact hj) hsp
  rw [OptionletStripper2.solveTenor] at hroot
  obtain ⟨history, v, hv, hle⟩ := hsolver _ _ _ _ _ _ _ hroot
  rw [OptionletStripper2.objective, call_afterCalls] at hv
  rw [a4, hacc] at hle
  cases hp : pricing.blackNPV (s3.caps_.getD j default).terms
      (fun t k => pricing.adapterVolatility s3.stripper1_ t k + spreads.getD j 0) with
  | error e => rw [hp] at hv; simp [Except.map] at hv
  | ok p =>
    rw [hp] at hv
    simp only [Except.map, Except.ok.injEq] at hv
    exact ⟨p, rfl, by rw [hv]; exact hle⟩

theorem examplePricing_total :
    ∀ terms surface, examplePricing.blackNPV terms surface = .ok (surface 0 0) :=
  fun _ _ => rfl

/-- In the toy market the ATM stage of the example stripper succeeds. -/
theorem example_atmStage_ok :
    exampleStripper2.atmStage examplePricing exampleQuotes
      = (.ok (), (exampleStripper2.atmStage examplePricing exampleQuotes).2) := by
  have h : (exampleStripper2.atmStage examplePricing exampleQuotes).1 = .ok () := by
    rw [OptionletStripper2.atmStage]
    exact OptionletStripper2.atmLoop_ok_of_total examplePricing _ _ _ _ _
      (fun terms surface => ⟨_, examplePricing_total terms surface⟩)
  exact Prod.ext h rfl

/-- In the toy market a pass of the example stripper with the example solver succeeds. -/
theorem example_pass_ok :
    exampleStripper2.performCalculations examplePricing exampleSolver exampleQuotes
      = (.ok (), (exampleStripper2.performCalculations examplePricing exampleSolver
          exampleQuotes).2) := by
  have h : (exampleStripper2.performCalculations examplePricing exampleSolver exampleQuotes).1
      = .ok () := by
    apply OptionletStripper2.performCalculations_ok_of_solves
    · rw [example_atmStage_ok]
    · intro j _
      refine ⟨_, exampleSolver_solves examplePricing _ j examplePricing_total ?_⟩
      rw [(OptionletStripper2.atmStage_fields examplePricing exampleQuotes exampleStripper2).2.2.2.1]
      norm_num [exampleStripper2]
  exact Prod.ext h rfl

theorem solved_spreads_reprice_targets_witness :
    ∃ price,
      examplePricing.blackNPV
          (((exampleStripper2.performCalculations examplePricing exampleSolver
            exampleQuotes).2.caps_.getD 0 default).terms)
          (fun t k => examplePricing.adapterVolatility
              (exampleStripper2.performCalculations examplePricing exampleSolver
                exampleQuotes).2.stripper1_ t k
            + (exampleStripper2.performCalculations examplePricing exampleSolver
                exampleQuotes).2.spreadsVolImplied_.getD 0 0)
        = .ok price ∧
      |price - (exampleStripper2.performCalculations examplePricing exampleSolver
          exampleQuotes).2.atmCapFloorPrices_.getD 0 0| ≤ 1 / 1000000 :=
  solved_spreads_reprice_targets examplePricing exampleSolver exampleQuotes exampleStripper2 _ 0
    (exampleSolver_meetsContract examplePricing) (by simp [exampleStripper2]) example_pass_ok
    (by simp [exampleStripper2])

/-- C4: if the root finder fails for a tenor (the tenors before it having been solved),
`OptionletStripper2::performCalculations` fails with that error and no ATM point has been
inserted into any expiry's strike or volatility grid: every grid equals the copy taken
from the upstream stripper, and the stored spreads are those of before the pass. -/
theorem failed_solve_fails_pass_without_insertion (pricing : Pricing) (solve : Solver1D)
    (q : Quotes) (self s3 : OptionletStripper2) (j : Nat) (e : String)
    (hS : self.optionletStrikes_.length = self.stripper1_.optionletFixingTimes_.length)
    (hV : self.optionletVolatilities_.length = self.stripper1_.optionletFixingTimes_.length)
    (hatm : self.atmStage pricing q = (.ok (), s3))
    (hj : j < self.nOptionExpiries_)
    (hprev : ∀ i : Nat, i < j → ∃ r, s3.solveTenor pricing solve i = .ok r)
    (hfail : s3.solveTenor pricing solve j = .error e) :
    self.performCalculations pricing solve q = (.error e, s3) ∧
      s3.optionletStrikes_
        = (List.range self.stripper1_.optionletFixingTimes_.length).map
            self.stripper1_.optionletStrikes ∧
      s3.optionletVolatilities_
        = (List.range self.stripper1_.optionletFixingTimes_.length).map
            self.stripper1_.optionletVolatilities ∧
      s3.spreadsVolImplied_ = self.spreadsVolImplied_ := by
  obtain ⟨a1, -, a3, -, a5, a6, -⟩ := OptionletStripper2.atmStage_fields pricing q self
  rw [hatm] at a1 a3 a5 a6
  simp only at a1 a3 a5 a6
  have hloop : s3.spreadsVolImplied pricing solve = .error e := by
    unfold OptionletStripper2.spreadsVolImplied
    exact OptionletStripper2.spreadsLoop_error pricing solve s3 _ _ j e
      (List.mem_range.mpr (by rw [a1]; exact hj)) (List.pairwise_lt_range _)
      (fun i _ hlt => hprev i hlt) hfail
  refine ⟨?_, ?_, ?_, a3⟩
  · unfold OptionletStripper2.performCalculations
    rw [hatm]
    simp only
    rw [hloop]
  · rw [a5, OptionletStripper2.copyUpstream_eq self hS hV]
  · rw [a6, OptionletStripper2.copyUpstream_eq self hS hV]

theorem failed_solve_fails_pass_without_insertion_witness :
    exampleStripper2.performCalculations examplePricing failingSolver exampleQuotes
        = (.error "root not bracketed",
            (exampleStripper2.atmStage examplePricing exampleQuotes).2) ∧
      (exampleStripper2.atmStage examplePricing exampleQuotes).2.optionletStrikes_
        = (List.range exampleStripper2.stripper1_.optionletFixingTimes_.length).map
            exampleStripper2.stripper1_.optionletStrikes ∧
      (exampleStripper2.atmStage examplePricing exampleQuotes).2.optionletVolatilities_
        = (List.range exampleStripper2.stripper1_.optionletFixingTimes_.length).map
            exampleStripper2.stripper1_.optionletVolatilities ∧
      (exampleStripper2.atmStage examplePricing exampleQuotes).2.spreadsVolImplied_
        = exampleStripper2.spreadsVolImplied_ :=
  failed_solve_fails_pass_without_insertion examplePricing failingSolver exampleQuotes
    exampleStripper2 _ 0 "root not bracketed" (by simp [exampleStripper2, exampleStripper1])
    (by simp [exampleStripper2, exampleStripper1]) example_atmStage_ok
    (by simp [exampleStripper2]) (fun i hi => absurd hi (Nat.not_lt_zero i))
    (by rw [OptionletStripper2.solveTenor]; rfl)

/-! ## The grids after a pass -/

namespace OptionletStripper2

/-- After a successful ATM stage every tenor's entry holds the ATM rate of the cap built
for the tenor, and `caps_` holds that cap. -/
theorem atmStage_strikes (pricing : Pricing) (q : Quotes) (self : OptionletStripper2) (j : Nat)
    (hok : (self.atmStage pricing q).1 = .ok ())
    (hK : self.atmCapFloorStrikes_.length = self.nOptionExpiries_)
    (hC : self.caps_.length = self.nOptionExpiries_) (hj : j < self.nOptionExpiries_) :
    (self.atmStage pricing q).2.atmCapFloorStrikes_.getD j 0
        = pricing.atmRate (pricing.makeCapFloor
            (self.atmCapFloorTermVolCurve_.optionTenors.getD j default)) ∧
      ((self.atmStage pricing q).2.caps_.getD j default).terms
        = pricing.makeCapFloor (self.atmCapFloorTermVolCurve_.optionTenors.getD j default) := by
  obtain ⟨c1, -, -, -, c5, c6, c7⟩ := copyUpstream_nOptionExpiries self
  unfold atmStage at hok ⊢
  simp only at hok ⊢
  obtain ⟨-, -, h3⟩ := atmLoop_results pricing q _ _ _ _ (List.nodup_range _) hok
  have hmem : j ∈ List.range self.copyUpstream.nOptionExpiries_ := by
    rw [c1]; exact List.mem_range.mpr hj
  rw [(h3 j).1, (h3 j).2]
  simp only [hmem, c5, c6, c7, hK, hC, hj, and_self, if_true]

/-- The grids of expiry `i` after a successful pass: the upstream grids with, inserted in
the order of the tenors, the point of every tenor whose leg reaches index `i`. -/
theorem performCalculations_grid (pricing : Pricing) (solve : Solver1D) (q : Quotes)
    (self s1 : OptionletStripper2) (i : Nat)
    (hS : self.optionletStrikes_.length = self.stripper1_.optionletFixingTimes_.length)
    (hV : self.optionletVolatilities_.length = self.stripper1_.optionletFixingTimes_.length)
    (hpass : self.performCalculations pricing solve q = (.ok (), s1))
    (hi : i < self.stripper1_.optionletFixingTimes_.length) :
    s1.grid i
        = ((s1.insertedTenors i).map fun j => s1.atmPoint pricing j i).foldl insertPoint
            (self.stripper1_.optionletStrikes i, self.stripper1_.optionletVolatilities i) ∧
      s1.stripper1_ = self.stripper1_ := by
  obtain ⟨s3, spreads, hatm, hsp, rfl⟩ := performCalculations_ok_inv pricing solve q self s1 hpass
  obtain ⟨a1, a2, -, -, a5, a6, a7⟩ := atmStage_fields pricing q self
  rw [hatm] at a1 a2 a5 a6 a7
  simp only at a1 a2 a5 a6 a7
  rw [copyUpstream_eq self hS hV] at a5 a6 a7
  simp only at a5 a6 a7
  have hlen : ({ s3 with spreadsVolImplied_ := spreads } : OptionletStripper2).optionletStrikes_.length
      = ({ s3 with spreadsVolImplied_ := spreads } : OptionletStripper2).optionletVolatilities_.length := by
    simp [a5, a6]
  obtain ⟨hf, hg⟩ := outer_loop_grid pricing
    (List.range ({ s3 with spreadsVolImplied_ := spreads } : OptionletStripper2).nOptionExpiries_)
    ({ s3 with spreadsVolImplied_ := spreads } : OptionletStripper2) hlen
  obtain ⟨e1, e2, e3, e4, -, e6, -⟩ := sameButGrids_fields hf
  have hgi := hg i (by simp [a6]; exact hi)
  unfold insertionLoops
  refine ⟨?_, ?_⟩
  · rw [hgi]
    unfold insertedTenors atmPoint
    rw [e1, e2, e3, e4, e6]
    simp only [grid, a5, a6, a7, a2]
    rw [getD_map_range_of_lt _ _ _ _ hi, getD_map_range_of_lt _ _ _ _ hi]
  · rw [e4]
    exact a2

end OptionletStripper2

/-- C2: for every tenor `j` and expiry index `i` at which a point is inserted, the inserted
pair is `(atmCapFloorStrikes[j], v + spreadsVolImplied[j])` where `v` is the upstream
surface volatility at (optionlet fixing time `i`, `atmCapFloorStrikes[j]`): the grids of
expiry `i` after the pass are the upstream grids with exactly these points inserted, and
`v` is a function of the upstream stripper, which the pass leaves as it was. -/
theorem inserted_points_are_upstream_vol_plus_spread (pricing : Pricing) (solve : Solver1D)
    (q : Quotes) (self s1 : OptionletStripper2) (i : Nat)
    (hS : self.optionletStrikes_.length = self.stripper1_.optionletFixingTimes_.length)
    (hV : self.optionletVolatilities_.length = self.stripper1_.optionletFixingTimes_.length)
    (hpass : self.performCalculations pricing solve q = (.ok (), s1))
    (hi : i < self.stripper1_.optionletFixingTimes_.length) :
    (s1.optionletStrikes_.getD i [], s1.optionletVolatilities_.getD i [])
        = ((s1.insertedTenors i).map fun j =>
              (s1.atmCapFloorStrikes_.getD j 0,
                pricing.adapterVolatility self.stripper1_
                    (self.stripper1_.optionletFixingTimes_.getD i 0)
                    (s1.atmCapFloorStrikes_.getD j 0)
                  + s1.spreadsVolImplied_.getD j 0)).foldl insertPoint
            (self.stripper1_.optionletStrikes i, self.stripper1_.optionletVolatilities i) ∧
      s1.stripper1_ = self.stripper1_ := by
  obtain ⟨h1, h2⟩ := OptionletStripper2.performCalculations_grid pricing solve q self s1 i hS hV
    hpass hi
  refine ⟨?_, h2⟩
  have h3 := h1
  unfold OptionletStripper2.atmPoint OptionletStripper2.grid at h3
  rw [h2] at h3
  exact h3

theorem inserted_points_are_upstream_vol_plus_spread_witness :
    ((exampleStripper2.performCalculations examplePricing exampleSolver
          exampleQuotes).2.optionletStrikes_.getD 0 [],
        (exampleStripper2.performCalculations examplePricing exampleSolver
          exampleQuotes).2.optionletVolatilities_.getD 0 [])
        = (((exampleStripper2.performCalculations examplePricing exampleSolver
              exampleQuotes).2.insertedTenors 0).map fun j =>
              ((exampleStripper2.performCalculations examplePricing exampleSolver
                  exampleQuotes).2.atmCapFloorStrikes_.getD j 0,
                examplePricing.adapterVolatility exampleStripper2.stripper1_
                    (exampleStripper2.stripper1_.optionletFixingTimes_.getD 0 0)
                    ((exampleStripper2.performCalculations examplePricing exampleSolver
                      exampleQuotes).2.atmCapFloorStrikes_.getD j 0)
                  + (exampleStripper2.performCalculations examplePricing exampleSolver
                      exampleQuotes).2.spreadsVolImplied_.getD j 0)).foldl insertPoint
            (exampleStripper2.stripper1_.optionletStrikes 0,
              exampleStripper2.stripper1_.optionletVolatilities 0) ∧
      (exampleStripper2.performCalculations examplePricing exampleSolver
          exampleQuotes).2.stripper1_ = exampleStripper2.stripper1_ :=
  inserted_points_are_upstream_vol_plus_spread examplePricing exampleSolver exampleQuotes
    exampleStripper2 _ 0 (by simp [exampleStripper2, exampleStripper1])
    (by simp [exampleStripper2, exampleStripper1]) example_pass_ok
    (by simp [exampleStripper2, exampleStripper1])

/-! ## Ordering of the strike grids -/

theorem mem_vectorInsert {α : Type} (l : List α) (n : Nat) (k x : α) :
    x ∈ vectorInsert l n k ↔ x = k ∨ x ∈ l := by
  unfold vectorInsert
  rw [List.mem_append, List.mem_cons]
  constructor
  · rintro (h | h | h)
    · exact Or.inr (List.mem_of_mem_take h)
    · exact Or.inl h
    · exact Or.inr (List.mem_of_mem_drop h)
  · rintro (h | h)
    · exact Or.inr (Or.inl h)
    · rw [← List.take_append_drop n l, List.mem_append] at h
      rcases h with h | h
      · exact Or.inl h
      · exact Or.inr (Or.inr h)

theorem vectorInsert_cons_succ {α : Type} (e : α) (es : List α) (n : Nat) (k : α) :
    vectorInsert (e :: es) (n + 1) k = e :: vectorInsert es n k := rfl

theorem vectorInsert_zero {α : Type} (l : List α) (k : α) : vectorInsert l 0 k = k :: l := rfl

/-- Inserting at the lower bound keeps a non-decreasing grid non-decreasing. -/
theorem pairwise_le_insert_lowerBound (l : List Real) (k : Real) (h : l.Pairwise (· ≤ ·)) :
    (vectorInsert l (lowerBound k l) k).Pairwise (· ≤ ·) := by
  induction l with
  | nil => simp [vectorInsert, lowerBound]
  | cons e es ih =>
    rw [List.pairwise_cons] at h
    by_cases he : e < k
    · simp only [lowerBound, he, if_true, vectorInsert_cons_succ]
      rw [List.pairwise_cons]
      refine ⟨fun x hx => ?_, ih h.2⟩
      rcases (mem_vectorInsert _ _ _ _).mp hx with rfl | hx
      · exact le_of_lt he
      · exact h.1 x hx
    · simp only [lowerBound, he, if_false, vectorInsert_zero]
      rw [List.pairwise_cons]
      refine ⟨fun x hx => ?_, List.pairwise_cons.mpr h⟩
      rcases List.mem_cons.mp hx with rfl | hx
      · exact not_lt.mp he
      · exact le_trans (not_lt.mp he) (h.1 x hx)

/-- Inserting a strike the grid does not contain keeps a strictly increasing grid strictly
increasing. -/
theorem pairwise_lt_insert_lowerBound (l : List Real) (k : Real) (h : l.Pairwise (· < ·))
    (hk : k ∉ l) : (vectorInsert l (lowerBound k l) k).Pairwise (· < ·) := by
  induction l with
  | nil => simp [vectorInsert, lowerBound]
  | cons e es ih =>
    rw [List.pairwise_cons] at h
    have hke : k ≠ e := fun heq => hk (heq ▸ List.mem_cons_self _ _)
    have hkes : k ∉ es := fun hmem => hk (List.mem_cons_of_mem _ hmem)
    by_cases he : e < k
    · simp only [lowerBound, he, if_true, vectorInsert_cons_succ]
      rw [List.pairwise_cons]
      refine ⟨fun x hx => ?_, ih h.2 hkes⟩
      rcases (mem_vectorInsert _ _ _ _).mp hx with rfl | hx
      · exact he
      · exact h.1 x hx
    · simp only [lowerBound, he, if_false, vectorInsert_zero]
      have hlt : k < e := lt_of_le_of_ne (not_lt.mp he) hke
      rw [List.pairwise_cons]
      refine ⟨fun x hx => ?_, List.pairwise_cons.mpr h⟩
      rcases List.mem_cons.mp hx with rfl | hx
      · exact hlt
      · exact lt_trans hlt (h.1 x hx)

/-- The strike grid after a sequence of insertions depends on the strikes only. -/
theorem foldl_insertPoint_fst (ps : List (Rate × Volatility)) (g : List Rate × List Volatility) :
    (ps.foldl insertPoint g).1
      = (ps.map Prod.fst).foldl (fun l k => vectorInsert l (lowerBound k l) k) g.1 := by
  induction ps generalizing g with
  | nil => rfl
  | cons p ps ih => simp only [List.foldl_cons, List.map_cons]; rw [ih]; rfl

theorem pairwise_le_foldl_insert (ks : List Real) (l : List Real) (h : l.Pairwise (· ≤ ·)) :
    (ks.foldl (fun l k => vectorInsert l (lowerBound k l) k) l).Pairwise (· ≤ ·) := by
  induction ks generalizing l with
  | nil => exact h
  | cons k ks ih => exact ih _ (pairwise_le_insert_lowerBound l k h)

theorem pairwise_lt_foldl_insert (ks : List Real) (l : List Real) (h : l.Pairwise (· < ·))
    (hnodup : ks.Nodup) (hnew : ∀ k ∈ ks, k ∉ l) :
    (ks.foldl (fun l k => vectorInsert l (lowerBound k l) k) l).Pairwise (· < ·) := by
  induction ks generalizing l with
  | nil => exact h
  | cons k ks ih =>
    rw [List.nodup_cons] at hnodup
    refine ih _ (pairwise_lt_insert_lowerBound l k h (hnew k (List.mem_cons_self _ _)))
      hnodup.2 (fun x hx hmem => ?_)
    rcases (mem_vectorInsert _ _ _ _).mp hmem with rfl | hmem
    · exact hnodup.1 hx
    · exact hnew x (List.mem_cons_of_mem _ hx) hmem

/-- C3, as amended: after a calibration pass of `OptionletStripper2`, for every expiry
index `i` whose upstream strike grid was strictly increasing, the strike grid
`optionletStrikes_[i]` is non-decreasing; it is strictly increasing when the ATM strikes
inserted into it are pairwise distinct and none of them is an upstream strike of that
expiry. -/
theorem strike_grids_stay_sorted (pricing : Pricing) (solve : Solver1D) (q : Quotes)
    (self s1 : OptionletStripper2) (i : Nat)
    (hS : self.optionletStrikes_.length = self.stripper1_.optionletFixingTimes_.length)
    (hV : self.optionletVolatilities_.length = self.stripper1_.optionletFixingTimes_.length)
    (hpass : self.performCalculations pricing solve q = (.ok (), s1))
    (hi : i < self.stripper1_.optionletFixingTimes_.length)
    (hup : (self.stripper1_.optionletStrikes i).Pairwise (· < ·)) :
    (s1.optionletStrikes_.getD i []).Pairwise (· ≤ ·) ∧
      (((s1.insertedTenors i).map fun j => s1.atmCapFloorStrikes_.getD j 0).Nodup →
        (∀ j ∈ s1.insertedTenors i,
          s1.atmCapFloorStrikes_.getD j 0 ∉ self.stripper1_.optionletStrikes i) →
        (s1.optionletStrikes_.getD i []).Pairwise (· < ·)) := by
  obtain ⟨h1, -⟩ := OptionletStripper2.performCalculations_grid pricing solve q self s1 i hS hV
    hpass hi
  have h2 : s1.optionletStrikes_.getD i [] = (s1.grid i).1 := rfl
  rw [h2, h1, foldl_insertPoint_fst, List.map_map]
  have hfst : (Prod.fst ∘ fun j => s1.atmPoint pricing j i)
      = fun j => s1.atmCapFloorStrikes_.getD j 0 := rfl
  rw [hfst]
  refine ⟨pairwise_le_foldl_insert _ _ (hup.imp le_of_lt), fun hnodup hnew => ?_⟩
  refine pairwise_lt_foldl_insert _ _ hup hnodup (fun k hk => ?_)
  obtain ⟨j, hj, rfl⟩ := List.mem_map.mp hk
  exact hnew j hj

/-! ## The concrete passes -/

/-- What a successful pass keeps from its ATM stage. -/
theorem performCalculations_fields (pricing : Pricing) (solve : Solver1D) (q : Quotes)
    (self s1 : OptionletStripper2)
    (hpass : self.performCalculations pricing solve q = (.ok (), s1)) :
    (self.atmStage pricing q).1 = .ok () ∧
      s1.atmCapFloorStrikes_ = (self.atmStage pricing q).2.atmCapFloorStrikes_ ∧
      s1.caps_ = (self.atmStage pricing q).2.caps_ ∧
      s1.atmCapFloorPrices_ = (self.atmStage pricing q).2.atmCapFloorPrices_ ∧
      s1.nOptionExpiries_ = self.nOptionExpiries_ := by
  obtain ⟨s3, spreads, hatm, hsp, rfl⟩ :=
    OptionletStripper2.performCalculations_ok_inv pricing solve q self s1 hpass
  obtain ⟨e1, e2, -, -, -, e6, e7, -⟩ :=
    OptionletStripper2.sameButGrids_fields (OptionletStripper2.insertionLoops_sameButGrids pricing
      ({ s3 with spreadsVolImplied_ := spreads } : OptionletStripper2))
  obtain ⟨a1, -⟩ := OptionletStripper2.atmStage_fields pricing q self
  rw [hatm] at a1 ⊢
  exact ⟨rfl, e2, e1, e7, e6.trans a1⟩

/-- With the example solver, in a market where a cap's price is the surface volatility at
the origin, a pass succeeds. -/
theorem exampleSolver_pass_ok (pricing : Pricing) (q : Quotes) (self : OptionletStripper2)
    (hprice : ∀ terms surface, pricing.blackNPV terms surface = .ok (surface 0 0))
    (hacc : 0 ≤ self.accuracy_) :
    self.performCalculations pricing exampleSolver q
      = (.ok (), (self.performCalculations pricing exampleSolver q).2) := by
  have h : (self.performCalculations pricing exampleSolver q).1 = .ok () := by
    apply OptionletStripper2.performCalculations_ok_of_solves
    · rw [OptionletStripper2.atmStage]
      exact OptionletStripper2.atmLoop_ok_of_total pricing _ _ _ _ _
        (fun terms surface => ⟨_, hprice terms surface⟩)
    · intro j _
      refine ⟨_, exampleSolver_solves pricing _ j hprice ?_⟩
      rw [(OptionletStripper2.atmStage_fields pricing q self).2.2.2.1]
      exact hacc
  exact Prod.ext h rfl

/-- The ATM strikes of the example stripper after a pass in a market `pricing`. -/
theorem example_atm_strikes (pricing : Pricing) (solve : Solver1D) (s1 : OptionletStripper2)
    (hpass : exampleStripper2.performCalculations pricing solve exampleQuotes = (.ok (), s1)) :
    s1.nOptionExpiries_ = 2 ∧
      s1.atmCapFloorStrikes_.getD 0 0 = pricing.atmRate (pricing.makeCapFloor ⟨1, .Years⟩) ∧
      s1.atmCapFloorStrikes_.getD 1 0 = pricing.atmRate (pricing.makeCapFloor ⟨2, .Years⟩) := by
  obtain ⟨h1, h2, -, -, h5⟩ := performCalculations_fields pricing solve exampleQuotes
    exampleStripper2 s1 hpass
  have hn : exampleStripper2.nOptionExpiries_ = 2 := rfl
  have ht : exampleStripper2.atmCapFloorTermVolCurve_.optionTenors
      = [⟨1, .Years⟩, ⟨2, .Years⟩] := exampleCurve_fields.1
  have k0 := (OptionletStripper2.atmStage_strikes pricing exampleQuotes exampleStripper2 0 h1
    rfl rfl (by rw [hn]; decide)).1
  have k1 := (OptionletStripper2.atmStage_strikes pricing exampleQuotes exampleStripper2 1 h1
    rfl rfl (by rw [hn]; decide)).1
  rw [ht] at k0 k1
  rw [h2, h5]
  exact ⟨hn, k0, k1⟩

theorem example_insertedTenors_zero (s1 : OptionletStripper2) (hn : s1.nOptionExpiries_ = 2) :
    s1.insertedTenors 0 = [0, 1] := by
  unfold OptionletStripper2.insertedTenors
  rw [hn]
  simp [List.range_succ]

theorem exampleStripper1_strictly_increasing (i : Nat) :
    (exampleStripper1.optionletStrikes i).Pairwise (· < ·) := by
  rcases i with _ | _ | i
  · norm_num [exampleStripper1, OptionletStripper1.optionletStrikes]
  · norm_num [exampleStripper1, OptionletStripper1.optionletStrikes]
  · simp [exampleStripper1, OptionletStripper1.optionletStrikes]

/-- C3, as stated, fails: with a flat forward curve both reference caps have the ATM rate
0.03, which is also an upstream strike; after the pass the first expiry's strike grid is
`[0.01, 0.03, 0.03, 0.03]`, not strictly increasing, although every upstream strike grid
was. -/
theorem strike_grid_not_strictly_increasing :
    (exampleStripper2.performCalculations flatForwardPricing exampleSolver exampleQuotes).1
        = .ok () ∧
      (∀ i, (exampleStripper1.optionletStrikes i).Pairwise (· < ·)) ∧
      (exampleStripper2.performCalculations flatForwardPricing exampleSolver
          exampleQuotes).2.optionletStrikes_.getD 0 [] = [1 / 100, 3 / 100, 3 / 100, 3 / 100] ∧
      ¬ ((exampleStripper2.performCalculations flatForwardPricing exampleSolver
          exampleQuotes).2.optionletStrikes_.getD 0 []).Pairwise (· < ·) := by
  have hpass := exampleSolver_pass_ok flatForwardPricing exampleQuotes exampleStripper2
    (fun _ _ => rfl) (by norm_num [exampleStripper2])
  obtain ⟨hn, k0, k1⟩ := example_atm_strikes flatForwardPricing exampleSolver _ hpass
  obtain ⟨hg, -⟩ := OptionletStripper2.performCalculations_grid flatForwardPricing exampleSolver
    exampleQuotes exampleStripper2 _ 0 rfl rfl hpass (by simp [exampleStripper2, exampleStripper1])
  have hgrid : (exampleStripper2.performCalculations flatForwardPricing exampleSolver
      exampleQuotes).2.optionletStrikes_.getD 0 [] = [1 / 100, 3 / 100, 3 / 100, 3 / 100] := by
    have h2 : (exampleStripper2.performCalculations flatForwardPricing exampleSolver
        exampleQuotes).2.optionletStrikes_.getD 0 []
        = ((exampleStripper2.performCalculations flatForwardPricing exampleSolver
            exampleQuotes).2.grid 0).1 := rfl
    rw [h2, hg, foldl_insertPoint_fst, example_insertedTenors_zero _ hn]
    simp only [List.map_cons, List.map_nil, OptionletStripper2.atmPoint, k0, k1]
    norm_num [flatForwardPricing, exampleStripper2, exampleStripper1,
      OptionletStripper1.optionletStrikes, vectorInsert, lowerBound]
  refine ⟨by rw [hpass], exampleStripper1_strictly_increasing, hgrid, ?_⟩
  rw [hgrid]
  norm_num

theorem strike_grids_stay_sorted_witness :
    ((exampleStripper2.performCalculations examplePricing exampleSolver
        exampleQuotes).2.optionletStrikes_.getD 0 []).Pairwise (· ≤ ·) ∧
      ((exampleStripper2.performCalculations examplePricing exampleSolver
        exampleQuotes).2.optionletStrikes_.getD 0 []).Pairwise (· < ·) := by
  have hpass := exampleSolver_pass_ok examplePricing exampleQuotes exampleStripper2
    examplePricing_total (by norm_num [exampleStripper2])
  obtain ⟨hn, k0, k1⟩ := example_atm_strikes examplePricing exampleSolver _ hpass
  have h := strike_grids_stay_sorted examplePricing exampleSolver exampleQuotes exampleStripper2
    _ 0 rfl rfl hpass (by simp [exampleStripper2, exampleStripper1])
    (exampleStripper1_strictly_increasing 0)
  have t1 : Int.toNat 1 = 1 := rfl
  have t2 : Int.toNat 2 = 2 := rfl
  refine ⟨h.1, h.2 ?_ ?_⟩
  · rw [example_insertedTenors_zero _ hn]
    simp only [List.map_cons, List.map_nil, k0, k1]
    norm_num [examplePricing, t1, t2]
  · rw [example_insertedTenors_zero _ hn]
    intro j hj
    simp only [List.mem_cons, List.mem_singleton, List.not_mem_nil, or_false] at hj
    rcases hj with rfl | rfl
    · rw [k0]
      norm_num [examplePricing, exampleStripper2, exampleStripper1,
        OptionletStripper1.optionletStrikes, t1, t2]
    · rw [k1]
      norm_num [examplePricing, exampleStripper2, exampleStripper1,
        OptionletStripper1.optionletStrikes, t1, t2]

theorem objective_call_zero_at_exact_spread_witness :
    (((ObjectiveFunction.new exampleStripper1 default (21 / 100)).afterCalls examplePricing
        [1 / 10000]).call examplePricing (1 / 100)).1 = .ok 0 ∧ |(0 : Real)| ≤ 1 / 1000000 :=
  objective_call_zero_at_exact_spread examplePricing exampleStripper1 default (21 / 100)
    [1 / 10000] (1 / 100) (by norm_num [examplePricing])

/-! ## The spline through three knots -/

/-- The tridiagonal solve for the knot derivatives of three knots, in terms of the knot
spacings `h0`, `h1` and the secant slopes `S0`, `S1`. -/
theorem three_knot_solve (h0 h1 S0 S1 : Real) (p0 : 0 < h0) (p1 : 0 < h1) :
    tridiagonalSolve [h1, 1] [2, 2 * (h1 + h0), 2] [1, h0] [3 * S0, 3 * (h1 * S0 + h0 * S1), 3 * S1]
      = [(3 * S0 - (h1 * S0 + h0 * S1) / (h0 + h1)) / 2, (h1 * S0 + h0 * S1) / (h0 + h1),
          (3 * S1 - (h1 * S0 + h0 * S1) / (h0 + h1)) / 2] := by
  have q2 : h0 + h1 ≠ 0 := ne_of_gt (by linarith)
  have q3 : 4 * h0 + 3 * h1 ≠ 0 := ne_of_gt (by linarith)
  have e1 : 2 * (h1 + h0) - h1 * (1 / 2) = (4 * h0 + 3 * h1) / 2 := by ring
  have e2 : 2 - 1 * (h0 / ((4 * h0 + 3 * h1) / 2)) = 6 * (h0 + h1) / (4 * h0 + 3 * h1) := by
    field_simp
    ring
  simp only [tridiagonalSolve, forwardSweep, backSubstitute, List.zip, List.zipWith, List.headD,
    e1, e2]
  refine List.cons_eq_cons.mpr ⟨?_, List.cons_eq_cons.mpr ⟨?_, List.cons_eq_cons.mpr ⟨?_, rfl⟩⟩⟩
  · field_simp
    ring
  · field_simp
    ring
  · field_simp
    ring

/-- Knot derivatives of the natural spline through three knots. -/
theorem splineDerivatives_three (x0 x1 x2 y0 y1 y2 : Real) (h01 : x0 < x1) (h12 : x1 < x2) :
    splineDerivatives [x0, x1, x2] [y0, y1, y2]
      = [(3 * ((y1 - y0) / (x1 - x0))
            - ((x2 - x1) * ((y1 - y0) / (x1 - x0)) + (x1 - x0) * ((y2 - y1) / (x2 - x1)))
              / ((x1 - x0) + (x2 - x1))) / 2,
          ((x2 - x1) * ((y1 - y0) / (x1 - x0)) + (x1 - x0) * ((y2 - y1) / (x2 - x1)))
            / ((x1 - x0) + (x2 - x1)),
          (3 * ((y2 - y1) / (x2 - x1))
            - ((x2 - x1) * ((y1 - y0) / (x1 - x0)) + (x1 - x0) * ((y2 - y1) / (x2 - x1)))
              / ((x1 - x0) + (x2 - x1))) / 2] := by
  have hr2 : List.range 2 = [0, 1] := rfl
  have hr1 : List.range 1 = [0] := rfl
  rw [← three_knot_solve (x1 - x0) (x2 - x1) ((y1 - y0) / (x1 - x0)) ((y2 - y1) / (x2 - x1))
    (sub_pos.mpr h01) (sub_pos.mpr h12)]
  simp only [splineDerivatives, knotSpacings, secantSlopes, hr2, hr1, List.length_cons,
    List.length_nil, List.map, List.getD_cons_zero, List.getD_cons_succ, List.cons_append,
    List.nil_append, Nat.reduceAdd, Nat.reduceSub]

/-- The cubic of the second segment of a three-knot natural spline, in factored form. -/
theorem second_segment_factored (y1 h0 h1 S0 S1 u : Real) (p0 : 0 < h0) (p1 : 0 < h1) :
    y1 + u * ((h1 * S0 + h0 * S1) / (h0 + h1)
        + u * ((3 * S1 - (3 * S1 - (h1 * S0 + h0 * S1) / (h0 + h1)) / 2
                - 2 * ((h1 * S0 + h0 * S1) / (h0 + h1))) / h1
          + u * (((3 * S1 - (h1 * S0 + h0 * S1) / (h0 + h1)) / 2
                + (h1 * S0 + h0 * S1) / (h0 + h1) - 2 * S1) / (h1 * h1))))
      = y1 + u * (S1 + h1 * (S0 - S1) / (h0 + h1) * (1 - u / h1) * (1 - u / (2 * h1))) := by
  have q1 : h1 ≠ 0 := ne_of_gt p1
  have q2 : h0 + h1 ≠ 0 := ne_of_gt (by linarith)
  field_simp
  ring

/-- Closed form of the natural spline through three knots on its second segment: with
`S0`, `S1` the secant slopes, `h0`, `h1` the knot spacings and `u = x - x1`, the value is
`y1 + u (S1 + D (1 - u/h1) (1 - u/(2 h1)))` where `D = h1 (S0 - S1) / (h0 + h1)`. -/
theorem spline_three_knots (x0 x1 x2 y0 y1 y2 x : Real) (h01 : x0 < x1) (h12 : x1 < x2)
    (hx1 : x1 ≤ x) (hx2 : x ≤ x2) :
    Interpolation.call [x0, x1, x2] [y0, y1, y2] (CubicInterpolation [x0, x1, x2] [y0, y1, y2]) x
      = y1 + (x - x1) * ((y2 - y1) / (x2 - x1)
          + (x2 - x1) * ((y1 - y0) / (x1 - x0) - (y2 - y1) / (x2 - x1)) / ((x1 - x0) + (x2 - x1))
            * (1 - (x - x1) / (x2 - x1)) * (1 - (x - x1) / (2 * (x2 - x1)))) := by
  have hr2 : List.range 2 = [0, 1] := rfl
  have c1 : ¬ x < x0 := not_lt.mpr (le_trans (le_of_lt h01) hx1)
  have c2 : ¬ x < x1 := not_lt.mpr hx1
  have c3 : ¬ x > x2 := not_lt.mpr hx2
  have hloc : Interpolation.locate [x0, x1, x2] x = 1 := by
    simp [Interpolation.locate, upperBound, c1, c2, c3]
  have hcall : Interpolation.call [x0, x1, x2] [y0, y1, y2]
      (CubicInterpolation [x0, x1, x2] [y0, y1, y2]) x
      = Interpolation.value [x0, x1, x2] [y0, y1, y2]
          (CubicInterpolation [x0, x1, x2] [y0, y1, y2]) x := by
    simp [Interpolation.call, c1, c3]
  rw [hcall, ← second_segment_factored y1 (x1 - x0) (x2 - x1) ((y1 - y0) / (x1 - x0))
    ((y2 - y1) / (x2 - x1)) (x - x1) (sub_pos.mpr h01) (sub_pos.mpr h12)]
  simp only [Interpolation.value, hloc, CubicInterpolation, splineDerivatives_three _ _ _ _ _ _ h01 h12,
    knotSpacings, secantSlopes, hr2, List.length_cons, List.length_nil, List.map,
    List.getD_cons_zero, List.getD_cons_succ, Nat.reduceAdd, Nat.reduceSub]

/-- Bounds on the second-segment cubic: with `S1 b` the rise over the segment, a
non-negative curvature term `D` below `2 S1` and `0 < u < b`, the increment
`u (S1 + D (1 - u/b) (1 - u/(2 b)))` lies strictly between `0` and the rise. -/
theorem second_segment_bounds (b S1 D u : Real) (hb : 0 < b) (hS1 : 0 < S1) (hD0 : 0 ≤ D)
    (hD2 : D < 2 * S1) (hu0 : 0 < u) (hub : u < b) :
    0 < u * (S1 + D * (1 - u / b) * (1 - u / (2 * b))) ∧
      u * (S1 + D * (1 - u / b) * (1 - u / (2 * b))) < S1 * b := by
  have hb0 : b ≠ 0 := ne_of_gt hb
  have hW1 : 0 < 1 - u / b := by
    rw [sub_pos, div_lt_one hb]; exact hub
  have hW2 : 0 < 1 - u / (2 * b) := by
    rw [sub_pos, div_lt_one (by linarith)]; linarith
  have hW1b : (1 - u / b) * b = b - u := by field_simp
  have huW2 : u * (1 - u / (2 * b)) ≤ b / 2 := by
    have hsq : 0 ≤ (b - u) ^ 2 := sq_nonneg _
    have hkey : b / 2 - u * (1 - u / (2 * b)) = (b - u) ^ 2 / (2 * b) := by
      field_simp
      ring
    have : 0 ≤ (b - u) ^ 2 / (2 * b) := div_nonneg hsq (by linarith)
    linarith
  have hDW1 : 0 ≤ D * (1 - u / b) := mul_nonneg hD0 hW1.le
  constructor
  · exact mul_pos hu0 (add_pos_of_pos_of_nonneg hS1 (mul_nonneg hDW1 hW2.le))
  · have h1 : D * (1 - u / b) * (u * (1 - u / (2 * b))) ≤ D * (1 - u / b) * (b / 2) :=
      mul_le_mul_of_nonneg_left huW2 hDW1
    have h2 : D * ((1 - u / b) * b) < 2 * S1 * ((1 - u / b) * b) :=
      mul_lt_mul_of_pos_right hD2 (mul_pos hW1 hb)
    rw [hW1b] at h2
    have h3 : D * (1 - u / b) * (b / 2) = D * ((1 - u / b) * b) / 2 := by ring
    rw [h3, hW1b] at h1
    have h4 : u * (S1 + D * (1 - u / b) * (1 - u / (2 * b)))
        = u * S1 + D * (1 - u / b) * (u * (1 - u / (2 * b))) := by ring
    rw [h4]
    nlinarith

/-- The scenario curve through `(t1, 0.20)`, `(t2, 0.22)`, `(t5, 0.25)`: the value at the
middle knot is `0.22`, and at every time strictly between the last two knots the value
lies strictly between `0.22` and `0.25`, provided the second spacing is between 1.5 and 4
times the first. -/
theorem scenario_spline_values (t1 t2 t3 t5 : Real) (h12 : t1 < t2) (h23 : t2 < t3)
    (h35 : t3 < t5) (hlo : 3 * (t2 - t1) ≤ 2 * (t5 - t2)) (hhi : t5 - t2 ≤ 4 * (t2 - t1)) :
    Interpolation.call [t1, t2, t5] [1 / 5, 11 / 50, 1 / 4]
        (CubicInterpolation [t1, t2, t5] [1 / 5, 11 / 50, 1 / 4]) t2 = 11 / 50 ∧
      11 / 50 < Interpolation.call [t1, t2, t5] [1 / 5, 11 / 50, 1 / 4]
        (CubicInterpolation [t1, t2, t5] [1 / 5, 11 / 50, 1 / 4]) t3 ∧
      Interpolation.call [t1, t2, t5] [1 / 5, 11 / 50, 1 / 4]
        (CubicInterpolation [t1, t2, t5] [1 / 5, 11 / 50, 1 / 4]) t3 < 1 / 4 := by
  have h25 : t2 < t5 := lt_trans h23 h35
  have pa : 0 < t2 - t1 := sub_pos.mpr h12
  have pb : 0 < t5 - t2 := sub_pos.mpr h25
  have pab : 0 < (t2 - t1) + (t5 - t2) := by linarith
  rw [spline_three_knots t1 t2 t5 _ _ _ t2 h12 h25 (le_refl _) (le_of_lt h25),
    spline_three_knots t1 t2 t5 _ _ _ t3 h12 h25 (le_of_lt h23) (le_of_lt h35)]
  have hS1 : 0 < (1 / 4 - 11 / 50 : Real) / (t5 - t2) := div_pos (by norm_num) pb
  have hS1b : (1 / 4 - 11 / 50 : Real) / (t5 - t2) * (t5 - t2) = 3 / 100 := by
    field_simp
    ring
  have hS0a : (11 / 50 - 1 / 5 : Real) / (t2 - t1) * (t2 - t1) = 1 / 50 := by
    field_simp
    ring
  have hS0S1 : (1 / 4 - 11 / 50 : Real) / (t5 - t2) ≤ (11 / 50 - 1 / 5 : Real) / (t2 - t1) := by
    rw [div_le_div_iff₀ pb pa]
    nlinarith
  have hD0 : 0 ≤ (t5 - t2) * ((11 / 50 - 1 / 5 : Real) / (t2 - t1)
      - (1 / 4 - 11 / 50) / (t5 - t2)) / ((t2 - t1) + (t5 - t2)) :=
    div_nonneg (mul_nonneg pb.le (sub_nonneg.mpr hS0S1)) pab.le
  have hD2 : (t5 - t2) * ((11 / 50 - 1 / 5 : Real) / (t2 - t1)
      - (1 / 4 - 11 / 50) / (t5 - t2)) / ((t2 - t1) + (t5 - t2))
      < 2 * ((1 / 4 - 11 / 50 : Real) / (t5 - t2)) := by
    rw [div_lt_iff₀ pab]
    have e1 : (t5 - t2) * ((11 / 50 - 1 / 5 : Real) / (t2 - t1))
        = (1 / 50) * ((t5 - t2) / (t2 - t1)) := by
      field_simp
      ring
    have e2 : (t5 - t2) / (t2 - t1) ≤ 4 := by
      rw [div_le_iff₀ pa]; linarith
    have e3 : 0 < (1 / 4 - 11 / 50 : Real) / (t5 - t2) * (t2 - t1) := mul_pos hS1 pa
    nlinarith
  obtain ⟨k1, k2⟩ := second_segment_bounds (t5 - t2) _ _ (t3 - t2) pb hS1 hD0 hD2
    (sub_pos.mpr h23) (by linarith)
  rw [hS1b] at k2
  refine ⟨by simp, by linarith, by linarith⟩

/-! ## The option dates and times of a curve -/

theorem initializeStep_eq (env : DateServices) (settings : Settings) (c : CapFloorTermVolCurve)
    (i : Nat) (hi : i < c.optionDates_.length) :
    c.initializeStep env settings i =
      { c with
        optionDates_ := (c.optionDates_.set i
          (c.optionDateFromTenor env settings (c.optionTenors_.getD i default))),
        optionTimes_ := (c.optionTimes_.set i
          (c.timeFromReference env settings
            (c.optionDateFromTenor env settings (c.optionTenors_.getD i default)))) } := by
  unfold CapFloorTermVolCurve.initializeStep
  simp only [getD_set_eq, hi, and_self, if_true]
  rfl

theorem initialize_fold (env : DateServices) (settings : Settings) (c : CapFloorTermVolCurve)
    (n : Nat) (hd : n ≤ c.optionDates_.length) (ht : n ≤ c.optionTimes_.length) :
    (List.range n).foldl (CapFloorTermVolCurve.initializeStep env settings) c =
      { c with
        optionDates_ := ((List.range n).map (fun i =>
            c.optionDateFromTenor env settings (c.optionTenors_.getD i default))
          ++ c.optionDates_.drop n),
        optionTimes_ := ((List.range n).map (fun i =>
            c.timeFromReference env settings
              (c.optionDateFromTenor env settings (c.optionTenors_.getD i default)))
          ++ c.optionTimes_.drop n) } := by
  induction n with
  | zero => simp
  | succ k ih =>
    rw [List.range_succ, List.foldl_append, ih (by omega) (by omega)]
    simp only [List.foldl_cons, List.foldl_nil]
    rw [initializeStep_eq _ _ _ _ (by simp; omega)]
    have hk1 : k < c.optionDates_.length := by omega
    have hk2 : k < c.optionTimes_.length := by omega
    have hd1 : c.optionDates_.drop k = c.optionDates_[k] :: c.optionDates_.drop (k + 1) :=
      List.drop_eq_getElem_cons hk1
    have hd2 : c.optionTimes_.drop k = c.optionTimes_[k] :: c.optionTimes_.drop (k + 1) :=
      List.drop_eq_getElem_cons hk2
    simp only [List.map_append, List.map_cons, List.map_nil]
    rw [List.set_append_right _ _ (by simp), List.set_append_right _ _ (by simp), hd1, hd2]
    simp only [List.length_map, List.length_range, Nat.sub_self, List.set_cons_zero,
      List.append_assoc, List.singleton_append]
    rfl

/-- The function `initializeOptionDatesAndTimes` sets option date `i` to the date of tenor `i` and option
time `i` to the time of that date. -/
theorem initializeOptionDatesAndTimes_eq (env : DateServices) (settings : Settings)
    (c : CapFloorTermVolCurve) (hn : c.nOptionTenors_ = c.optionTenors_.length)
    (hd : c.optionDates_.length = c.nOptionTenors_)
    (ht : c.optionTimes_.length = c.nOptionTenors_) :
    c.initializeOptionDatesAndTimes env settings =
      { c with
        optionDates_ := (c.optionTenors_.map (c.optionDateFromTenor env settings)),
        optionTimes_ := (c.optionTenors_.map fun p =>
          c.timeFromReference env settings (c.optionDateFromTenor env settings p)) } := by
  unfold CapFloorTermVolCurve.initializeOptionDatesAndTimes
  rw [initialize_fold env settings c c.nOptionTenors_ (by omega) (by omega)]
  have h1 : c.optionDates_.drop c.nOptionTenors_ = [] := List.drop_eq_nil_of_le (by omega)
  have h2 : c.optionTimes_.drop c.nOptionTenors_ = [] := List.drop_eq_nil_of_le (by omega)
  have h3 : ∀ {β : Type} (f : Period → β),
      (List.range c.nOptionTenors_).map (fun i => f (c.optionTenors_.getD i default))
        = c.optionTenors_.map f := by
    intro β f
    apply List.ext_getElem
    · simp [hn]
    · intro i hi1 hi2
      simp only [List.getElem_map, List.getElem_range]
      rw [List.getD_eq_getElem _ _ (by simpa using hi2)]
  rw [h1, h2, List.append_nil, List.append_nil, h3 (c.optionDateFromTenor env settings),
    h3 (fun p => c.timeFromReference env settings (c.optionDateFromTenor env settings p))]

/-- The knot times of a constructed curve are the times of its tenors' option dates, and
the curve keeps the conventions it was given. -/
theorem new_optionTimes (env : DateServices) (settings : Settings)
    (ref : ReferenceDateArg) (calendar : Calendar) (bdc : BusinessDayConvention)
    (optionTenors : List Period) (data : MarketDataArg) (dc : DayCounter)
    (c : CapFloorTermVolCurve)
    (hc : CapFloorTermVolCurve.new env settings ref calendar bdc optionTenors data dc = .ok c) :
    c.optionTimes_ = optionTenors.map (fun p =>
        c.timeFromReference env settings (c.optionDateFromTenor env settings p)) ∧
      c.dayCounter_ = dc ∧ c.calendar_ = calendar ∧ c.bdc_ = bdc := by
  have hvalid := valid_of_new_ok env settings ref calendar bdc optionTenors data dc c hc
  have hchk := (members_checkInputs_iff env ref calendar bdc optionTenors data dc).mpr hvalid
  cases ref <;> cases data <;>
    simp only [CapFloorTermVolCurve.new, CapFloorTermVolCurve.mkFloatingHandles,
      CapFloorTermVolCurve.mkFixedHandles, CapFloorTermVolCurve.mkFixedVols,
      CapFloorTermVolCurve.mkFloatingVols, CapFloorTermVolCurve.members,
      CapFloorTermVolCurve.bodyHandles, CapFloorTermVolCurve.bodyFixed] at hc hchk <;>
    rw [hchk] at hc <;>
    simp only [Except.ok.injEq] at hc <;>
    subst hc <;>
    rw [initializeOptionDatesAndTimes_eq _ _ _ rfl (by simp [CapFloorTermVolCurve.init])
      (by simp [CapFloorTermVolCurve.init])]
  · exact ⟨rfl, rfl, rfl, rfl⟩
  · rw [fillHandles_eq _ (by simp [CapFloorTermVolCurve.init, hvalid.2.1, MarketDataArg.size])]
    exact ⟨rfl, rfl, rfl, rfl⟩
  · exact ⟨rfl, rfl, rfl, rfl⟩
  · rw [fillHandles_eq _ (by simp [CapFloorTermVolCurve.init, hvalid.2.1, MarketDataArg.size])]
    exact ⟨rfl, rfl, rfl, rfl⟩

/-- The volatility of a freshly constructed curve at any time: the spline through the knot
times and the input volatilities. -/
theorem volatilityImpl_of_new (env : DateServices) (settings : Settings) (q : Quotes)
    (ref : ReferenceDateArg) (calendar : Calendar) (bdc : BusinessDayConvention)
    (optionTenors : List Period) (data : MarketDataArg) (dc : DayCounter)
    (c : CapFloorTermVolCurve) (t : Time) (strike : Rate)
    (hc : CapFloorTermVolCurve.new env settings ref calendar bdc optionTenors data dc = .ok c) :
    (c.volatilityImpl q t strike).1
      = Interpolation.call c.optionTimes_ ((List.range data.size).map (data.volatility q))
          (CubicInterpolation c.optionTimes_ ((List.range data.size).map (data.volatility q)))
          t := by
  obtain ⟨hstale, hv, -, -, hval⟩ := new_ok_facts env settings q ref calendar bdc optionTenors
    data dc c hc
  have hvols : (List.range c.vols_.length).map (fun i => (c.volHandles_.getD i default).value q)
      = (List.range data.size).map (data.volatility q) := by
    rw [hv]
    apply List.map_congr_left
    intro i hi
    exact hval i (List.mem_range.mp hi)
  simp only [CapFloorTermVolCurve.volatilityImpl, CapFloorTermVolCurve.calculate, hstale,
    Bool.false_eq_true, if_false, performCalculations_eq, hvols]

/-! ## Knot values of a constructed curve -/

/-- The fixed-date, fixed-data constructor on valid inputs returns the curve it built. -/
theorem mkFixedVols_of_valid (env : DateServices) (settings : Settings) (settlementDate : Date)
    (calendar : Calendar) (bdc : BusinessDayConvention) (optionTenors : List Period)
    (vols : List Volatility) (dc : DayCounter)
    (hvalid : CapFloorTermVolCurve.ValidInputs env optionTenors vols.length) :
    CapFloorTermVolCurve.new env settings (.settlementDate settlementDate) calendar bdc
        optionTenors (.numbers vols) dc
      = .ok ((CapFloorTermVolCurve.members (.settlementDate settlementDate) calendar bdc
          optionTenors (.numbers vols) dc).initializeOptionDatesAndTimes env
            settings).fillHandles.interpolate := by
  have hchk := (members_checkInputs_iff env (.settlementDate settlementDate) calendar bdc
    optionTenors (.numbers vols) dc).mpr hvalid
  simp only [CapFloorTermVolCurve.new, CapFloorTermVolCurve.mkFixedVols,
    CapFloorTermVolCurve.bodyFixed, CapFloorTermVolCurve.members] at hchk ⊢
  rw [hchk]

/-- Date services that send a greater tenor to a later time give strictly increasing knot
times on valid inputs. -/
theorem pairwise_times_of_valid (env : DateServices) (optionTenors : List Period) (n : Nat)
    (time : Period → Time)
    (hvalid : CapFloorTermVolCurve.ValidInputs env optionTenors n)
    (hmono : ∀ p p1 : Period, env.periodGt p1 p = .ok true → time p < time p1) :
    (optionTenors.map time).Pairwise (· < ·) := by
  rw [← List.chain'_iff_pairwise, List.chain'_map, List.chain'_iff_get]
  intro i h
  apply hmono
  have hgt := hvalid.2.2.2 (i + 1) (by omega) (by omega)
  rw [List.getD_eq_getElem _ _ (by omega), List.getD_eq_getElem _ _ (by omega)] at hgt
  exact hgt

/-- C9: for every valid curve input (any of the four constructors succeeding, hence
strictly increasing tenors and one volatility per tenor; date services sending a greater
tenor to a later time) and every knot index `i`, the curve's volatility at the knot time
`optionTimes()[i]` equals the `i`-th input volatility exactly. -/
theorem volatility_at_knot_eq_input (env : DateServices) (settings : Settings) (q : Quotes)
    (ref : ReferenceDateArg) (calendar : Calendar) (bdc : BusinessDayConvention)
    (optionTenors : List Period) (data : MarketDataArg) (dc : DayCounter)
    (c : CapFloorTermVolCurve) (strike : Rate) (i : Nat)
    (hc : CapFloorTermVolCurve.new env settings ref calendar bdc optionTenors data dc = .ok c)
    (hmono : ∀ p p1 : Period, env.periodGt p1 p = .ok true →
      c.timeFromReference env settings (c.optionDateFromTenor env settings p)
        < c.timeFromReference env settings (c.optionDateFromTenor env settings p1))
    (hi : i < data.size) :
    (c.volatilityImpl q ((c.optionTimes q).1.getD i 0) strike).1 = data.volatility q i := by
  obtain ⟨hstale, hv, ht, _, hval⟩ := new_ok_facts env settings q ref calendar bdc optionTenors
    data dc c hc
  have hvalid := valid_of_new_ok env settings ref calendar bdc optionTenors data dc c hc
  obtain ⟨htimes, -⟩ := new_optionTimes env settings ref calendar bdc optionTenors data dc c hc
  have hinc : c.optionTimes_.Pairwise (· < ·) := by
    rw [htimes]
    exact pairwise_times_of_valid env optionTenors data.size _ hvalid hmono
  rw [optionTimes_fst]
  rw [volatilityImpl_at_knot_of_stale q c strike hstale (hv.trans ht.symm) hinc i (by omega)]
  exact hval i hi

theorem volatility_at_knot_eq_input_witness :
    ∃ c, CapFloorTermVolCurve.new exampleDateServices ⟨0⟩ (.settlementDate 0) exampleCalendar 0
        [⟨1, .Years⟩, ⟨2, .Years⟩] (.numbers [1 / 5, 11 / 50]) Actual365Fixed = .ok c ∧
      (c.volatilityImpl exampleQuotes ((c.optionTimes exampleQuotes).1.getD 1 0) 0).1 = 11 / 50 := by
  have hc : CapFloorTermVolCurve.new exampleDateServices ⟨0⟩ (.settlementDate 0) exampleCalendar 0
      [⟨1, .Years⟩, ⟨2, .Years⟩] (.numbers [1 / 5, 11 / 50]) Actual365Fixed
      = .ok exampleCurve := by
    rw [exampleCurve]
    apply mkFixedVols_of_valid
    refine ⟨by simp, rfl, by simp [exampleDateServices, Period.ofUnits], ?_⟩
    intro i h1 h2
    have hi : i = 1 := by simp at h2; omega
    subst hi
    simp [exampleDateServices]
  refine ⟨_, hc, ?_⟩
  refine volatility_at_knot_eq_input exampleDateServices ⟨0⟩ exampleQuotes (.settlementDate 0)
    exampleCalendar 0 [⟨1, .Years⟩, ⟨2, .Years⟩] (.numbers [1 / 5, 11 / 50]) Actual365Fixed _ 0 1
    hc ?_ (by decide)
  intro p p1 hgt
  have hlt : p.length < p1.length := by
    simpa [exampleDateServices] using hgt
  have hlt2 : ((p.length : Int) : Real) < ((p1.length : Int) : Real) := by exact_mod_cast hlt
  obtain ⟨-, hdc, hcal, hbdc⟩ := new_optionTimes exampleDateServices ⟨0⟩ (.settlementDate 0)
    exampleCalendar 0 _ _ _ _ hc
  simp only [CapFloorTermVolCurve.timeFromReference, CapFloorTermVolCurve.optionDateFromTenor,
    exampleDateServices]
  apply div_lt_div_of_pos_right _ (by norm_num)
  push_cast
  linarith

/-! ## The scenario curve -/

/-- C10: for the curve with tenors [1Y, 2Y, 5Y], volatilities [0.20, 0.22, 0.25] and the
Actual/365 (Fixed) day counter (time = days / 365, the option dates lying within a week of
365, 730 and 1826 days after the reference date), the volatility at the 2Y knot time is
exactly 0.22, and the volatility at the time of any date strictly between the 2Y and 5Y
option dates, the 3Y date in particular, is strictly greater than 0.22 and strictly less
than 0.25. -/
theorem scenario_curve_values (env : DateServices) (settings : Settings) (q : Quotes)
    (ref : ReferenceDateArg) (calendar : Calendar) (bdc : BusinessDayConvention)
    (c : CapFloorTermVolCurve) (strike : Rate)
    (hyf : ∀ a b : Date, env.yearFraction Actual365Fixed a b = ((b - a : Int) : Real) / 365)
    (hc : CapFloorTermVolCurve.new env settings ref calendar bdc
      [⟨1, .Years⟩, ⟨2, .Years⟩, ⟨5, .Years⟩] (.numbers [1 / 5, 11 / 50, 1 / 4]) Actual365Fixed
      = .ok c)
    (hd1 : 358 ≤ c.optionDateFromTenor env settings ⟨1, .Years⟩ - c.referenceDate env settings ∧
      c.optionDateFromTenor env settings ⟨1, .Years⟩ - c.referenceDate env settings ≤ 373)
    (hd2 : 723 ≤ c.optionDateFromTenor env settings ⟨2, .Years⟩ - c.referenceDate env settings ∧
      c.optionDateFromTenor env settings ⟨2, .Years⟩ - c.referenceDate env settings ≤ 738)
    (hd5 : 1818 ≤ c.optionDateFromTenor env settings ⟨5, .Years⟩ - c.referenceDate env settings ∧
      c.optionDateFromTenor env settings ⟨5, .Years⟩ - c.referenceDate env settings ≤ 1834)
    (hd3 : c.optionDateFromTenor env settings ⟨2, .Years⟩
        < c.optionDateFromTenor env settings ⟨3, .Years⟩ ∧
      c.optionDateFromTenor env settings ⟨3, .Years⟩
        < c.optionDateFromTenor env settings ⟨5, .Years⟩) :
    (c.volatilityImpl q
        (c.timeFromReference env settings (c.optionDateFromTenor env settings ⟨2, .Years⟩))
        strike).1 = 11 / 50 ∧
      11 / 50 < (c.volatilityImpl q
        (c.timeFromReference env settings (c.optionDateFromTenor env settings ⟨3, .Years⟩))
        strike).1 ∧
      (c.volatilityImpl q
        (c.timeFromReference env settings (c.optionDateFromTenor env settings ⟨3, .Years⟩))
        strike).1 < 1 / 4 := by
  obtain ⟨htimes, hdc, -, -⟩ := new_optionTimes env settings ref calendar bdc _ _ _ c hc
  have hT : ∀ d : Date, c.timeFromReference env settings d
      = ((d - c.referenceDate env settings : Int) : Real) / 365 := by
    intro d
    unfold CapFloorTermVolCurve.timeFromReference
    rw [hdc, hyf]
  have hr3 : List.range 3 = [0, 1, 2] := rfl
  rw [volatilityImpl_of_new env settings q ref calendar bdc _ _ _ c _ strike hc,
    volatilityImpl_of_new env settings q ref calendar bdc _ _ _ c _ strike hc, htimes]
  simp only [List.map_cons, List.map_nil, MarketDataArg.size, List.length_cons, List.length_nil,
    Nat.zero_add, Nat.reduceAdd, hr3, MarketDataArg.volatility, List.getD_cons_zero,
    List.getD_cons_succ, hT]
  obtain ⟨a1, a2⟩ := hd1
  obtain ⟨b1, b2⟩ := hd2
  obtain ⟨e1, e2⟩ := hd5
  obtain ⟨m1, m2⟩ := hd3
  have ca1 : (358 : Real) ≤ ((c.optionDateFromTenor env settings ⟨1, .Years⟩
      - c.referenceDate env settings : Int) : Real) := by exact_mod_cast a1
  have ca2 : ((c.optionDateFromTenor env settings ⟨1, .Years⟩
      - c.referenceDate env settings : Int) : Real) ≤ 373 := by exact_mod_cast a2
  have cb1 : (723 : Real) ≤ ((c.optionDateFromTenor env settings ⟨2, .Years⟩
      - c.referenceDate env settings : Int) : Real) := by exact_mod_cast b1
  have cb2 : ((c.optionDateFromTenor env settings ⟨2, .Years⟩
      - c.referenceDate env settings : Int) : Real) ≤ 738 := by exact_mod_cast b2
  have ce1 : (1818 : Real) ≤ ((c.optionDateFromTenor env settings ⟨5, .Years⟩
      - c.referenceDate env settings : Int) : Real) := by exact_mod_cast e1
  have ce2 : ((c.optionDateFromTenor env settings ⟨5, .Years⟩
      - c.referenceDate env settings : Int) : Real) ≤ 1834 := by exact_mod_cast e2
  have cm1 : ((c.optionDateFromTenor env settings ⟨2, .Years⟩
      - c.referenceDate env settings : Int) : Real)
      < ((c.optionDateFromTenor env settings ⟨3, .Years⟩
        - c.referenceDate env settings : Int) : Real) := by
    exact_mod_cast (sub_lt_sub_right m1 (c.referenceDate env settings))
  have cm2 : ((c.optionDateFromTenor env settings ⟨3, .Years⟩
      - c.referenceDate env settings : Int) : Real)
      < ((c.optionDateFromTenor env settings ⟨5, .Years⟩
        - c.referenceDate env settings : Int) : Real) := by
    exact_mod_cast (sub_lt_sub_right m2 (c.referenceDate env settings))
  apply scenario_spline_values
  · apply div_lt_div_of_pos_right _ (by norm_num); linarith
  · apply div_lt_div_of_pos_right _ (by norm_num); linarith
  · apply div_lt_div_of_pos_right _ (by norm_num); linarith
  · rw [← sub_div, ← sub_div]
    rw [← mul_div_assoc, ← mul_div_assoc]
    apply div_le_div_of_nonneg_right _ (by norm_num)
    linarith
  · rw [← sub_div, ← sub_div, ← mul_div_assoc]
    apply div_le_div_of_nonneg_right _ (by norm_num)
    linarith

theorem exampleScenarioCurve_new :
    CapFloorTermVolCurve.new exampleDateServices ⟨0⟩ (.settlementDate 0) exampleCalendar 0
        [⟨1, .Years⟩, ⟨2, .Years⟩, ⟨5, .Years⟩] (.numbers [1 / 5, 11 / 50, 1 / 4]) Actual365Fixed
      = .ok exampleScenarioCurve := by
  rw [exampleScenarioCurve]
  apply mkFixedVols_of_valid
  refine ⟨by simp, rfl, by simp [exampleDateServices, Period.ofUnits], ?_⟩
  intro i h1 h2
  have hi : i = 1 ∨ i = 2 := by simp at h2; omega
  rcases hi with rfl | rfl <;> simp [exampleDateServices]

theorem exampleScenarioCurve_dates (p : Period) :
    exampleScenarioCurve.optionDateFromTenor exampleDateServices ⟨0⟩ p
        - exampleScenarioCurve.referenceDate exampleDateServices ⟨0⟩ = 365 * p.length := by
  obtain ⟨dates, times, -, -, heq⟩ := initializeOptionDatesAndTimes_frame exampleDateServices ⟨0⟩
    (CapFloorTermVolCurve.members (.settlementDate 0) exampleCalendar 0
      [⟨1, .Years⟩, ⟨2, .Years⟩, ⟨5, .Years⟩] (.numbers [1 / 5, 11 / 50, 1 / 4]) Actual365Fixed)
  rw [exampleScenarioCurve, heq, CapFloorTermVolCurve.fillHandles, fillHandles_fold]
  simp [CapFloorTermVolCurve.optionDateFromTenor, CapFloorTermVolCurve.referenceDate,
    CapFloorTermVolCurve.interpolate, CapFloorTermVolCurve.members, CapFloorTermVolCurve.init,
    exampleDateServices]

theorem scenario_curve_values_witness :
    (exampleScenarioCurve.volatilityImpl exampleQuotes
        (exampleScenarioCurve.timeFromReference exampleDateServices ⟨0⟩
          (exampleScenarioCurve.optionDateFromTenor exampleDateServices ⟨0⟩ ⟨2, .Years⟩))
        0).1 = 11 / 50 ∧
      11 / 50 < (exampleScenarioCurve.volatilityImpl exampleQuotes
        (exampleScenarioCurve.timeFromReference exampleDateServices ⟨0⟩
          (exampleScenarioCurve.optionDateFromTenor exampleDateServices ⟨0⟩ ⟨3, .Years⟩))
        0).1 ∧
      (exampleScenarioCurve.volatilityImpl exampleQuotes
        (exampleScenarioCurve.timeFromReference exampleDateServices ⟨0⟩
          (exampleScenarioCurve.optionDateFromTenor exampleDateServices ⟨0⟩ ⟨3, .Years⟩))
        0).1 < 1 / 4 := by
  have h1 := exampleScenarioCurve_dates ⟨1, .Years⟩
  have h2 := exampleScenarioCurve_dates ⟨2, .Years⟩
  have h3 := exampleScenarioCurve_dates ⟨3, .Years⟩
  have h5 := exampleScenarioCurve_dates ⟨5, .Years⟩
  simp only at h1 h2 h3 h5
  exact scenario_curve_values exampleDateServices ⟨0⟩ exampleQuotes (.settlementDate 0)
    exampleCalendar 0 exampleScenarioCurve 0 (fun _ _ => rfl) exampleScenarioCurve_new
    (by rw [h1]; decide) (by rw [h2]; decide) (by rw [h5]; decide)
    ⟨by linarith, by linarith⟩

/-! ## Outside the knot range -/

theorem getLastD_map_range (f : Nat → Real) (n : Nat) (hn : 0 < n) :
    ((List.range n).map f).getLastD 0 = f (n - 1) := by
  rw [getLastD_eq_getD, List.length_map, List.length_range,
    getD_map_range_of_lt _ _ _ _ (by omega)]

theorem headD_map_range (f : Nat → Real) (n : Nat) (hn : 0 < n) :
    ((List.range n).map f).headD 0 = f 0 := by
  rw [headD_eq_getD, getD_map_range_of_lt _ _ _ _ hn]

/-- In a strictly increasing list the first element is not greater than the last. -/
theorem headD_le_getLastD (xs : List Real) (hs : xs.Pairwise (· < ·)) :
    xs.headD 0 ≤ xs.getLastD 0 := by
  rw [headD_eq_getD, getLastD_eq_getD]
  rcases Nat.eq_zero_or_pos xs.length with h | h
  · rw [h]
  · exact pairwise_getD_le xs hs 0 (xs.length - 1) (by omega) (by omega)

/-- C11: for every time `t` outside the knot range of a constructed curve (date services
sending a greater tenor to a later time), `CapFloorTermVolCurve::volatilityImpl`
extrapolates flat: for `t` greater than the last knot time it returns the last knot's
volatility, and for `t` smaller than the first knot time it returns the first knot's
volatility. -/
theorem volatility_flat_outside_knots (env : DateServices) (settings : Settings) (q : Quotes)
    (ref : ReferenceDateArg) (calendar : Calendar) (bdc : BusinessDayConvention)
    (optionTenors : List Period) (data : MarketDataArg) (dc : DayCounter)
    (c : CapFloorTermVolCurve) (strike : Rate)
    (hc : CapFloorTermVolCurve.new env settings ref calendar bdc optionTenors data dc = .ok c)
    (hmono : ∀ p p1 : Period, env.periodGt p1 p = .ok true →
      c.timeFromReference env settings (c.optionDateFromTenor env settings p)
        < c.timeFromReference env settings (c.optionDateFromTenor env settings p1)) :
    (∀ t : Time, (c.optionTimes q).1.getLastD 0 < t →
        (c.volatilityImpl q t strike).1 = data.volatility q (data.size - 1)) ∧
      (∀ t : Time, t < (c.optionTimes q).1.headD 0 →
        (c.volatilityImpl q t strike).1 = data.volatility q 0) := by
  have hvalid := valid_of_new_ok env settings ref calendar bdc optionTenors data dc c hc
  obtain ⟨htimes, -⟩ := new_optionTimes env settings ref calendar bdc optionTenors data dc c hc
  have hinc : c.optionTimes_.Pairwise (· < ·) := by
    rw [htimes]
    exact pairwise_times_of_valid env optionTenors data.size _ hvalid hmono
  have hpos : 0 < data.size := by
    have h1 := hvalid.1
    have h2 := hvalid.2.1
    have h3 : 0 < optionTenors.length := List.length_pos.mpr h1
    omega
  have hle := headD_le_getLastD c.optionTimes_ hinc
  rw [optionTimes_fst]
  refine ⟨fun t ht => ?_, fun t ht => ?_⟩
  · rw [volatilityImpl_of_new env settings q ref calendar bdc optionTenors data dc c t strike hc,
      Interpolation.call, if_neg (not_lt.mpr (le_trans hle (le_of_lt ht))), if_pos ht,
      getLastD_map_range _ _ hpos]
  · rw [volatilityImpl_of_new env settings q ref calendar bdc optionTenors data dc c t strike hc,
      Interpolation.call, if_pos ht, headD_map_range _ _ hpos]
theorem exampleCurve_new :
    CapFloorTermVolCurve.new exampleDateServices ⟨0⟩ (.settlementDate 0) exampleCalendar 0
        [⟨1, .Years⟩, ⟨2, .Years⟩] (.numbers [1 / 5, 11 / 50]) Actual365Fixed
      = .ok exampleCurve := by
  rw [exampleCurve]
  apply mkFixedVols_of_valid
  refine ⟨by simp, rfl, by simp [exampleDateServices, Period.ofUnits], ?_⟩
  intro i h1 h2
  have hi : i = 1 := by simp at h2; omega
  subst hi
  simp [exampleDateServices]

/-- The toy date services send a greater tenor to a later time. -/
theorem exampleDateServices_mono (c : CapFloorTermVolCurve) (settings : Settings)
    (p p1 : Period) (hgt : exampleDateServices.periodGt p1 p = .ok true) :
    c.timeFromReference exampleDateServices settings
        (c.optionDateFromTenor exampleDateServices settings p)
      < c.timeFromReference exampleDateServices settings
        (c.optionDateFromTenor exampleDateServices settings p1) := by
  have hlt : p.length < p1.length := by
    simpa [exampleDateServices] using hgt
  have hlt2 : ((p.length : Int) : Real) < ((p1.length : Int) : Real) := by exact_mod_cast hlt
  simp only [CapFloorTermVolCurve.timeFromReference, CapFloorTermVolCurve.optionDateFromTenor,
    exampleDateServices]
  apply div_lt_div_of_pos_right _ (by norm_num)
  push_cast
  linarith

theorem volatility_flat_outside_knots_witness :
    (exampleCurve.volatilityImpl exampleQuotes 3 0).1 = 11 / 50 ∧
      (exampleCurve.volatilityImpl exampleQuotes (1 / 2) 0).1 = 1 / 5 := by
  obtain ⟨h1, h2⟩ := volatility_flat_outside_knots exampleDateServices ⟨0⟩ exampleQuotes
    (.settlementDate 0) exampleCalendar 0 [⟨1, .Years⟩, ⟨2, .Years⟩] (.numbers [1 / 5, 11 / 50])
    Actual365Fixed exampleCurve 0 exampleCurve_new
    (fun p p1 h => exampleDateServices_mono _ _ p p1 h)
  have ht : (exampleCurve.optionTimes exampleQuotes).1 = [1, 2] := by
    rw [optionTimes_fst]
    exact exampleCurve_fields.2.2.1
  refine ⟨?_, ?_⟩
  · have h := h1 3 (by rw [ht]; norm_num)
    simpa [MarketDataArg.volatility, MarketDataArg.size] using h
  · have h := h2 (1 / 2) (by rw [ht]; norm_num)
    simpa [MarketDataArg.volatility] using h
/-! ## Recalculation and notification of the curve -/

/-- C15: after `CapFloorTermVolCurve::performCalculations`, for every index `i` of the
volatility vector the stored volatility `vols_[i]` equals the current value of quote handle
`i`; the tenor list, the option dates, the option times (and the handles themselves) are
left unchanged. -/
theorem performCalculations_reloads_vols_only (q : Quotes) (c : CapFloorTermVolCurve) :
    (c.performCalculations q).vols_.length = c.vols_.length ∧
      (∀ i : Nat, i < c.vols_.length →
        (c.performCalculations q).vols_.getD i 0
          = ((c.performCalculations q).volHandles_.getD i default).value q) ∧
      (c.performCalculations q).volHandles_ = c.volHandles_ ∧
      (c.performCalculations q).optionTenors_ = c.optionTenors_ ∧
      (c.performCalculations q).optionDates_ = c.optionDates_ ∧
      (c.performCalculations q).optionTimes_ = c.optionTimes_ ∧
      (c.performCalculations q).nOptionTenors_ = c.nOptionTenors_ := by
  rw [performCalculations_eq]
  refine ⟨by simp, fun i hi => ?_, rfl, rfl, rfl, rfl, rfl⟩
  simp only
  rw [getD_map_range_of_lt _ _ _ _ hi]

/-- The option-date accessors read the curve's conventions and reference-date policy, not
the recorded evaluation date. -/
theorem optionDateFromTenor_congr (env : DateServices) (settings : Settings)
    (c : CapFloorTermVolCurve) (d : Date) :
    ({ c with evaluationDate_ := d } : CapFloorTermVolCurve).optionDateFromTenor env settings
        = c.optionDateFromTenor env settings ∧
      ({ c with evaluationDate_ := d } : CapFloorTermVolCurve).timeFromReference env settings
        = c.timeFromReference env settings :=
  ⟨rfl, rfl⟩

/-- C16: `CapFloorTermVolCurve::update` on a curve whose date and time vectors have one
entry per tenor: when the reference date is floating and the current evaluation date
differs from the one last recorded, every option date and option time is recomputed from
its tenor and the new evaluation date is recorded; when the reference date is fixed, or the
evaluation date is unchanged, option dates, option times and the recorded date are left
unchanged. -/
theorem update_recomputes_dates_when_moved (env : DateServices) (settings : Settings)
    (c : CapFloorTermVolCurve) (hn : c.nOptionTenors_ = c.optionTenors_.length)
    (hd : c.optionDates_.length = c.nOptionTenors_)
    (ht : c.optionTimes_.length = c.nOptionTenors_) :
    (c.moving_ = true → c.evaluationDate_ ≠ settings.evaluationDate →
        (c.update env settings).optionDates_
            = c.optionTenors_.map (c.optionDateFromTenor env settings) ∧
          (c.update env settings).optionTimes_
            = c.optionTenors_.map (fun p =>
                c.timeFromReference env settings (c.optionDateFromTenor env settings p)) ∧
          (c.update env settings).evaluationDate_ = settings.evaluationDate) ∧
      (c.moving_ = false ∨ c.evaluationDate_ = settings.evaluationDate →
        (c.update env settings).optionDates_ = c.optionDates_ ∧
          (c.update env settings).optionTimes_ = c.optionTimes_ ∧
          (c.update env settings).evaluationDate_ = c.evaluationDate_) := by
  refine ⟨fun hm hne => ?_, fun h => ?_⟩
  · have hu : c.update env settings
        = { (({ c with evaluationDate_ := settings.evaluationDate } :
              CapFloorTermVolCurve).initializeOptionDatesAndTimes env settings) with
            calculated_ := false } := by
      unfold CapFloorTermVolCurve.update
      simp only
      rw [if_pos hm, if_pos hne]
    have he := initializeOptionDatesAndTimes_eq env settings
      ({ c with evaluationDate_ := settings.evaluationDate } : CapFloorTermVolCurve) hn hd ht
    rw [hu]
    simp only
    rw [he]
    exact ⟨rfl, rfl, rfl⟩
  · unfold CapFloorTermVolCurve.update
    rcases h with h | h
    · simp [h]
    · by_cases hm : c.moving_ = true
      · simp [hm, h]
      · simp [hm]

theorem update_recomputes_dates_when_moved_witness :
    ((CapFloorTermVolCurve.init true 2 0 exampleCalendar 0 [⟨1, .Years⟩, ⟨2, .Years⟩]
        [default, default] [1 / 5, 11 / 50] Actual365Fixed).update exampleDateServices
          ⟨10⟩).optionDates_ = [1105, 1470] ∧
      ((CapFloorTermVolCurve.init true 2 0 exampleCalendar 0 [⟨1, .Years⟩, ⟨2, .Years⟩]
        [default, default] [1 / 5, 11 / 50] Actual365Fixed).update exampleDateServices
          ⟨10⟩).optionTimes_ = [1, 2] ∧
      ((CapFloorTermVolCurve.init true 2 0 exampleCalendar 0 [⟨1, .Years⟩, ⟨2, .Years⟩]
        [default, default] [1 / 5, 11 / 50] Actual365Fixed).update exampleDateServices
          ⟨10⟩).evaluationDate_ = 10 := by
  obtain ⟨h1, h2, h3⟩ := (update_recomputes_dates_when_moved exampleDateServices ⟨10⟩
    (CapFloorTermVolCurve.init true 2 0 exampleCalendar 0 [⟨1, .Years⟩, ⟨2, .Years⟩]
      [default, default] [1 / 5, 11 / 50] Actual365Fixed) rfl rfl rfl).1 rfl (by decide)
  rw [h1, h2, h3]
  refine ⟨?_, ?_, rfl⟩
  · simp [CapFloorTermVolCurve.init, CapFloorTermVolCurve.optionDateFromTenor,
      CapFloorTermVolCurve.referenceDate, exampleDateServices, Period.ofUnits]
  · simp [CapFloorTermVolCurve.init, CapFloorTermVolCurve.optionDateFromTenor,
      CapFloorTermVolCurve.timeFromReference,
      CapFloorTermVolCurve.referenceDate, exampleDateServices, Period.ofUnits]
/-! ## Fixed volatilities -/

/-- The handles of private quotes holding the numbers `vols` give back `vols`. -/
theorem reload_simple_handles (q : Quotes) (vols : List Volatility) :
    (List.range vols.length).map
        (fun i => ((vols.map QuoteHandle.simple).getD i default).value q) = vols := by
  apply List.ext_getElem
  · simp
  · intro i h1 h2
    simp only [List.getElem_map, List.getElem_range]
    rw [List.getD_eq_getElem _ _ (by simpa using h2), List.getElem_map]
    rfl

/-- The fixed-data constructors store the numbers given and fill handle `i` with a private
quote holding number `i`. -/
theorem new_numbers_fields (env : DateServices) (settings : Settings)
    (ref : ReferenceDateArg) (calendar : Calendar) (bdc : BusinessDayConvention)
    (optionTenors : List Period) (vols : List Volatility) (dc : DayCounter)
    (c : CapFloorTermVolCurve)
    (hc : CapFloorTermVolCurve.new env settings ref calendar bdc optionTenors (.numbers vols) dc
      = .ok c) :
    c.vols_ = vols ∧ c.volHandles_ = vols.map QuoteHandle.simple := by
  have hvalid := valid_of_new_ok env settings ref calendar bdc optionTenors (.numbers vols) dc c hc
  have hchk := (members_checkInputs_iff env ref calendar bdc optionTenors (.numbers vols)
    dc).mpr hvalid
  have hsize : optionTenors.length = vols.length := hvalid.2.1
  have hmap : (List.range vols.length).map (fun i => QuoteHandle.simple (vols.getD i 0))
      = vols.map QuoteHandle.simple := by
    apply List.ext_getElem
    · simp
    · intro i h1 h2
      simp only [List.getElem_map, List.getElem_range]
      rw [List.getD_eq_getElem _ _ (by simpa using h2)]
  cases ref <;>
    simp only [CapFloorTermVolCurve.new, CapFloorTermVolCurve.mkFixedVols,
      CapFloorTermVolCurve.mkFloatingVols, CapFloorTermVolCurve.members,
      CapFloorTermVolCurve.bodyFixed] at hc hchk <;>
    rw [hchk] at hc <;>
    simp only [Except.ok.injEq] at hc <;>
    subst hc
  all_goals
    obtain ⟨dates, times, hd, ht, heq⟩ := initializeOptionDatesAndTimes_frame env settings
      (CapFloorTermVolCurve.init _ _ _ calendar bdc optionTenors _ _ dc)
    rw [heq, fillHandles_eq _ (by simp [CapFloorTermVolCurve.init, hsize])]
    simp only [CapFloorTermVolCurve.interpolate, CapFloorTermVolCurve.init, hsize, hmap,
      and_self]

/-- Every event keeps the stored numbers and the private quotes of a fixed-data curve. -/
theorem step_keeps_fixed_vols (env : DateServices) (vols : List Volatility)
    (c : CapFloorTermVolCurve) (e : CurveEvent)
    (h : c.vols_ = vols ∧ c.volHandles_ = vols.map QuoteHandle.simple) :
    (c.step env e).vols_ = vols ∧ (c.step env e).volHandles_ = vols.map QuoteHandle.simple := by
  obtain ⟨hv, hh⟩ := h
  have hperf : ∀ (q : Quotes) (c1 : CapFloorTermVolCurve), c1.vols_ = vols →
      c1.volHandles_ = vols.map QuoteHandle.simple →
      (c1.performCalculations q).vols_ = vols ∧
        (c1.performCalculations q).volHandles_ = vols.map QuoteHandle.simple := by
    intro q c1 h1 h2
    rw [performCalculations_eq]
    simp only [h1, h2, reload_simple_handles, and_self]
  cases e with
  | notified settings =>
    unfold CapFloorTermVolCurve.step CapFloorTermVolCurve.update
    simp only
    split
    · split
      · obtain ⟨dates, times, -, -, heq⟩ := initializeOptionDatesAndTimes_frame env settings
          ({ c with evaluationDate_ := settings.evaluationDate } : CapFloorTermVolCurve)
        rw [heq]
        exact ⟨hv, hh⟩
      · exact ⟨hv, hh⟩
    · exact ⟨hv, hh⟩
  | read q =>
    unfold CapFloorTermVolCurve.step CapFloorTermVolCurve.calculate
    simp only
    split
    · exact ⟨hv, hh⟩
    · exact hperf q _ hv hh
  | recalculated q => exact hperf q c hv hh

/-- C17: for a `CapFloorTermVolCurve` built from fixed volatility numbers, after
construction and after any sequence of notifications, reads and recalculations the stored
volatilities equal the constructor's volatility vector element by element: each internal
quote handle `i` holds input volatility `i`, and when the handle-filling loop runs (after
validation) its bound `nOptionTenors_` is the size of both the handle vector and the
volatility vector. -/
theorem fixed_vols_survive_recalculations (env : DateServices) (settings : Settings)
    (ref : ReferenceDateArg) (calendar : Calendar) (bdc : BusinessDayConvention)
    (optionTenors : List Period) (vols : List Volatility) (dc : DayCounter)
    (c : CapFloorTermVolCurve) (events : List CurveEvent)
    (hc : CapFloorTermVolCurve.new env settings ref calendar bdc optionTenors (.numbers vols) dc
      = .ok c) :
    (c.after env events).vols_ = vols ∧
      (c.after env events).volHandles_ = vols.map QuoteHandle.simple ∧
      (CapFloorTermVolCurve.members ref calendar bdc optionTenors (.numbers vols) dc).nOptionTenors_
        = (CapFloorTermVolCurve.members ref calendar bdc optionTenors (.numbers vols)
            dc).volHandles_.length ∧
      (CapFloorTermVolCurve.members ref calendar bdc optionTenors (.numbers vols) dc).nOptionTenors_
        = (CapFloorTermVolCurve.members ref calendar bdc optionTenors (.numbers vols)
            dc).vols_.length := by
  have hvalid := valid_of_new_ok env settings ref calendar bdc optionTenors (.numbers vols) dc c hc
  have hsize : optionTenors.length = vols.length := hvalid.2.1
  have h0 := new_numbers_fields env settings ref calendar bdc optionTenors vols dc c hc
  have hinv : ∀ (es : List CurveEvent) (c1 : CapFloorTermVolCurve),
      (c1.vols_ = vols ∧ c1.volHandles_ = vols.map QuoteHandle.simple) →
      ((c1.after env es).vols_ = vols ∧
        (c1.after env es).volHandles_ = vols.map QuoteHandle.simple) := by
    intro es
    induction es with
    | nil => intro c1 h; exact h
    | cons e es ih =>
      intro c1 h
      exact ih _ (step_keeps_fixed_vols env vols c1 e h)
  obtain ⟨k1, k2⟩ := hinv events c h0
  refine ⟨k1, k2, ?_, ?_⟩
  · cases ref <;> simp [CapFloorTermVolCurve.members, CapFloorTermVolCurve.init, hsize]
  · cases ref <;> simp [CapFloorTermVolCurve.members, CapFloorTermVolCurve.init, hsize]

theorem fixed_vols_survive_recalculations_witness :
    (exampleCurve.after exampleDateServices
        [.notified ⟨5⟩, .read (fun _ => 1), .recalculated (fun _ => 2)]).vols_
      = [1 / 5, 11 / 50] :=
  (fixed_vols_survive_recalculations exampleDateServices ⟨0⟩ (.settlementDate 0) exampleCalendar
    0 [⟨1, .Years⟩, ⟨2, .Years⟩] [1 / 5, 11 / 50] Actual365Fixed exampleCurve
    [.notified ⟨5⟩, .read (fun _ => 1), .recalculated (fun _ => 2)] exampleCurve_new).1

/-! ## What a pass does to the upstream stripper and to the stripper's own grids -/

namespace OptionletStripper2

/-- The insertion loops keep the number of expiry grids. -/
theorem insertionLoops_lengths (pricing : Pricing) (js : List Nat) (s : OptionletStripper2)
    (hlen : s.optionletStrikes_.length = s.optionletVolatilities_.length) :
    (js.foldl (fun s j =>
        (List.range s.optionletVolatilities_.length).foldl
          (fun s i => insertAtm pricing j i s) s) s).optionletStrikes_.length
        = s.optionletStrikes_.length ∧
      (js.foldl (fun s j =>
        (List.range s.optionletVolatilities_.length).foldl
          (fun s i => insertAtm pricing j i s) s) s).optionletVolatilities_.length
        = s.optionletVolatilities_.length := by
  induction js generalizing s with
  | nil => exact ⟨rfl, rfl⟩
  | cons j js ih =>
    simp only [List.foldl_cons]
    obtain ⟨-, h1, h2, -⟩ := inner_loop_grid pricing j s s.optionletVolatilities_.length
      (le_refl _) hlen
    obtain ⟨k1, k2⟩ := ih
      ((List.range s.optionletVolatilities_.length).foldl (fun s i => insertAtm pricing j i s) s)
      (by rw [h1, h2, hlen])
    exact ⟨k1.trans h1, k2.trans h2⟩

/-- After a successful pass the stripper has one strike grid and one volatility grid per
upstream optionlet. -/
theorem performCalculations_lengths (pricing : Pricing) (solve : Solver1D) (q : Quotes)
    (self s1 : OptionletStripper2)
    (hS : self.optionletStrikes_.length = self.stripper1_.optionletFixingTimes_.length)
    (hV : self.optionletVolatilities_.length = self.stripper1_.optionletFixingTimes_.length)
    (hpass : self.performCalculations pricing solve q = (.ok (), s1)) :
    s1.optionletStrikes_.length = self.stripper1_.optionletFixingTimes_.length ∧
      s1.optionletVolatilities_.length = self.stripper1_.optionletFixingTimes_.length := by
  obtain ⟨s3, spreads, hatm, hsp, rfl⟩ := performCalculations_ok_inv pricing solve q self s1 hpass
  obtain ⟨-, -, -, -, a5, a6, -⟩ := atmStage_fields pricing q self
  rw [hatm] at a5 a6
  simp only at a5 a6
  rw [copyUpstream_eq self hS hV] at a5 a6
  simp only at a5 a6
  have hlen : ({ s3 with spreadsVolImplied_ := spreads } : OptionletStripper2).optionletStrikes_.length
      = ({ s3 with spreadsVolImplied_ := spreads } : OptionletStripper2).optionletVolatilities_.length := by
    simp [a5, a6]
  obtain ⟨k1, k2⟩ := insertionLoops_lengths pricing
    (List.range ({ s3 with spreadsVolImplied_ := spreads } : OptionletStripper2).nOptionExpiries_)
    ({ s3 with spreadsVolImplied_ := spreads } : OptionletStripper2) hlen
  unfold insertionLoops
  rw [k1, k2]
  simp [a5, a6]

end OptionletStripper2

/-- C12, as amended: a calibration pass of `OptionletStripper2` leaves the upstream
stripper as it was and extends copies of its strike/volatility grids held by the
`OptionletStripper2` itself: after the pass the stripper's own grids of expiry `i` are the
upstream grids with the ATM points inserted, and a further pass inserts its points into a
fresh copy of the upstream grids, not on top of those already inserted. -/
theorem pass_extends_copies_of_upstream_grids (pricing : Pricing) (solve : Solver1D)
    (q : Quotes) (pricing2 : Pricing) (solve2 : Solver1D) (q2 : Quotes)
    (self s1 s2 : OptionletStripper2) (i : Nat)
    (hS : self.optionletStrikes_.length = self.stripper1_.optionletFixingTimes_.length)
    (hV : self.optionletVolatilities_.length = self.stripper1_.optionletFixingTimes_.length)
    (hpass : self.performCalculations pricing solve q = (.ok (), s1))
    (hpass2 : s1.performCalculations pricing2 solve2 q2 = (.ok (), s2))
    (hi : i < self.stripper1_.optionletFixingTimes_.length) :
    s1.stripper1_ = self.stripper1_ ∧ s2.stripper1_ = self.stripper1_ ∧
      s1.grid i
        = ((s1.insertedTenors i).map fun j => s1.atmPoint pricing j i).foldl insertPoint
            (self.stripper1_.optionletStrikes i, self.stripper1_.optionletVolatilities i) ∧
      s2.grid i
        = ((s2.insertedTenors i).map fun j => s2.atmPoint pricing2 j i).foldl insertPoint
            (self.stripper1_.optionletStrikes i, self.stripper1_.optionletVolatilities i) := by
  obtain ⟨g1, u1⟩ := OptionletStripper2.performCalculations_grid pricing solve q self s1 i hS hV
    hpass hi
  obtain ⟨l1, l2⟩ := OptionletStripper2.performCalculations_lengths pricing solve q self s1 hS hV
    hpass
  obtain ⟨g2, u2⟩ := OptionletStripper2.performCalculations_grid pricing2 solve2 q2 s1 s2 i
    (by rw [l1, u1]) (by rw [l2, u1]) hpass2 (by rw [u1]; exact hi)
  rw [u1] at g2 u2
  exact ⟨u1, u2, g1, g2⟩

namespace OptionletStripper2

theorem copyUpstream_flags (s : OptionletStripper2) :
    s.copyUpstream.calculated_ = s.calculated_ ∧
      s.copyUpstream.maxEvaluations_ = s.maxEvaluations_ ∧ s.copyUpstream.dc_ = s.dc_ := by
  unfold copyUpstream
  rw [copyUpstream_fold]
  exact ⟨rfl, rfl, rfl⟩

/-- Whatever its outcome, a pass keeps the lazy-object flag, the solver settings, the
number of tenors and the upstream stripper. -/
theorem performCalculations_frame (pricing : Pricing) (solve : Solver1D) (q : Quotes)
    (self : OptionletStripper2) :
    (self.performCalculations pricing solve q).2.calculated_ = self.calculated_ ∧
      (self.performCalculations pricing solve q).2.accuracy_ = self.accuracy_ ∧
      (self.performCalculations pricing solve q).2.maxEvaluations_ = self.maxEvaluations_ ∧
      (self.performCalculations pricing solve q).2.nOptionExpiries_ = self.nOptionExpiries_ ∧
      (self.performCalculations pricing solve q).2.stripper1_ = self.stripper1_ := by
  obtain ⟨-, -, -, a4, -, a6, a7, a8, a9⟩ := sameButAtm_fields (atmStage_frame pricing q self)
  obtain ⟨c1, c2, -, c4, -⟩ := copyUpstream_nOptionExpiries self
  obtain ⟨f1, f2, -⟩ := copyUpstream_flags self
  have hs3 : (self.atmStage pricing q).2.calculated_ = self.calculated_ ∧
      (self.atmStage pricing q).2.accuracy_ = self.accuracy_ ∧
      (self.atmStage pricing q).2.maxEvaluations_ = self.maxEvaluations_ ∧
      (self.atmStage pricing q).2.nOptionExpiries_ = self.nOptionExpiries_ ∧
      (self.atmStage pricing q).2.stripper1_ = self.stripper1_ :=
    ⟨a9.trans f1, a7.trans c4, a8.trans f2, a6.trans c1, a4.trans c2⟩
  unfold performCalculations
  rcases hatm : self.atmStage pricing q with ⟨r, s3⟩
  rw [hatm] at hs3
  simp only at hs3
  cases r with
  | error e => exact hs3
  | ok u =>
    simp only
    cases hsp : s3.spreadsVolImplied pricing solve with
    | error e => exact hs3
    | ok spreads =>
      simp only
      obtain ⟨-, -, -, e4, -, e6, -, e8, e9, e10⟩ :=
        sameButGrids_fields (insertionLoops_sameButGrids pricing
          ({ s3 with spreadsVolImplied_ := spreads } : OptionletStripper2))
      rw [e4, e6, e8, e9, e10]
      exact hs3

end OptionletStripper2

theorem length_vectorInsert {α : Type} (v : List α) (i : Nat) (x : α) :
    (vectorInsert v i x).length = v.length + 1 := by
  unfold vectorInsert
  rw [List.length_append, List.length_cons, List.length_take, List.length_drop]
  omega

/-- Every inserted point makes the strike grid one longer. -/
theorem length_foldl_insertPoint (ps : List (Rate × Volatility))
    (g : List Rate × List Volatility) :
    (ps.foldl insertPoint g).1.length = g.1.length + ps.length := by
  induction ps generalizing g with
  | nil => rfl
  | cons p ps ih =>
    rw [List.foldl_cons, ih, List.length_cons]
    simp only [insertPoint, length_vectorInsert]
    omega

/-- The first expiry's strike grid of the example stripper after a pass in the toy
market. -/
theorem example_grid_zero :
    (exampleStripper2.performCalculations examplePricing exampleSolver
        exampleQuotes).2.optionletStrikes_.getD 0 [] = [1 / 100, 11 / 500, 3 / 125, 3 / 100] := by
  have hpass := example_pass_ok
  obtain ⟨hn, k0, k1⟩ := example_atm_strikes examplePricing exampleSolver _ hpass
  obtain ⟨hg, -⟩ := OptionletStripper2.performCalculations_grid examplePricing exampleSolver
    exampleQuotes exampleStripper2 _ 0 rfl rfl hpass (by simp [exampleStripper2, exampleStripper1])
  have h2 : (exampleStripper2.performCalculations examplePricing exampleSolver
      exampleQuotes).2.optionletStrikes_.getD 0 []
      = ((exampleStripper2.performCalculations examplePricing exampleSolver
          exampleQuotes).2.grid 0).1 := rfl
  have t1 : Int.toNat 1 = 1 := rfl
  have t2 : Int.toNat 2 = 2 := rfl
  rw [h2, hg, foldl_insertPoint_fst, example_insertedTenors_zero _ hn]
  simp only [List.map_cons, List.map_nil, OptionletStripper2.atmPoint, k0, k1]
  norm_num [examplePricing, exampleStripper2, exampleStripper1,
    OptionletStripper1.optionletStrikes, vectorInsert, lowerBound, t1, t2]

/-- A second pass of the example stripper in the toy market succeeds too. -/
theorem example_second_pass_ok :
    (exampleStripper2.performCalculations examplePricing exampleSolver
        exampleQuotes).2.performCalculations examplePricing exampleSolver exampleQuotes
      = (.ok (), ((exampleStripper2.performCalculations examplePricing exampleSolver
          exampleQuotes).2.performCalculations examplePricing exampleSolver exampleQuotes).2) := by
  apply exampleSolver_pass_ok examplePricing exampleQuotes _ examplePricing_total
  rw [(OptionletStripper2.performCalculations_frame examplePricing exampleSolver exampleQuotes
    exampleStripper2).2.1]
  norm_num [exampleStripper2]

/-- C12, as stated, fails: in the toy market the first pass inserts the ATM strikes 0.022
and 0.024 into the stripper's own grid of the first expiry, while the grid the upstream
stripper returns for that expiry is still `[0.01, 0.03]`; and after a further pass the own
grid has four strikes again, not six. -/
theorem upstream_grids_not_extended_in_place :
    (exampleStripper2.performCalculations examplePricing exampleSolver exampleQuotes).1
        = .ok () ∧
      (exampleStripper2.performCalculations examplePricing exampleSolver
        exampleQuotes).2.optionletStrikes_.getD 0 [] = [1 / 100, 11 / 500, 3 / 125, 3 / 100] ∧
      (exampleStripper2.performCalculations examplePricing exampleSolver
        exampleQuotes).2.stripper1_.optionletStrikes 0 = [1 / 100, 3 / 100] ∧
      ((exampleStripper2.performCalculations examplePricing exampleSolver
        exampleQuotes).2.performCalculations examplePricing exampleSolver exampleQuotes).1
        = .ok () ∧
      (((exampleStripper2.performCalculations examplePricing exampleSolver
        exampleQuotes).2.performCalculations examplePricing exampleSolver
          exampleQuotes).2.optionletStrikes_.getD 0 []).length = 4 ∧
      ((exampleStripper2.performCalculations examplePricing exampleSolver
        exampleQuotes).2.performCalculations examplePricing exampleSolver
          exampleQuotes).2.stripper1_.optionletStrikes 0 = [1 / 100, 3 / 100] := by
  have hpass := example_pass_ok
  have hpass2 := example_second_pass_ok
  obtain ⟨-, -, -, n1, u1⟩ := OptionletStripper2.performCalculations_frame examplePricing
    exampleSolver exampleQuotes exampleStripper2
  obtain ⟨-, -, -, n2, u2⟩ := OptionletStripper2.performCalculations_frame examplePricing
    exampleSolver exampleQuotes (exampleStripper2.performCalculations examplePricing exampleSolver
      exampleQuotes).2
  obtain ⟨l1, l2⟩ := OptionletStripper2.performCalculations_lengths examplePricing exampleSolver
    exampleQuotes exampleStripper2 _ rfl rfl hpass
  have hup : exampleStripper2.stripper1_.optionletStrikes 0 = [1 / 100, 3 / 100] := rfl
  have hlen : exampleStripper2.stripper1_.optionletFixingTimes_.length = 2 := rfl
  obtain ⟨hg, -⟩ := OptionletStripper2.performCalculations_grid examplePricing exampleSolver
    exampleQuotes _ _ 0 (by rw [l1, u1]) (by rw [l2, u1]) hpass2 (by rw [u1, hlen]; decide)
  have h2 : ((exampleStripper2.performCalculations examplePricing exampleSolver
      exampleQuotes).2.performCalculations examplePricing exampleSolver
        exampleQuotes).2.optionletStrikes_.getD 0 []
      = (((exampleStripper2.performCalculations examplePricing exampleSolver
          exampleQuotes).2.performCalculations examplePricing exampleSolver
            exampleQuotes).2.grid 0).1 := rfl
  refine ⟨by rw [hpass], example_grid_zero, by rw [u1]; exact hup, by rw [hpass2], ?_,
    by rw [u2, u1]; exact hup⟩
  rw [h2, hg, length_foldl_insertPoint,
    example_insertedTenors_zero _ (by rw [n2, n1]; rfl), u1, hup]
  rfl

theorem pass_extends_copies_of_upstream_grids_witness :
    (exampleStripper2.performCalculations examplePricing exampleSolver
        exampleQuotes).2.stripper1_ = exampleStripper1 ∧
      ((exampleStripper2.performCalculations examplePricing exampleSolver
        exampleQuotes).2.performCalculations examplePricing exampleSolver
          exampleQuotes).2.stripper1_ = exampleStripper1 := by
  obtain ⟨h1, h2, -⟩ := pass_extends_copies_of_upstream_grids examplePricing exampleSolver
    exampleQuotes examplePricing exampleSolver exampleQuotes exampleStripper2 _ _ 0 rfl rfl
    example_pass_ok example_second_pass_ok (by decide)
  exact ⟨h1, h2⟩

/-! ## The bound of the insertion loops -/

/-- C13, evaluated where it fails: in the toy market with short caps the reference cap of
the first tenor (1Y) has one coupon, so only expiry index 0 belongs to it; the pass
nevertheless inserts that tenor's ATM strike 0.021 into the grid of expiry index 1, because
the loop tests `i <= floatingLeg().size()`. -/
theorem short_cap_point_beyond_last_coupon :
    (exampleStripper2.performCalculations shortLegPricing exampleSolver exampleQuotes).1
        = .ok () ∧
      (((exampleStripper2.performCalculations shortLegPricing exampleSolver
        exampleQuotes).2.caps_.getD 0 default).floatingLegSize = 1) ∧
      (exampleStripper2.performCalculations shortLegPricing exampleSolver
        exampleQuotes).2.atmCapFloorStrikes_.getD 0 0 = 21 / 1000 ∧
      (exampleStripper2.performCalculations shortLegPricing exampleSolver
        exampleQuotes).2.insertedTenors 1 = [0, 1] ∧
      (exampleStripper2.performCalculations shortLegPricing exampleSolver
        exampleQuotes).2.optionletStrikes_.getD 1 []
        = [1 / 100, 21 / 1000, 11 / 500, 3 / 100] := by
  have hpass := exampleSolver_pass_ok shortLegPricing exampleQuotes exampleStripper2
    (fun _ _ => rfl) (by norm_num [exampleStripper2])
  obtain ⟨hn, k0, k1⟩ := example_atm_strikes shortLegPricing exampleSolver _ hpass
  obtain ⟨hok, -, hcaps, -, -⟩ := performCalculations_fields shortLegPricing exampleSolver
    exampleQuotes exampleStripper2 _ hpass
  have ht : exampleStripper2.atmCapFloorTermVolCurve_.optionTenors
      = [⟨1, .Years⟩, ⟨2, .Years⟩] := exampleCurve_fields.1
  have hnn : exampleStripper2.nOptionExpiries_ = 2 := rfl
  have c0 := (OptionletStripper2.atmStage_strikes shortLegPricing exampleQuotes exampleStripper2
    0 hok rfl rfl (by rw [hnn]; decide)).2
  have c1 := (OptionletStripper2.atmStage_strikes shortLegPricing exampleQuotes exampleStripper2
    1 hok rfl rfl (by rw [hnn]; decide)).2
  rw [ht] at c0 c1
  rw [← hcaps] at c0 c1
  have t1 : Int.toNat 1 = 1 := rfl
  have t2 : Int.toNat 2 = 2 := rfl
  have hleg0 : ((exampleStripper2.performCalculations shortLegPricing exampleSolver
      exampleQuotes).2.caps_.getD 0 default).floatingLegSize = 1 := by
    rw [CapFloor.floatingLegSize, c0]
    rfl
  have hleg1 : ((exampleStripper2.performCalculations shortLegPricing exampleSolver
      exampleQuotes).2.caps_.getD 1 default).floatingLegSize = 2 := by
    rw [CapFloor.floatingLegSize, c1]
    rfl
  have hins : (exampleStripper2.performCalculations shortLegPricing exampleSolver
      exampleQuotes).2.insertedTenors 1 = [0, 1] := by
    unfold OptionletStripper2.insertedTenors
    rw [hn]
    have hrange : List.range 2 = [0, 1] := rfl
    rw [hrange, List.filter_cons_of_pos (by rw [hleg0]; decide),
      List.filter_cons_of_pos (by rw [hleg1]; decide)]
    rfl
  obtain ⟨hg, -⟩ := OptionletStripper2.performCalculations_grid shortLegPricing exampleSolver
    exampleQuotes exampleStripper2 _ 1 rfl rfl hpass (by simp [exampleStripper2, exampleStripper1])
  have h2 : (exampleStripper2.performCalculations shortLegPricing exampleSolver
      exampleQuotes).2.optionletStrikes_.getD 1 []
      = ((exampleStripper2.performCalculations shortLegPricing exampleSolver
          exampleQuotes).2.grid 1).1 := rfl
  refine ⟨by rw [hpass], hleg0, ?_, hins, ?_⟩
  · rw [k0]
    norm_num [shortLegPricing, examplePricing, t1]
  · rw [h2, hg, foldl_insertPoint_fst, hins]
    simp only [List.map_cons, List.map_nil, OptionletStripper2.atmPoint, k0, k1]
    norm_num [shortLegPricing, examplePricing, exampleStripper2, exampleStripper1,
      OptionletStripper1.optionletStrikes, vectorInsert, lowerBound, t1, t2]

/-! ## The result accessors -/

/-- A successful `calculate()` leaves the object marked as calculated. -/
theorem calculate_ok_calculated (pricing : Pricing) (solve : Solver1D) (q : Quotes)
    (self s : OptionletStripper2) (h : self.calculate pricing solve q = (.ok (), s)) :
    s.calculated_ = true := by
  unfold OptionletStripper2.calculate at h
  by_cases hc : self.calculated_ = true
  · rw [if_pos hc] at h
    simp only [Prod.mk.injEq, true_and] at h
    rw [← h]
    exact hc
  · rw [if_neg hc] at h
    have hf := (OptionletStripper2.performCalculations_frame pricing solve q
      ({ self with calculated_ := true } : OptionletStripper2)).1
    rcases hr : OptionletStripper2.performCalculations pricing solve q
      ({ self with calculated_ := true } : OptionletStripper2) with ⟨r, s1⟩
    rw [hr] at h hf
    cases r with
    | error e => simp at h
    | ok u =>
      simp only [Prod.mk.injEq, true_and] at h
      rw [← h]
      exact hf

/-- C14: when the calculation behind a first accessor call succeeds, leaving the object in
state `s`, each of `spreadsVol`, `atmCapFloorStrikes` and `atmCapFloorPrices` returns the
vector stored in `s`, and a second call of any of them on `s` (whatever the collaborators
would answer now) returns the identical vector and leaves `s` exactly as it is: `s` is
marked calculated, so the calibration is not rerun and no grid changes. -/
theorem accessor_calls_idempotent (pricing : Pricing) (solve : Solver1D) (q : Quotes)
    (pricing2 : Pricing) (solve2 : Solver1D) (q2 : Quotes) (self s : OptionletStripper2)
    (hfirst : self.calculate pricing solve q = (.ok (), s)) :
    s.calculated_ = true ∧
      s.calculate pricing2 solve2 q2 = (.ok (), s) ∧
      self.spreadsVol pricing solve q = (.ok s.spreadsVolImplied_, s) ∧
      s.spreadsVol pricing2 solve2 q2 = (.ok s.spreadsVolImplied_, s) ∧
      self.atmCapFloorStrikes pricing solve q = (.ok s.atmCapFloorStrikes_, s) ∧
      s.atmCapFloorStrikes pricing2 solve2 q2 = (.ok s.atmCapFloorStrikes_, s) ∧
      self.atmCapFloorPrices pricing solve q = (.ok s.atmCapFloorPrices_, s) ∧
      s.atmCapFloorPrices pricing2 solve2 q2 = (.ok s.atmCapFloorPrices_, s) := by
  have hc := calculate_ok_calculated pricing solve q self s hfirst
  have hsecond : s.calculate pricing2 solve2 q2 = (.ok (), s) := by
    unfold OptionletStripper2.calculate
    rw [if_pos hc]
  refine ⟨hc, hsecond, ?_, ?_, ?_, ?_, ?_, ?_⟩
  · unfold OptionletStripper2.spreadsVol; rw [hfirst]
  · unfold OptionletStripper2.spreadsVol; rw [hsecond]
  · unfold OptionletStripper2.atmCapFloorStrikes; rw [hfirst]
  · unfold OptionletStripper2.atmCapFloorStrikes; rw [hsecond]
  · unfold OptionletStripper2.atmCapFloorPrices; rw [hfirst]
  · unfold OptionletStripper2.atmCapFloorPrices; rw [hsecond]

/-- In the toy market the calculation behind the first accessor call of the example
stripper succeeds. -/
theorem example_calculate_ok :
    exampleStripper2.calculate examplePricing exampleSolver exampleQuotes
      = (.ok (), (exampleStripper2.calculate examplePricing exampleSolver exampleQuotes).2) := by
  have hpass := exampleSolver_pass_ok examplePricing exampleQuotes
    ({ exampleStripper2 with calculated_ := true } : OptionletStripper2) examplePricing_total
    (by norm_num [exampleStripper2])
  have h : (exampleStripper2.calculate examplePricing exampleSolver exampleQuotes).1 = .ok () := by
    rw [OptionletStripper2.calculate, if_neg (by simp [exampleStripper2]), hpass]
  exact Prod.ext h rfl

theorem accessor_calls_idempotent_witness :
    (exampleStripper2.calculate examplePricing exampleSolver
        exampleQuotes).2.spreadsVol flatForwardPricing failingSolver exampleQuotes
      = exampleStripper2.spreadsVol examplePricing exampleSolver exampleQuotes := by
  obtain ⟨-, -, h1, h2, -⟩ := accessor_calls_idempotent examplePricing exampleSolver
    exampleQuotes flatForwardPricing failingSolver exampleQuotes exampleStripper2 _
    example_calculate_ok
  rw [h1, h2]

/-! ## Leg results of the overnight indexed swap -/

/-- The guard `QL_REQUIRE(v != Null<Real>(), "result not available")` followed by
`return v`. -/
theorem require_not_null (v null : Real) (s : OvernightIndexedSwap) :
    ((if v ≠ null then ((.ok v : Except String Real), s)
        else (.error "result not available", s)).1 = .error "result not available"
        ↔ v = null) ∧
      (v ≠ null →
        (if v ≠ null then ((.ok v : Except String Real), s)
          else (.error "result not available", s)) = (.ok v, s)) := by
  by_cases h : v = null <;> simp [h]

/-- C18: once `calculate()` has returned, leaving the swap in state `s`, each of
`fixedLegBPS`, `overnightLegBPS`, `fixedLegNPV` and `overnightLegNPV` fails with
"result not available" if and only if the corresponding stored leg result of `s` is the
null sentinel; otherwise it returns the stored value unchanged. -/
theorem leg_result_unavailable_iff_null (env : SwapServices) (self s : OvernightIndexedSwap)
    (hcalc : env.calculate self = (.ok (), s)) :
    (((self.fixedLegBPS env).1 = .error "result not available"
          ↔ s.legBPS_.getD 0 0 = env.nullReal) ∧
        (s.legBPS_.getD 0 0 ≠ env.nullReal →
          self.fixedLegBPS env = (.ok (s.legBPS_.getD 0 0), s))) ∧
      (((self.overnightLegBPS env).1 = .error "result not available"
          ↔ s.legBPS_.getD 1 0 = env.nullReal) ∧
        (s.legBPS_.getD 1 0 ≠ env.nullReal →
          self.overnightLegBPS env = (.ok (s.legBPS_.getD 1 0), s))) ∧
      (((self.fixedLegNPV env).1 = .error "result not available"
          ↔ s.legNPV_.getD 0 0 = env.nullReal) ∧
        (s.legNPV_.getD 0 0 ≠ env.nullReal →
          self.fixedLegNPV env = (.ok (s.legNPV_.getD 0 0), s))) ∧
      (((self.overnightLegNPV env).1 = .error "result not available"
          ↔ s.legNPV_.getD 1 0 = env.nullReal) ∧
        (s.legNPV_.getD 1 0 ≠ env.nullReal →
          self.overnightLegNPV env = (.ok (s.legNPV_.getD 1 0), s))) := by
  refine ⟨⟨?_, ?_⟩, ⟨?_, ?_⟩, ⟨?_, ?_⟩, ⟨?_, ?_⟩⟩
  · unfold OvernightIndexedSwap.fixedLegBPS
    rw [hcalc]
    exact (require_not_null _ _ s).1
  · unfold OvernightIndexedSwap.fixedLegBPS
    rw [hcalc]
    exact (require_not_null _ _ s).2
  · unfold OvernightIndexedSwap.overnightLegBPS
    rw [hcalc]
    exact (require_not_null _ _ s).1
  · unfold OvernightIndexedSwap.overnightLegBPS
    rw [hcalc]
    exact (require_not_null _ _ s).2
  · unfold OvernightIndexedSwap.fixedLegNPV
    rw [hcalc]
    exact (require_not_null _ _ s).1
  · unfold OvernightIndexedSwap.fixedLegNPV
    rw [hcalc]
    exact (require_not_null _ _ s).2
  · unfold OvernightIndexedSwap.overnightLegNPV
    rw [hcalc]
    exact (require_not_null _ _ s).1
  · unfold OvernightIndexedSwap.overnightLegNPV
    rw [hcalc]
    exact (require_not_null _ _ s).2

theorem leg_result_unavailable_iff_null_witness :
    (exampleSwap.fixedLegBPS exampleSwapServices).1 = .ok 3 ∧
      (exampleSwap.overnightLegBPS exampleSwapServices).1 = .error "result not available" := by
  obtain ⟨⟨-, h1⟩, ⟨h2, -⟩, -⟩ := leg_result_unavailable_iff_null exampleSwapServices
    exampleSwap _ rfl
  refine ⟨?_, ?_⟩
  · rw [h1 (by norm_num [exampleSwapServices])]
    rfl
  · exact h2.mpr (by norm_num [exampleSwapServices])

/-! ## Rounding to the nearest machine number -/

theorem roundHalfEven_intCast (n : Int) : roundHalfEven (n : Real) = n := by
  unfold roundHalfEven
  simp

theorem roundHalfEven_mem (q : Real) :
    roundHalfEven q = ⌊q⌋ ∨ roundHalfEven q = ⌊q⌋ + 1 := by
  unfold roundHalfEven
  split_ifs <;> simp

theorem roundHalfEven_mono (a b : Real) (h : a ≤ b) : roundHalfEven a ≤ roundHalfEven b := by
  have hf : ⌊a⌋ ≤ ⌊b⌋ := Int.floor_mono h
  rcases lt_or_eq_of_le hf with hlt | heq
  · rcases roundHalfEven_mem a with ha | ha <;> rcases roundHalfEven_mem b with hb | hb <;>
      omega
  · unfold roundHalfEven
    rw [heq]
    have hab : a - (⌊b⌋ : Real) ≤ b - (⌊b⌋ : Real) := by linarith
    split_ifs <;> first | omega | linarith

/-- Rounding to a grid of spacing `u` is monotone. -/
theorem round_grid_mono (u a b : Real) (hu : 0 < u) (h : a ≤ b) :
    (roundHalfEven (a / u) : Real) * u ≤ (roundHalfEven (b / u) : Real) * u := by
  apply mul_le_mul_of_nonneg_right _ hu.le
  exact_mod_cast roundHalfEven_mono _ _ (div_le_div_of_nonneg_right h hu.le)

/-- Rounding to a grid of spacing `u` leaves the multiples of `u` as they are. -/
theorem round_grid_fix (u : Real) (hu : 0 < u) (n : Int) :
    (roundHalfEven ((n : Real) * u / u) : Real) * u = (n : Real) * u := by
  rw [mul_div_assoc, div_self hu.ne', mul_one, roundHalfEven_intCast]

theorem two_zpow_pos (k : Int) : (0 : Real) < (2 : Real) ^ k := zpow_pos (by norm_num) k

theorem two_zpow_mono {j k : Int} (h : j ≤ k) : (2 : Real) ^ j ≤ (2 : Real) ^ k :=
  zpow_le_zpow_right₀ (by norm_num) h

theorem log_two_lt_iff (x : Real) (hx : 0 < x) (k : Int) :
    Int.log 2 x < k ↔ x < (2 : Real) ^ k := by
  have h := Int.lt_zpow_iff_log_lt (R := Real) (b := 2) (by norm_num) hx (x := k)
  simp only [Nat.cast_ofNat] at h
  exact h.symm

theorem le_log_two_iff (x : Real) (hx : 0 < x) (k : Int) :
    k ≤ Int.log 2 x ↔ (2 : Real) ^ k ≤ x := by
  have h := Int.zpow_le_iff_le_log (R := Real) (b := 2) (by norm_num) hx (x := k)
  simp only [Nat.cast_ofNat] at h
  exact h.symm

theorem binade_ge (x : Real) : -1022 ≤ binade x := le_max_right _ _

/-- A positive number lies below the upper end of its binade. -/
theorem lt_two_zpow_binade (x : Real) (hx : 0 < x) : x < (2 : Real) ^ (binade x + 1) := by
  rw [← log_two_lt_iff x hx]
  have : Int.log 2 x ≤ binade x := le_max_left _ _
  omega

/-- A positive number in a binade above the lowest lies above the lower end of its
binade. -/
theorem two_zpow_binade_le (x : Real) (hx : 0 < x) (h : -1022 < binade x) :
    (2 : Real) ^ binade x ≤ x := by
  rw [← le_log_two_iff x hx]
  unfold binade at h ⊢
  rcases max_cases (Int.log 2 x) (-1022) with ⟨h1, h2⟩ | ⟨h1, h2⟩ <;> omega

theorem binade_mono (x y : Real) (hx : 0 < x) (h : x ≤ y) : binade x ≤ binade y := by
  unfold binade
  exact max_le_max (Int.log_mono_right hx h) (le_refl _)

/-- The exponent of the binade of a number between `2^e` and `2^(e+1)`. -/
theorem binade_eq (x : Real) (e : Int) (he : -1022 ≤ e) (h1 : (2 : Real) ^ e ≤ x)
    (h2 : x < (2 : Real) ^ (e + 1)) : binade x = e := by
  have hx : 0 < x := lt_of_lt_of_le (two_zpow_pos e) h1
  have a := (le_log_two_iff x hx e).mpr h1
  have b := (log_two_lt_iff x hx (e + 1)).mpr h2
  unfold binade
  rcases max_cases (Int.log 2 x) (-1022) with ⟨h1, h2⟩ | ⟨h1, h2⟩ <;> omega

/-- The lowest binade holds everything below `2^-1021`. -/
theorem binade_eq_low (x : Real) (hx : 0 < x) (h2 : x < (2 : Real) ^ (-1021 : Int)) :
    binade x = -1022 := by
  have b := (log_two_lt_iff x hx (-1021)).mpr h2
  unfold binade
  rcases max_cases (Int.log 2 x) (-1022) with ⟨h1, h2⟩ | ⟨h1, h2⟩ <;> omega

theorem ulp_pos (x : Real) : 0 < ulp x := two_zpow_pos _

theorem roundMagnitude_zero : roundMagnitude 0 = 0 := by
  unfold roundMagnitude
  rw [zero_div]
  have h := roundHalfEven_intCast 0
  simp only [Int.cast_zero] at h
  rw [h]
  simp

/-- A number that is an integer multiple of the spacing of its own binade is left as it is. -/
theorem roundMagnitude_of_grid (v : Real) (n : Int) (h : v = (n : Real) * ulp v) :
    roundMagnitude v = v := by
  unfold roundMagnitude
  have h2 := round_grid_fix (ulp v) (ulp_pos v) n
  rw [← h] at h2
  exact h2

theorem two_zpow_split (j k : Int) (h : j ≤ k) :
    (2 : Real) ^ k = (((2 : Int) ^ (k - j).toNat : Int) : Real) * (2 : Real) ^ j := by
  have hk : k = ((k - j).toNat : Int) + j := by omega
  nth_rewrite 1 [hk]
  rw [zpow_add₀ (by norm_num), zpow_natCast]
  push_cast
  rfl

/-- The machine numbers are left as they are: a multiple `m * 2^k` of a power of two not
below the smallest subnormal, with a significand `m` of at most 53 bits. -/
theorem roundMagnitude_of_multiple (m k : Int) (hk : -1074 ≤ k) (hm0 : 0 ≤ m)
    (hm : m ≤ 2 ^ 53) : roundMagnitude ((m : Real) * (2 : Real) ^ k) = (m : Real) * (2 : Real) ^ k := by
  rcases eq_or_lt_of_le hm0 with h0 | hpos
  · rw [← h0]
    simp only [Int.cast_zero, zero_mul]
    exact roundMagnitude_zero
  have hv : 0 < (m : Real) * (2 : Real) ^ k :=
    mul_pos (by exact_mod_cast hpos) (two_zpow_pos k)
  rcases eq_or_lt_of_le hm with h53 | hlt
  · -- the significand is `2^53`: the number is the power of two `2^(k+53)`
    have hval : (m : Real) * (2 : Real) ^ k = (2 : Real) ^ (k + 53) := by
      rw [h53, zpow_add₀ (by norm_num)]
      norm_num
      ring
    have hb : binade ((m : Real) * (2 : Real) ^ k) = k + 53 := by
      apply binade_eq _ _ (by omega)
      · rw [hval]
      · rw [hval]
        exact zpow_lt_zpow_right₀ (by norm_num) (by omega)
    apply roundMagnitude_of_grid _ (2 ^ 52)
    rw [ulp, hb, hval]
    have : k + 53 = 52 + (k + 53 - 52) := by omega
    nth_rewrite 1 [this]
    rw [zpow_add₀ (by norm_num)]
    norm_num
  · have hlt2 : (m : Real) * (2 : Real) ^ k < (2 : Real) ^ (k + 53) := by
      rw [zpow_add₀ (by norm_num)]
      have : (m : Real) < 2 ^ 53 := by exact_mod_cast hlt
      have h2 := two_zpow_pos k
      have : (m : Real) * (2 : Real) ^ k < 2 ^ 53 * (2 : Real) ^ k :=
        mul_lt_mul_of_pos_right this h2
      calc (m : Real) * (2 : Real) ^ k < 2 ^ 53 * (2 : Real) ^ k := this
        _ = (2 : Real) ^ k * (2 : Real) ^ (53 : Int) := by norm_num; ring
    have hlog := (log_two_lt_iff _ hv (k + 53)).mpr hlt2
    have hj : binade ((m : Real) * (2 : Real) ^ k) - 52 ≤ k := by
      unfold binade
      rcases max_cases (Int.log 2 ((m : Real) * (2 : Real) ^ k)) (-1022) with ⟨h1, h2⟩ | ⟨h1, h2⟩ <;>
        omega
    apply roundMagnitude_of_grid _ (m * 2 ^ (k - (binade ((m : Real) * (2 : Real) ^ k) - 52)).toNat)
    rw [ulp]
    nth_rewrite 1 [two_zpow_split _ _ hj]
    push_cast
    ring

/-- The value of the rounding of a non-negative number: a multiple of the spacing of its
binade with a significand of at most 53 bits. -/
theorem roundMagnitude_repr (x : Real) (hx : 0 ≤ x) :
    0 ≤ roundHalfEven (x / ulp x) ∧ roundHalfEven (x / ulp x) ≤ 2 ^ 53 ∧
      roundMagnitude x = (roundHalfEven (x / ulp x) : Real) * (2 : Real) ^ (binade x - 52) ∧
      -1074 ≤ binade x - 52 := by
  have hb := binade_ge x
  refine ⟨?_, ?_, rfl, by omega⟩
  · have h := roundHalfEven_mono 0 (x / ulp x) (div_nonneg hx (ulp_pos x).le)
    have h0 := roundHalfEven_intCast 0
    simp only [Int.cast_zero] at h0
    rw [h0] at h
    exact h
  · rcases eq_or_lt_of_le hx with h0 | hpos
    · rw [← h0, zero_div]
      have h0 := roundHalfEven_intCast 0
      simp only [Int.cast_zero] at h0
      rw [h0]
      norm_num
    · have hlt := lt_two_zpow_binade x hpos
      have hq : x / ulp x ≤ ((2 ^ 53 : Int) : Real) := by
        rw [div_le_iff₀ (ulp_pos x), ulp]
        have : (2 : Real) ^ (binade x + 1) = ((2 ^ 53 : Int) : Real) * (2 : Real) ^ (binade x - 52) := by
          have : binade x + 1 = 53 + (binade x - 52) := by omega
          rw [this, zpow_add₀ (by norm_num)]
          norm_num
        rw [← this]
        exact hlt.le
      have h := roundHalfEven_mono _ _ hq
      rw [roundHalfEven_intCast] at h
      exact h

theorem roundMagnitude_nonneg (x : Real) (hx : 0 ≤ x) : 0 ≤ roundMagnitude x := by
  obtain ⟨h1, -, h3, -⟩ := roundMagnitude_repr x hx
  rw [h3]
  exact mul_nonneg (by exact_mod_cast h1) (two_zpow_pos _).le

theorem roundMagnitude_idem (x : Real) (hx : 0 ≤ x) :
    roundMagnitude (roundMagnitude x) = roundMagnitude x := by
  obtain ⟨h1, h2, h3, h4⟩ := roundMagnitude_repr x hx
  rw [h3]
  exact roundMagnitude_of_multiple _ _ h4 h1 h2

/-- The rounding of a positive number stays within its binade, ends included. -/
theorem roundMagnitude_le_top (x : Real) (hx : 0 < x) :
    roundMagnitude x ≤ (2 : Real) ^ (binade x + 1) := by
  obtain ⟨-, h2, h3, -⟩ := roundMagnitude_repr x hx.le
  rw [h3]
  have : (2 : Real) ^ (binade x + 1) = ((2 ^ 53 : Int) : Real) * (2 : Real) ^ (binade x - 52) := by
    have : binade x + 1 = 53 + (binade x - 52) := by omega
    rw [this, zpow_add₀ (by norm_num)]
    norm_num
  rw [this]
  exact mul_le_mul_of_nonneg_right (by exact_mod_cast h2) (two_zpow_pos _).le

theorem roundMagnitude_ge_bottom (x : Real) (hx : 0 < x) (h : -1022 < binade x) :
    (2 : Real) ^ binade x ≤ roundMagnitude x := by
  have hle := two_zpow_binade_le x hx h
  have hq : ((2 ^ 52 : Int) : Real) ≤ x / ulp x := by
    rw [le_div_iff₀ (ulp_pos x), ulp]
    have : ((2 ^ 52 : Int) : Real) * (2 : Real) ^ (binade x - 52) = (2 : Real) ^ binade x := by
      have : binade x = 52 + (binade x - 52) := by omega
      nth_rewrite 2 [this]
      rw [zpow_add₀ (by norm_num)]
      norm_num
    rw [this]
    exact hle
  have hm := roundHalfEven_mono _ _ hq
  rw [roundHalfEven_intCast] at hm
  unfold roundMagnitude
  have : (2 : Real) ^ binade x = ((2 ^ 52 : Int) : Real) * ulp x := by
    rw [ulp]
    have : binade x = 52 + (binade x - 52) := by omega
    nth_rewrite 1 [this]
    rw [zpow_add₀ (by norm_num)]
    norm_num
  rw [this]
  exact mul_le_mul_of_nonneg_right (by exact_mod_cast hm) (ulp_pos x).le

/-- Rounding of non-negative numbers is monotone. -/
theorem roundMagnitude_mono (x y : Real) (hx : 0 ≤ x) (h : x ≤ y) :
    roundMagnitude x ≤ roundMagnitude y := by
  rcases eq_or_lt_of_le hx with h0 | hpos
  · rw [← h0, roundMagnitude_zero]
    exact roundMagnitude_nonneg y (hx.trans h)
  have hy : 0 < y := lt_of_lt_of_le hpos h
  rcases eq_or_lt_of_le (binade_mono x y hpos h) with he | hlt
  · unfold roundMagnitude ulp
    rw [he]
    exact round_grid_mono _ _ _ (two_zpow_pos _) h
  · have h1 := roundMagnitude_le_top x hpos
    have h2 := roundMagnitude_ge_bottom y hy (by have := binade_ge x; omega)
    have h3 : (2 : Real) ^ (binade x + 1) ≤ (2 : Real) ^ binade y := two_zpow_mono (by omega)
    linarith

theorem binary64_of_nonneg (x : Real) (hx : 0 ≤ x) : binary64 x = roundMagnitude x := by
  unfold binary64
  rw [if_pos hx]

theorem binary64_of_neg (x : Real) (hx : x < 0) : binary64 x = -roundMagnitude (-x) := by
  unfold binary64
  rw [if_neg (not_le.mpr hx)]

theorem binary64_nonneg (x : Real) (hx : 0 ≤ x) : 0 ≤ binary64 x := by
  rw [binary64_of_nonneg x hx]
  exact roundMagnitude_nonneg x hx

theorem binary64_nonpos (x : Real) (hx : x ≤ 0) : binary64 x ≤ 0 := by
  rcases eq_or_lt_of_le hx with h0 | hneg
  · rw [h0, binary64_of_nonneg 0 (le_refl _), roundMagnitude_zero]
  · rw [binary64_of_neg x hneg]
    have := roundMagnitude_nonneg (-x) (by linarith)
    linarith

theorem binary64_mono (a b : Real) (h : a ≤ b) : binary64 a ≤ binary64 b := by
  rcases le_or_lt 0 a with ha | ha
  · rw [binary64_of_nonneg a ha, binary64_of_nonneg b (ha.trans h)]
    exact roundMagnitude_mono a b ha h
  · rcases le_or_lt 0 b with hb | hb
    · exact (binary64_nonpos a ha.le).trans (binary64_nonneg b hb)
    · rw [binary64_of_neg a ha, binary64_of_neg b hb]
      have := roundMagnitude_mono (-b) (-a) (by linarith) (by linarith)
      linarith

/-- The machine numbers: `± m * 2^k` with `k` not below the exponent of the smallest
subnormal and a significand `m` of at most 53 bits, are left as they are. -/
theorem binary64_of_multiple (m k : Int) (hk : -1074 ≤ k) (hm : |m| ≤ 2 ^ 53) :
    binary64 ((m : Real) * (2 : Real) ^ k) = (m : Real) * (2 : Real) ^ k := by
  rcases le_or_lt 0 m with h0 | h0
  · rw [binary64_of_nonneg _ (mul_nonneg (by exact_mod_cast h0) (two_zpow_pos k).le)]
    exact roundMagnitude_of_multiple m k hk h0 (by rw [abs_of_nonneg h0] at hm; exact hm)
  · have hneg : (m : Real) * (2 : Real) ^ k < 0 :=
      mul_neg_of_neg_of_pos (by exact_mod_cast h0) (two_zpow_pos k)
    rw [binary64_of_neg _ hneg]
    have h := roundMagnitude_of_multiple (-m) k hk (by omega)
      (by rw [abs_of_neg h0] at hm; exact hm)
    push_cast at h
    rw [show -((m : Real) * (2 : Real) ^ k) = -(m : Real) * (2 : Real) ^ k by ring, h]
    ring

/-- Every value of the rounding is a machine number. -/
theorem binary64_repr (a : Real) :
    ∃ m k : Int, -1074 ≤ k ∧ |m| ≤ 2 ^ 53 ∧ binary64 a = (m : Real) * (2 : Real) ^ k := by
  rcases le_or_lt 0 a with ha | ha
  · obtain ⟨h1, h2, h3, h4⟩ := roundMagnitude_repr a ha
    exact ⟨_, _, h4, by rw [abs_of_nonneg h1]; exact h2, by rw [binary64_of_nonneg a ha, h3]⟩
  · obtain ⟨h1, h2, h3, h4⟩ := roundMagnitude_repr (-a) (by linarith)
    refine ⟨-roundHalfEven (-a / ulp (-a)), _, h4, by rw [abs_neg, abs_of_nonneg h1]; exact h2, ?_⟩
    rw [binary64_of_neg a ha, h3]
    push_cast
    ring

theorem binary64_idem (a : Real) : binary64 (binary64 a) = binary64 a := by
  obtain ⟨m, k, hk, hm, h⟩ := binary64_repr a
  rw [h]
  exact binary64_of_multiple m k hk hm

theorem binary64_zero : binary64 0 = 0 := by
  have h := binary64_of_multiple 0 0 (by norm_num) (by norm_num)
  simpa using h

theorem binary64_one : binary64 1 = 1 := by
  have h := binary64_of_multiple 1 0 (by norm_num) (by norm_num)
  simpa using h

/-- Every value of the rounding is an integer multiple of the smallest subnormal. -/
theorem binary64_multiple_of_least (a : Real) :
    ∃ n : Int, binary64 a = (n : Real) * (2 : Real) ^ (-1074 : Int) := by
  obtain ⟨m, k, hk, -, h⟩ := binary64_repr a
  refine ⟨m * 2 ^ (k - (-1074)).toNat, ?_⟩
  rw [h, two_zpow_split (-1074) k hk]
  push_cast
  ring

/-- The difference of one and a machine number rounds to zero only if it is zero (gradual
underflow). -/
theorem binary64_sub_one (a : Real) (h : binary64 (1 - binary64 a) = 0) : binary64 a = 1 := by
  obtain ⟨n, hn⟩ := binary64_multiple_of_least a
  obtain ⟨N, hone⟩ : ∃ N : Int, (1 : Real) = (N : Real) * (2 : Real) ^ (-1074 : Int) := by
    have h := two_zpow_split (-1074) 0 (by norm_num)
    rw [zpow_zero] at h
    exact ⟨_, h⟩
  have hz : 1 - binary64 a = ((N - n : Int) : Real) * (2 : Real) ^ (-1074 : Int) := by
    rw [hn]
    nth_rewrite 1 [hone]
    push_cast
    ring
  have hleast : binary64 ((2 : Real) ^ (-1074 : Int)) = (2 : Real) ^ (-1074 : Int) := by
    have h := binary64_of_multiple 1 (-1074) (by norm_num) (by norm_num)
    simpa using h
  have hleastneg : binary64 (-(2 : Real) ^ (-1074 : Int)) = -(2 : Real) ^ (-1074 : Int) := by
    have h := binary64_of_multiple (-1) (-1074) (by norm_num) (by norm_num)
    simpa using h
  have hpos := two_zpow_pos (-1074)
  rcases lt_trichotomy (N - n : Int) 0 with hlt | heq | hgt
  · exfalso
    have hle : 1 - binary64 a ≤ -(2 : Real) ^ (-1074 : Int) := by
      rw [hz]
      have : ((N - n : Int) : Real) ≤ -1 := by exact_mod_cast (by omega : N - n ≤ -1)
      nlinarith
    have := binary64_mono _ _ hle
    rw [h, hleastneg] at this
    linarith
  · rw [heq] at hz
    simp only [Int.cast_zero, zero_mul] at hz
    linarith
  · exfalso
    have hle : (2 : Real) ^ (-1074 : Int) ≤ 1 - binary64 a := by
      rw [hz]
      have : (1 : Real) ≤ ((N - n : Int) : Real) := by exact_mod_cast (by omega : 1 ≤ N - n)
      nlinarith
    have := binary64_mono _ _ hle
    rw [h, hleast] at this
    linarith

/-- The rounding of IEEE 754 binary64 obeys the laws of `IsRounding`. -/
theorem isRounding_binary64 : IsRounding binary64 :=
  ⟨binary64_mono, binary64_idem, binary64_zero, binary64_one, binary64_sub_one⟩

/-- Exact arithmetic obeys the laws of `IsRounding`. -/
theorem isRounding_id : IsRounding (fun a : Real => a) :=
  ⟨fun _ _ h => h, fun _ => rfl, rfl, rfl, fun a h => by linarith⟩

/-- The rounding of a number of the binade of exponent `e`. -/
theorem binary64_eval (x : Real) (e : Int) (he : -1022 ≤ e) (h1 : (2 : Real) ^ e ≤ x)
    (h2 : x < (2 : Real) ^ (e + 1)) :
    binary64 x = (roundHalfEven (x / (2 : Real) ^ (e - 52)) : Real) * (2 : Real) ^ (e - 52) := by
  have hx : 0 < x := lt_of_lt_of_le (two_zpow_pos e) h1
  rw [binary64_of_nonneg x hx.le, roundMagnitude, ulp, binade_eq x e he h1 h2]

theorem roundHalfEven_of_lt_half (q : Real) (n : Int) (h1 : (n : Real) ≤ q)
    (h2 : q < (n : Real) + 1 / 2) : roundHalfEven q = n := by
  have hf : ⌊q⌋ = n := by
    rw [Int.floor_eq_iff]
    exact ⟨h1, by linarith⟩
  unfold roundHalfEven
  rw [hf, if_pos (by linarith)]

theorem roundHalfEven_of_tie_odd (q : Real) (n : Int) (h : q = (n : Real) + 1 / 2)
    (hodd : n % 2 = 1) : roundHalfEven q = n + 1 := by
  have hf : ⌊q⌋ = n := by
    rw [Int.floor_eq_iff]
    exact ⟨by linarith, by linarith⟩
  unfold roundHalfEven
  rw [hf, if_neg (by linarith), if_neg (by linarith), if_neg (by omega)]

theorem binary64_one_sub_least : binary64 (1 - 1 / 2 ^ 54) = 1 := by
  rw [binary64_eval (1 - 1 / 2 ^ 54) (-1) (by norm_num) (by norm_num) (by norm_num)]
  rw [roundHalfEven_of_tie_odd _ (2 ^ 53 - 1) (by norm_num) (by norm_num)]
  norm_num

/-- In binary64 `1.0 - x` is `1.0` exactly for the non-negative `x` up to `2^-54`. -/
theorem binary64_one_sub_eq_one_iff (x : Real) (hx0 : 0 ≤ x) :
    binary64 (1 - x) = 1 ↔ x ≤ 1 / 2 ^ 54 := by
  constructor
  · intro h
    by_contra hgt
    rw [not_le] at hgt
    rcases le_or_lt (1 / 2 ^ 53) x with hbig | hsmall
    · have hm : binary64 (1 - 1 / 2 ^ 53) = 1 - 1 / 2 ^ 53 := by
        have h := binary64_of_multiple (2 ^ 53 - 1) (-53) (by norm_num) (by norm_num)
        have e : (((2 ^ 53 - 1 : Int) : Real)) * (2 : Real) ^ (-53 : Int) = 1 - 1 / 2 ^ 53 := by
          norm_num
        rw [e] at h
        exact h
      have := binary64_mono (1 - x) (1 - 1 / 2 ^ 53) (by linarith)
      rw [h, hm] at this
      norm_num at this
    · rw [binary64_eval (1 - x) (-1) (by norm_num) (by norm_num; linarith) (by norm_num; linarith)]
        at h
      rw [roundHalfEven_of_lt_half _ (2 ^ 53 - 1)
        (by
          rw [le_div_iff₀ (two_zpow_pos _)]
          norm_num
          linarith)
        (by
          rw [div_lt_iff₀ (two_zpow_pos _)]
          norm_num
          linarith)] at h
      norm_num at h
  · intro h
    apply le_antisymm
    · have := binary64_mono (1 - x) 1 (by linarith)
      rw [binary64_one] at this
      exact this
    · have := binary64_mono (1 - 1 / 2 ^ 54) (1 - x) (by linarith)
      rw [binary64_one_sub_least] at this
      exact this

theorem roundHalfEven_of_near (q : Real) (n : Int) (h1 : (n : Real) - 1 / 2 < q)
    (h2 : q < (n : Real) + 1 / 2) : roundHalfEven q = n := by
  rcases le_or_lt (n : Real) q with h | h
  · exact roundHalfEven_of_lt_half q n h h2
  · have hf : ⌊q⌋ = n - 1 := by
      rw [Int.floor_eq_iff]
      push_cast
      exact ⟨by linarith, by linarith⟩
    unfold roundHalfEven
    rw [hf]
    push_cast
    rw [if_neg (by linarith), if_pos (by linarith)]
    ring

theorem roundHalfEven_of_tie_even (q : Real) (n : Int) (h : q = (n : Real) + 1 / 2)
    (heven : n % 2 = 0) : roundHalfEven q = n := by
  have hf : ⌊q⌋ = n := by
    rw [Int.floor_eq_iff]
    exact ⟨by linarith, by linarith⟩
  unfold roundHalfEven
  rw [hf, if_neg (by linarith), if_neg (by linarith), if_pos heven]

/-- The rounding of a number nearer to the multiple `m` of the spacing of its binade than
to any other. -/
theorem binary64_of_near (x : Real) (e m : Int) (he : -1022 ≤ e) (h1 : (2 : Real) ^ e ≤ x)
    (h2 : x < (2 : Real) ^ (e + 1)) (hlo : (m : Real) - 1 / 2 < x / (2 : Real) ^ (e - 52))
    (hhi : x / (2 : Real) ^ (e - 52) < (m : Real) + 1 / 2) :
    binary64 x = (m : Real) * (2 : Real) ^ (e - 52) := by
  rw [binary64_eval x e he h1 h2, roundHalfEven_of_near _ m hlo hhi]

/-- The rounding of a number half-way between two multiples of the spacing of its binade,
the lower of them even. -/
theorem binary64_of_tie_even (x : Real) (e m : Int) (he : -1022 ≤ e) (h1 : (2 : Real) ^ e ≤ x)
    (h2 : x < (2 : Real) ^ (e + 1)) (hq : x / (2 : Real) ^ (e - 52) = (m : Real) + 1 / 2)
    (heven : m % 2 = 0) : binary64 x = (m : Real) * (2 : Real) ^ (e - 52) := by
  rw [binary64_eval x e he h1 h2, roundHalfEven_of_tie_even _ m hq heven]

/-- A machine number given as a fraction. -/
theorem binary64_of_machine (v : Real) (m k : Int) (hk : -1074 ≤ k) (hm : |m| ≤ 2 ^ 53)
    (hv : v = (m : Real) * (2 : Real) ^ k) : binary64 v = v := by
  rw [hv]
  exact binary64_of_multiple m k hk hm

/-! ## The Ali-Mikhail-Haq copula -/

/-- A constructed copula holds the `theta` it was given, which lies in `[-1,1]`. -/
theorem copula_new_ok (theta : Real) (c : AliMikhailHaqCopula)
    (hc : AliMikhailHaqCopula.new theta = .ok c) :
    c.theta_ = theta ∧ -1 ≤ theta ∧ theta ≤ 1 := by
  unfold AliMikhailHaqCopula.new at hc
  by_cases h : theta ≥ -1 ∧ theta ≤ 1
  · rw [if_pos h] at hc
    simp only [Except.ok.injEq] at hc
    rw [← hc]
    exact ⟨rfl, h.1, h.2⟩
  · rw [if_neg h] at hc
    cases hc

/-- For accepted arguments `operator()` returns the rounded quotient of the rounded
product by the denominator. -/
theorem copula_call_accepted (fl : Real → Real) (c : AliMikhailHaqCopula) (x y : Real)
    (hx : 0 ≤ x ∧ x ≤ 1) (hy : 0 ≤ y ∧ y ≤ 1) :
    c.call fl x y = .ok ((divide (fl (x * y)) (c.denominator fl x y)).map fl) := by
  unfold AliMikhailHaqCopula.call AliMikhailHaqCopula.denominator
  rw [if_neg (not_not.mpr (show x ≥ 0 ∧ x ≤ 1 from hx)),
    if_neg (not_not.mpr (show y ≥ 0 ∧ y ≤ 1 from hy))]

/-- C19: `AliMikhailHaqCopula`: construction fails if and only if `theta` is outside
`[-1,1]` (and otherwise stores `theta`); `operator()(x,y)` fails if and only if `x` is
outside `[0,1]` or `y` is outside `[0,1]`; for accepted arguments it returns the quotient
`x*y / (1 - theta*(1-x)*(1-y))`, in whatever arithmetic it runs (each operation followed by
the rounding `fl`), and in exact arithmetic that quotient itself. -/
theorem copula_fails_iff_outside_range (fl : Real → Real) (theta x y : Real) :
    ((∃ e, AliMikhailHaqCopula.new theta = .error e) ↔ ¬ (-1 ≤ theta ∧ theta ≤ 1)) ∧
      (-1 ≤ theta ∧ theta ≤ 1 → AliMikhailHaqCopula.new theta = .ok ⟨theta⟩) ∧
      ∀ c : AliMikhailHaqCopula, AliMikhailHaqCopula.new theta = .ok c →
        ((∃ e, c.call fl x y = .error e) ↔ (¬ (0 ≤ x ∧ x ≤ 1) ∨ ¬ (0 ≤ y ∧ y ≤ 1))) ∧
          ((0 ≤ x ∧ x ≤ 1) → (0 ≤ y ∧ y ≤ 1) →
            c.call fl x y
                = .ok ((divide (fl (x * y))
                    (fl (1 - fl (fl (theta * fl (1 - x)) * fl (1 - y))))).map fl) ∧
              c.call (fun a => a) x y
                = .ok (divide (x * y) (1 - theta * (1 - x) * (1 - y)))) := by
  refine ⟨?_, fun h => ?_, fun c hc => ?_⟩
  · unfold AliMikhailHaqCopula.new
    by_cases h : theta ≥ -1 ∧ theta ≤ 1
    · rw [if_pos h]
      exact ⟨fun ⟨e, he⟩ => (by cases he), fun hn => absurd h hn⟩
    · rw [if_neg h]
      simp only [Except.error.injEq, exists_eq', true_iff]
      exact h
  · unfold AliMikhailHaqCopula.new
    rw [if_pos h]
  · have hth : c.theta_ = theta := (copula_new_ok theta c hc).1
    have hexact : ∀ o : Option Real, o.map (fun a : Real => a) = o := by
      intro o
      cases o <;> rfl
    unfold AliMikhailHaqCopula.call
    rw [hth]
    by_cases hx : x ≥ 0 ∧ x ≤ 1
    · by_cases hy : y ≥ 0 ∧ y ≤ 1
      · rw [if_neg (not_not.mpr hx), if_neg (not_not.mpr hy), if_neg (not_not.mpr hx),
          if_neg (not_not.mpr hy)]
        refine ⟨⟨fun ⟨e, he⟩ => (by cases he), fun hn => ?_⟩, fun _ _ => ⟨rfl, ?_⟩⟩
        · rcases hn with hn | hn
          · exact absurd hx hn
          · exact absurd hy hn
        · rw [hexact]
      · rw [if_neg (not_not.mpr hx), if_pos hy]
        refine ⟨?_, fun _ h => absurd h hy⟩
        simp only [Except.error.injEq, exists_eq', true_iff]
        exact Or.inr hy
    · rw [if_pos hx]
      refine ⟨?_, fun h _ => absurd h hx⟩
      simp only [Except.error.injEq, exists_eq', true_iff]
      exact Or.inl hx

/-! ## Bernstein polynomials -/

/-- The quotient of factorials in `BernsteinPolynomial::get` is the binomial coefficient. -/
theorem factorial_quotient_eq_choose (i n : Nat) (hin : i ≤ n) :
    (Nat.factorial n : Real) / ((Nat.factorial (n - i) : Real) * (Nat.factorial i : Real))
      = (Nat.choose n i : Real) := by
  have h := Nat.choose_mul_factorial_mul_factorial hin
  have h1 : (Nat.factorial (n - i) : Real) ≠ 0 := by exact_mod_cast Nat.factorial_ne_zero _
  have h2 : (Nat.factorial i : Real) ≠ 0 := by exact_mod_cast Nat.factorial_ne_zero _
  rw [div_eq_iff (mul_ne_zero h1 h2)]
  have h3 : ((Nat.choose n i * Nat.factorial i * Nat.factorial (n - i) : Nat) : Real)
      = (Nat.factorial n : Real) := by rw [h]
  push_cast at h3
  rw [← h3]
  ring

/-- C20: for all naturals `i <= n` and every real `x`, `BernsteinPolynomial::get(i, n, x)`
equals the binomial coefficient `(n choose i)` times `x^i` times `(1-x)^(n-i)`, as the
class documentation defines `B_{i,n}(x)`; `Factorial::get(k)` is taken to return `k!`. -/
theorem bernstein_get_eq_binomial_form (factorial : Natural → Real) (i n : Natural) (x : Real)
    (hfact : ∀ k : Nat, factorial k = (Nat.factorial k : Real)) (hin : i ≤ n) :
    BernsteinPolynomial.get factorial i n x
      = (Nat.choose n i : Real) * x ^ i * (1 - x) ^ (n - i) := by
  unfold BernsteinPolynomial.get
  simp only [hfact, Int.ofNat_eq_coe, zpow_natCast]
  rw [factorial_quotient_eq_choose i n hin]

theorem bernstein_get_eq_binomial_form_witness :
    BernsteinPolynomial.get (fun k => (Nat.factorial k : Real)) 1 3 (1 / 2) = 3 / 8 := by
  rw [bernstein_get_eq_binomial_form (fun k => (Nat.factorial k : Real)) 1 3 (1 / 2)
    (fun _ => rfl) (by decide)]
  norm_num [Nat.choose]

/-! ## The denominator of the Ali-Mikhail-Haq copula -/

/-- The denominator under a rounding: it is non-negative, and it is zero exactly when
`theta` is one and both `1 - x` and `1 - y` round to one. -/
theorem copula_denominator_facts (fl : Real → Real) (hfl : IsRounding fl)
    (c : AliMikhailHaqCopula) (x y : Real) (ht : c.theta_ ≤ 1) (hrep : fl c.theta_ = c.theta_)
    (hx : 0 ≤ x ∧ x ≤ 1) (hy : 0 ≤ y ∧ y ≤ 1) :
    0 ≤ c.denominator fl x y ∧
      (c.denominator fl x y = 0 ↔ c.theta_ = 1 ∧ fl (1 - x) = 1 ∧ fl (1 - y) = 1) := by
  have hA0 : 0 ≤ fl (1 - x) := by
    have := hfl.mono 0 (1 - x) (by linarith [hx.2])
    rw [hfl.zero] at this
    exact this
  have hA1 : fl (1 - x) ≤ 1 := by
    have := hfl.mono (1 - x) 1 (by linarith [hx.1])
    rw [hfl.one] at this
    exact this
  have hB0 : 0 ≤ fl (1 - y) := by
    have := hfl.mono 0 (1 - y) (by linarith [hy.2])
    rw [hfl.zero] at this
    exact this
  have hB1 : fl (1 - y) ≤ 1 := by
    have := hfl.mono (1 - y) 1 (by linarith [hy.1])
    rw [hfl.one] at this
    exact this
  have hTA : fl (c.theta_ * fl (1 - x)) ≤ fl (1 - x) := by
    have := hfl.mono (c.theta_ * fl (1 - x)) (fl (1 - x)) (by nlinarith)
    rw [hfl.idem] at this
    exact this
  have hT1 : fl (c.theta_ * fl (1 - x)) ≤ 1 := hTA.trans hA1
  have hTt : fl (c.theta_ * fl (1 - x)) ≤ max c.theta_ 0 := by
    rcases le_or_lt 0 c.theta_ with h0 | h0
    · have := hfl.mono (c.theta_ * fl (1 - x)) c.theta_ (by nlinarith)
      rw [hrep] at this
      exact this.trans (le_max_left _ _)
    · have := hfl.mono (c.theta_ * fl (1 - x)) 0 (by nlinarith)
      rw [hfl.zero] at this
      exact this.trans (le_max_right _ _)
  have hPB : fl (fl (c.theta_ * fl (1 - x)) * fl (1 - y)) ≤ fl (1 - y) := by
    have := hfl.mono (fl (c.theta_ * fl (1 - x)) * fl (1 - y)) (fl (1 - y)) (by nlinarith)
    rw [hfl.idem] at this
    exact this
  have hPT : fl (fl (c.theta_ * fl (1 - x)) * fl (1 - y)) ≤ max (fl (c.theta_ * fl (1 - x))) 0 := by
    rcases le_or_lt 0 (fl (c.theta_ * fl (1 - x))) with h0 | h0
    · have := hfl.mono (fl (c.theta_ * fl (1 - x)) * fl (1 - y)) (fl (c.theta_ * fl (1 - x)))
        (by nlinarith)
      rw [hfl.idem] at this
      exact this.trans (le_max_left _ _)
    · have := hfl.mono (fl (c.theta_ * fl (1 - x)) * fl (1 - y)) 0 (by nlinarith)
      rw [hfl.zero] at this
      exact this.trans (le_max_right _ _)
  have hP1 : fl (fl (c.theta_ * fl (1 - x)) * fl (1 - y)) ≤ 1 := hPB.trans hB1
  unfold AliMikhailHaqCopula.denominator
  refine ⟨?_, fun h => ?_, fun ⟨h1, h2, h3⟩ => ?_⟩
  · have := hfl.mono 0 (1 - fl (fl (c.theta_ * fl (1 - x)) * fl (1 - y))) (by linarith)
    rw [hfl.zero] at this
    exact this
  · have hP := hfl.sub_one _ h
    have hB : fl (1 - y) = 1 := le_antisymm hB1 (hP.ge.trans hPB)
    have hT : fl (c.theta_ * fl (1 - x)) = 1 := by
      apply le_antisymm hT1
      have := hPT
      rw [hP] at this
      rcases max_cases (fl (c.theta_ * fl (1 - x))) 0 with ⟨h1, -⟩ | ⟨h1, -⟩
      · rw [h1] at this
        exact this
      · rw [h1] at this
        linarith
    have hA : fl (1 - x) = 1 := le_antisymm hA1 (hT.ge.trans hTA)
    refine ⟨le_antisymm ht ?_, hA, hB⟩
    have := hTt
    rw [hT] at this
    rcases max_cases c.theta_ 0 with ⟨h1, -⟩ | ⟨h1, -⟩
    · rw [h1] at this
      exact this
    · rw [h1] at this
      linarith
  · simp only [h1, h2, h3, mul_one, hfl.one, sub_self, hfl.zero]

/-- The value `operator()` returns for accepted arguments: non-finite on a zero
denominator, the rounded quotient otherwise. -/
theorem copula_call_cases (fl : Real → Real) (c : AliMikhailHaqCopula) (x y : Real)
    (hx : 0 ≤ x ∧ x ≤ 1) (hy : 0 ≤ y ∧ y ≤ 1) :
    (c.denominator fl x y = 0 → c.call fl x y = .ok none) ∧
      (c.denominator fl x y ≠ 0 →
        c.call fl x y = .ok (some (fl (fl (x * y) / c.denominator fl x y)))) ∧
      (c.call fl x y = .ok none ↔ c.denominator fl x y = 0) := by
  rw [copula_call_accepted fl c x y hx hy]
  by_cases h : c.denominator fl x y = 0
  · rw [h]
    simp [divide]
  · simp [divide, h]

/-- C26, as amended: for every `theta` accepted by the `AliMikhailHaqCopula` constructor
and every accepted pair `x`, `y` in `[0,1]`, the denominator `1 - theta*(1-x)*(1-y)` of
`operator()` is non-negative in every arithmetic that rounds to nearest, and it is zero
exactly when `theta = 1` and both `1 - x` and `1 - y` evaluate to one: at `x = y = 0` in
exact arithmetic, and for all `x`, `y` up to `2^-54` in double precision.  For all other
accepted arguments it is strictly positive, so the division is not by zero and the
quotient is returned. -/
theorem copula_denominator_zero_iff_corner (theta x y : Real) (c : AliMikhailHaqCopula)
    (hc : AliMikhailHaqCopula.new theta = .ok c) (hx : 0 ≤ x ∧ x ≤ 1) (hy : 0 ≤ y ∧ y ≤ 1) :
    (∀ fl : Real → Real, IsRounding fl → fl theta = theta →
      c.call fl x y = .ok ((divide (fl (x * y)) (c.denominator fl x y)).map fl) ∧
        0 ≤ c.denominator fl x y ∧
        (c.denominator fl x y = 0 ↔ theta = 1 ∧ fl (1 - x) = 1 ∧ fl (1 - y) = 1) ∧
        (¬ (theta = 1 ∧ fl (1 - x) = 1 ∧ fl (1 - y) = 1) →
          0 < c.denominator fl x y ∧
            c.call fl x y = .ok (some (fl (fl (x * y) / c.denominator fl x y))))) ∧
      (c.denominator (fun a => a) x y = 0 ↔ theta = 1 ∧ x = 0 ∧ y = 0) ∧
      (binary64 theta = theta →
        (c.denominator binary64 x y = 0 ↔ theta = 1 ∧ x ≤ 1 / 2 ^ 54 ∧ y ≤ 1 / 2 ^ 54)) := by
  obtain ⟨hth, -, ht2⟩ := copula_new_ok theta c hc
  have general : ∀ fl : Real → Real, IsRounding fl → fl theta = theta →
      0 ≤ c.denominator fl x y ∧
        (c.denominator fl x y = 0 ↔ theta = 1 ∧ fl (1 - x) = 1 ∧ fl (1 - y) = 1) := by
    intro fl hfl hrep
    have h := copula_denominator_facts fl hfl c x y (by rw [hth]; exact ht2)
      (by rw [hth]; exact hrep) hx hy
    rw [hth] at h
    exact h
  refine ⟨fun fl hfl hrep => ?_, ?_, fun hrep => ?_⟩
  · obtain ⟨h0, hiff⟩ := general fl hfl hrep
    refine ⟨copula_call_accepted fl c x y hx hy, h0, hiff, fun hne => ?_⟩
    have hne0 : c.denominator fl x y ≠ 0 := fun h => hne (hiff.mp h)
    exact ⟨lt_of_le_of_ne h0 (Ne.symm hne0), (copula_call_cases fl c x y hx hy).2.1 hne0⟩
  · rw [(general (fun a => a) isRounding_id rfl).2]
    constructor
    · rintro ⟨h1, h2, h3⟩
      exact ⟨h1, by linarith, by linarith⟩
    · rintro ⟨h1, h2, h3⟩
      exact ⟨h1, by rw [h2]; norm_num, by rw [h3]; norm_num⟩
  · rw [(general binary64 isRounding_binary64 hrep).2, binary64_one_sub_eq_one_iff x hx.1,
      binary64_one_sub_eq_one_iff y hy.1]

/-- The machine number one half. -/
theorem binary64_half : binary64 (1 / 2) = 1 / 2 := by
  have h := binary64_of_multiple 1 (-1) (by norm_num) (by norm_num)
  have e : ((1 : Int) : Real) * (2 : Real) ^ (-1 : Int) = 1 / 2 := by norm_num
  rw [e] at h
  exact h

/-- C26, as stated, fails: `theta = 1` is accepted by the constructor and `x = y = 0` by
`operator()`, and there the denominator is `1 - 1*1*1 = 0`, in exact arithmetic and in
double precision: the division is `0/0`.  In double precision the denominator is zero
at `theta = 1`, `x = y = 2^-60` as well, where `1.0 - x` rounds to `1.0`. -/
theorem copula_denominator_zero_at_corner :
    AliMikhailHaqCopula.new 1 = .ok ⟨1⟩ ∧
      (∃ r, (⟨1⟩ : AliMikhailHaqCopula).call binary64 0 0 = .ok r) ∧
      (⟨1⟩ : AliMikhailHaqCopula).denominator binary64 0 0 = 0 ∧
      ¬ (0 < (⟨1⟩ : AliMikhailHaqCopula).denominator binary64 0 0) ∧
      (⟨1⟩ : AliMikhailHaqCopula).call binary64 0 0 = .ok none ∧
      (⟨1⟩ : AliMikhailHaqCopula).denominator (fun a => a) 0 0 = 0 ∧
      (⟨1⟩ : AliMikhailHaqCopula).call (fun a => a) 0 0 = .ok none ∧
      (⟨1⟩ : AliMikhailHaqCopula).denominator binary64 (1 / 2 ^ 60) (1 / 2 ^ 60) = 0 ∧
      (⟨1⟩ : AliMikhailHaqCopula).call binary64 (1 / 2 ^ 60) (1 / 2 ^ 60) = .ok none := by
  have h00 : (0 : Real) ≤ 0 ∧ (0 : Real) ≤ 1 := ⟨le_refl _, by norm_num⟩
  have hs : (0 : Real) ≤ 1 / 2 ^ 60 ∧ (1 : Real) / 2 ^ 60 ≤ 1 := ⟨by norm_num, by norm_num⟩
  have hd : (⟨1⟩ : AliMikhailHaqCopula).denominator binary64 0 0 = 0 :=
    (copula_denominator_facts binary64 isRounding_binary64 ⟨1⟩ 0 0 (le_refl _) binary64_one
      h00 h00).2.mpr
      ⟨rfl, (binary64_one_sub_eq_one_iff 0 (le_refl _)).mpr (by norm_num),
        (binary64_one_sub_eq_one_iff 0 (le_refl _)).mpr (by norm_num)⟩
  have he : (⟨1⟩ : AliMikhailHaqCopula).denominator (fun a => a) 0 0 = 0 := by
    norm_num [AliMikhailHaqCopula.denominator]
  have hd60 : (⟨1⟩ : AliMikhailHaqCopula).denominator binary64 (1 / 2 ^ 60) (1 / 2 ^ 60) = 0 :=
    (copula_denominator_facts binary64 isRounding_binary64 ⟨1⟩ _ _ (le_refl _) binary64_one
      hs hs).2.mpr
      ⟨rfl, (binary64_one_sub_eq_one_iff _ hs.1).mpr (by norm_num),
        (binary64_one_sub_eq_one_iff _ hs.1).mpr (by norm_num)⟩
  have hc := (copula_call_cases binary64 ⟨1⟩ 0 0 h00 h00).1 hd
  refine ⟨by norm_num [AliMikhailHaqCopula.new], ⟨none, hc⟩, hd, by rw [hd]; norm_num, hc, he,
    (copula_call_cases (fun a => a) ⟨1⟩ 0 0 h00 h00).1 he, hd60,
    (copula_call_cases binary64 ⟨1⟩ _ _ hs hs).1 hd60⟩

theorem copula_denominator_zero_iff_corner_witness :
    0 < (⟨1 / 2⟩ : AliMikhailHaqCopula).denominator binary64 (1 / 2) (1 / 2) ∧
      (⟨1 / 2⟩ : AliMikhailHaqCopula).call binary64 (1 / 2) (1 / 2)
        = .ok (some (binary64 (binary64 (1 / 2 * (1 / 2))
            / (⟨1 / 2⟩ : AliMikhailHaqCopula).denominator binary64 (1 / 2) (1 / 2)))) :=
  ((copula_denominator_zero_iff_corner (1 / 2) (1 / 2) (1 / 2) ⟨1 / 2⟩
    (by norm_num [AliMikhailHaqCopula.new]) (by norm_num) (by norm_num)).1 binary64
    isRounding_binary64 binary64_half).2.2.2 (by norm_num)

/-- In double precision the copula is not symmetric to the last bit: the products
`theta*(1-x)` and `theta*(1-y)` are rounded before the second factor is applied.  At
`theta = 3/4` the values `C(1/4, 2^-52)` and `C(2^-52, 1/4)` differ by one unit in the last
place. -/
theorem copula_asymmetric_in_binary64 :
    (⟨3 / 4⟩ : AliMikhailHaqCopula).call binary64 (1 / 4) (1 / 2 ^ 52)
        = .ok (some (5146971002709137 / 2 ^ 105)) ∧
      (⟨3 / 4⟩ : AliMikhailHaqCopula).call binary64 (1 / 2 ^ 52) (1 / 4)
        = .ok (some (5146971002709136 / 2 ^ 105)) := by
  have hx : (0 : Real) ≤ 1 / 4 ∧ (1 : Real) / 4 ≤ 1 := ⟨by norm_num, by norm_num⟩
  have hy : (0 : Real) ≤ 1 / 2 ^ 52 ∧ (1 : Real) / 2 ^ 52 ≤ 1 := ⟨by norm_num, by norm_num⟩
  have a1 : binary64 (1 - 1 / 4) = 3 / 4 := by
    rw [binary64_of_machine (1 - 1 / 4) 3 (-2) (by norm_num) (by norm_num) (by norm_num)]
    norm_num
  have a2 : binary64 (1 - 1 / 2 ^ 52) = 1 - 1 / 2 ^ 52 :=
    binary64_of_machine _ (2 ^ 52 - 1) (-52) (by norm_num) (by norm_num) (by norm_num)
  have a3 : binary64 (3 / 4 * (3 / 4)) = 9 / 16 := by
    rw [binary64_of_machine (3 / 4 * (3 / 4)) 9 (-4) (by norm_num) (by norm_num) (by norm_num)]
    norm_num
  have a4 : binary64 (9 / 16 * (1 - 1 / 2 ^ 52)) = 9 / 16 - 1 / 2 ^ 53 := by
    rw [binary64_of_near _ (-1) (9 * 2 ^ 49 - 1) (by norm_num) (by norm_num) (by norm_num)
      (by norm_num) (by norm_num)]
    norm_num
  have a5 : binary64 (1 - (9 / 16 - 1 / 2 ^ 53)) = 7 / 16 + 1 / 2 ^ 53 := by
    rw [binary64_of_machine (1 - (9 / 16 - 1 / 2 ^ 53)) (7 * 2 ^ 50 + 2) (-54) (by norm_num)
      (by norm_num) (by norm_num)]
    norm_num
  have a6 : binary64 (1 / 4 * (1 / 2 ^ 52)) = 1 / 2 ^ 54 := by
    rw [binary64_of_machine (1 / 4 * (1 / 2 ^ 52)) 1 (-54) (by norm_num) (by norm_num)
      (by norm_num)]
    norm_num
  have a7 : binary64 (1 / 2 ^ 54 / (7 / 16 + 1 / 2 ^ 53)) = 5146971002709137 / 2 ^ 105 := by
    rw [binary64_of_near _ (-53) 5146971002709137 (by norm_num) (by norm_num) (by norm_num)
      (by norm_num) (by norm_num)]
    norm_num
  have b3 : binary64 (3 / 4 * (1 - 1 / 2 ^ 52)) = 3 / 4 - 1 / 2 ^ 52 := by
    rw [binary64_of_tie_even _ (-1) (3 * 2 ^ 51 - 2) (by norm_num) (by norm_num) (by norm_num)
      (by norm_num) (by norm_num)]
    norm_num
  have b4 : binary64 ((3 / 4 - 1 / 2 ^ 52) * (3 / 4)) = 9 / 16 - 1 / 2 ^ 52 := by
    rw [binary64_of_tie_even _ (-1) (9 * 2 ^ 49 - 2) (by norm_num) (by norm_num) (by norm_num)
      (by norm_num) (by norm_num)]
    norm_num
  have b5 : binary64 (1 - (9 / 16 - 1 / 2 ^ 52)) = 7 / 16 + 1 / 2 ^ 52 := by
    rw [binary64_of_machine (1 - (9 / 16 - 1 / 2 ^ 52)) (7 * 2 ^ 50 + 4) (-54) (by norm_num)
      (by norm_num) (by norm_num)]
    norm_num
  have b6 : binary64 (1 / 2 ^ 52 * (1 / 4)) = 1 / 2 ^ 54 := by
    rw [binary64_of_machine (1 / 2 ^ 52 * (1 / 4)) 1 (-54) (by norm_num) (by norm_num)
      (by norm_num)]
    norm_num
  have b7 : binary64 (1 / 2 ^ 54 / (7 / 16 + 1 / 2 ^ 52)) = 5146971002709136 / 2 ^ 105 := by
    rw [binary64_of_near _ (-53) 5146971002709136 (by norm_num) (by norm_num) (by norm_num)
      (by norm_num) (by norm_num)]
    norm_num
  constructor
  · rw [copula_call_accepted binary64 _ _ _ hx hy]
    unfold AliMikhailHaqCopula.denominator
    simp only
    rw [a1, a2, a3, a4, a5, a6, divide, if_neg (by norm_num), Option.map_some', a7]
  · rw [copula_call_accepted binary64 _ _ _ hy hx]
    unfold AliMikhailHaqCopula.denominator
    simp only
    rw [a2, a1, b3, b4, b5, b6, divide, if_neg (by norm_num), Option.map_some', b7]

/-! ## Boundary conditions of the Ali-Mikhail-Haq copula -/

/-- The copula with one argument equal to one: the denominator is one. -/
theorem copula_denominator_at_one (fl : Real → Real) (hfl : IsRounding fl)
    (c : AliMikhailHaqCopula) (x : Real) :
    c.denominator fl x 1 = 1 ∧ c.denominator fl 1 x = 1 := by
  unfold AliMikhailHaqCopula.denominator
  simp only [sub_self, hfl.zero, mul_zero, zero_mul, sub_zero, hfl.one, and_self]

/-- The copula with the second argument equal to zero: the denominator is zero exactly
when `theta` is one and `1 - x` rounds to one. -/
theorem copula_denominator_at_zero (fl : Real → Real) (hfl : IsRounding fl)
    (c : AliMikhailHaqCopula) (x : Real) (ht : c.theta_ ≤ 1) (hrep : fl c.theta_ = c.theta_)
    (hx : 0 ≤ x ∧ x ≤ 1) :
    (c.denominator fl x 0 = 0 ↔ c.theta_ = 1 ∧ fl (1 - x) = 1) ∧
      (c.denominator fl 0 x = 0 ↔ c.theta_ = 1 ∧ fl (1 - x) = 1) := by
  have h00 : (0 : Real) ≤ 0 ∧ (0 : Real) ≤ 1 := ⟨le_refl _, by norm_num⟩
  have h1 := (copula_denominator_facts fl hfl c x 0 ht hrep hx h00).2
  have h2 := (copula_denominator_facts fl hfl c 0 x ht hrep h00 hx).2
  rw [sub_zero, hfl.one] at h1 h2
  constructor
  · rw [h1]
    exact ⟨fun ⟨a, b, _⟩ => ⟨a, b⟩, fun ⟨a, b⟩ => ⟨a, b, rfl⟩⟩
  · rw [h2]
    exact ⟨fun ⟨a, _, b⟩ => ⟨a, b⟩, fun ⟨a, b⟩ => ⟨a, rfl, b⟩⟩

/-- C27, as amended: `AliMikhailHaqCopula` satisfies the copula boundary conditions except
where its denominator vanishes, and is symmetric up to rounding.  For every `theta` in
`[-1,1]` and every `x`, `y` in `[0,1]`, in every arithmetic that rounds to nearest (with
`theta`, `x`, `y` numbers of that arithmetic): `C(x,1) = x` and `C(1,y) = y`; `C(x,0) = 0`
unless `theta = 1` and `1 - x` evaluates to one, where it is the non-finite `0/0`, and
likewise `C(0,y) = 0` unless `theta = 1` and `1 - y` evaluates to one; `C(x,y)` is
non-finite exactly when `C(y,x)` is.  In exact arithmetic the exceptions are `x = 0` and
`y = 0`, and `C(x,y) = C(y,x)`; in double precision the exceptions are `x <= 2^-54` and
`y <= 2^-54`. -/
theorem copula_boundary_conditions (theta x y : Real) (c : AliMikhailHaqCopula)
    (hc : AliMikhailHaqCopula.new theta = .ok c) (hx : 0 ≤ x ∧ x ≤ 1) (hy : 0 ≤ y ∧ y ≤ 1) :
    (∀ fl : Real → Real, IsRounding fl → fl theta = theta → fl x = x → fl y = y →
      c.call fl x 1 = .ok (some x) ∧ c.call fl 1 y = .ok (some y) ∧
        (¬ (theta = 1 ∧ fl (1 - x) = 1) → c.call fl x 0 = .ok (some 0)) ∧
        (theta = 1 ∧ fl (1 - x) = 1 → c.call fl x 0 = .ok none) ∧
        (¬ (theta = 1 ∧ fl (1 - y) = 1) → c.call fl 0 y = .ok (some 0)) ∧
        (theta = 1 ∧ fl (1 - y) = 1 → c.call fl 0 y = .ok none) ∧
        (c.call fl x y = .ok none ↔ c.call fl y x = .ok none)) ∧
      (c.call (fun a => a) x y = c.call (fun a => a) y x ∧
        (¬ (theta = 1 ∧ x = 0) → c.call (fun a => a) x 0 = .ok (some 0)) ∧
        (¬ (theta = 1 ∧ y = 0) → c.call (fun a => a) 0 y = .ok (some 0))) ∧
      (binary64 theta = theta → binary64 x = x → binary64 y = y →
        (¬ (theta = 1 ∧ x ≤ 1 / 2 ^ 54) → c.call binary64 x 0 = .ok (some 0)) ∧
          (theta = 1 ∧ x ≤ 1 / 2 ^ 54 → c.call binary64 x 0 = .ok none) ∧
          (¬ (theta = 1 ∧ y ≤ 1 / 2 ^ 54) → c.call binary64 0 y = .ok (some 0)) ∧
          (theta = 1 ∧ y ≤ 1 / 2 ^ 54 → c.call binary64 0 y = .ok none)) := by
  obtain ⟨hth, -, ht2⟩ := copula_new_ok theta c hc
  have h01 : (0 : Real) ≤ 1 ∧ (1 : Real) ≤ 1 := ⟨by norm_num, le_refl _⟩
  have h00 : (0 : Real) ≤ 0 ∧ (0 : Real) ≤ 1 := ⟨le_refl _, by norm_num⟩
  have general : ∀ fl : Real → Real, IsRounding fl → fl theta = theta → fl x = x → fl y = y →
      c.call fl x 1 = .ok (some x) ∧ c.call fl 1 y = .ok (some y) ∧
        (¬ (theta = 1 ∧ fl (1 - x) = 1) → c.call fl x 0 = .ok (some 0)) ∧
        (theta = 1 ∧ fl (1 - x) = 1 → c.call fl x 0 = .ok none) ∧
        (¬ (theta = 1 ∧ fl (1 - y) = 1) → c.call fl 0 y = .ok (some 0)) ∧
        (theta = 1 ∧ fl (1 - y) = 1 → c.call fl 0 y = .ok none) ∧
        (c.call fl x y = .ok none ↔ c.call fl y x = .ok none) := by
    intro fl hfl hrep hxr hyr
    have ht : c.theta_ ≤ 1 := by rw [hth]; exact ht2
    have hrep2 : fl c.theta_ = c.theta_ := by rw [hth]; exact hrep
    obtain ⟨zx, -⟩ := copula_denominator_at_zero fl hfl c x ht hrep2 hx
    obtain ⟨-, zy⟩ := copula_denominator_at_zero fl hfl c y ht hrep2 hy
    rw [hth] at zx zy
    refine ⟨?_, ?_, fun hne => ?_, fun he => ?_, fun hne => ?_, fun he => ?_, ?_⟩
    · rw [(copula_call_cases fl c x 1 hx h01).2.1
        (by rw [(copula_denominator_at_one fl hfl c x).1]; norm_num),
        (copula_denominator_at_one fl hfl c x).1, mul_one, div_one, hxr, hxr]
    · rw [(copula_call_cases fl c 1 y h01 hy).2.1
        (by rw [(copula_denominator_at_one fl hfl c y).2]; norm_num),
        (copula_denominator_at_one fl hfl c y).2, one_mul, div_one, hyr, hyr]
    · rw [(copula_call_cases fl c x 0 hx h00).2.1 (fun h => hne (zx.mp h)), mul_zero, hfl.zero,
        zero_div, hfl.zero]
    · exact (copula_call_cases fl c x 0 hx h00).1 (zx.mpr he)
    · rw [(copula_call_cases fl c 0 y h00 hy).2.1 (fun h => hne (zy.mp h)), zero_mul, hfl.zero,
        zero_div, hfl.zero]
    · exact (copula_call_cases fl c 0 y h00 hy).1 (zy.mpr he)
    · rw [(copula_call_cases fl c x y hx hy).2.2, (copula_call_cases fl c y x hy hx).2.2,
        (copula_denominator_facts fl hfl c x y ht hrep2 hx hy).2,
        (copula_denominator_facts fl hfl c y x ht hrep2 hy hx).2]
      exact ⟨fun ⟨a, b, d⟩ => ⟨a, d, b⟩, fun ⟨a, b, d⟩ => ⟨a, d, b⟩⟩
  refine ⟨general, ⟨?_, fun hne => ?_, fun hne => ?_⟩, fun hrep hxr hyr => ?_⟩
  · rw [copula_call_accepted _ c x y hx hy, copula_call_accepted _ c y x hy hx]
    have h1 : c.denominator (fun a => a) x y = c.denominator (fun a => a) y x := by
      unfold AliMikhailHaqCopula.denominator
      ring
    rw [h1, mul_comm x y]
  · apply (general (fun a => a) isRounding_id rfl rfl rfl).2.2.1
    intro h
    exact hne ⟨h.1, by linarith [h.2]⟩
  · apply (general (fun a => a) isRounding_id rfl rfl rfl).2.2.2.2.1
    intro h
    exact hne ⟨h.1, by linarith [h.2]⟩
  · obtain ⟨-, -, g3, g4, g5, g6, -⟩ := general binary64 isRounding_binary64 hrep hxr hyr
    rw [binary64_one_sub_eq_one_iff x hx.1] at g3 g4
    rw [binary64_one_sub_eq_one_iff y hy.1] at g5 g6
    exact ⟨g3, g4, g5, g6⟩

/-- The machine number one quarter. -/
theorem binary64_quarter : binary64 (1 / 4) = 1 / 4 := by
  have h := binary64_of_multiple 1 (-2) (by norm_num) (by norm_num)
  have e : ((1 : Int) : Real) * (2 : Real) ^ (-2 : Int) = 1 / 4 := by norm_num
  rw [e] at h
  exact h

/-- C27, as stated, fails: for `theta = 1` the value `C(0,0)` is the non-finite `0/0`, not
`0`, although `0` lies in `[0,1]` and `1` in `[-1,1]`, in exact arithmetic and in double
precision; in double precision so is `C(2^-60, 0)`, where `1.0 - x` rounds to `1.0`; and in
double precision `C(1/4, 2^-52)` and `C(2^-52, 1/4)` at `theta = 3/4` differ in the last
bit. -/
theorem copula_boundary_conditions_fail :
    AliMikhailHaqCopula.new 1 = .ok ⟨1⟩ ∧
      (⟨1⟩ : AliMikhailHaqCopula).call binary64 0 0 = .ok none ∧
      (⟨1⟩ : AliMikhailHaqCopula).call binary64 0 0 ≠ .ok (some 0) ∧
      (⟨1⟩ : AliMikhailHaqCopula).call (fun a => a) 0 0 = .ok none ∧
      (⟨1⟩ : AliMikhailHaqCopula).call binary64 (1 / 2 ^ 60) 0 = .ok none ∧
      (⟨1⟩ : AliMikhailHaqCopula).call binary64 (1 / 2 ^ 60) 0 ≠ .ok (some 0) ∧
      AliMikhailHaqCopula.new (3 / 4) = .ok ⟨3 / 4⟩ ∧
      (⟨3 / 4⟩ : AliMikhailHaqCopula).call binary64 (1 / 4) (1 / 2 ^ 52)
        ≠ (⟨3 / 4⟩ : AliMikhailHaqCopula).call binary64 (1 / 2 ^ 52) (1 / 4) := by
  have h00 : (0 : Real) ≤ 0 ∧ (0 : Real) ≤ 1 := ⟨le_refl _, by norm_num⟩
  have hs : (0 : Real) ≤ 1 / 2 ^ 60 ∧ (1 : Real) / 2 ^ 60 ≤ 1 := ⟨by norm_num, by norm_num⟩
  have h1 : (⟨1⟩ : AliMikhailHaqCopula).call binary64 0 0 = .ok none :=
    (copula_call_cases binary64 ⟨1⟩ 0 0 h00 h00).1
      ((copula_denominator_at_zero binary64 isRounding_binary64 ⟨1⟩ 0 (le_refl _) binary64_one
        h00).1.mpr ⟨rfl, (binary64_one_sub_eq_one_iff 0 (le_refl _)).mpr (by norm_num)⟩)
  have h2 : (⟨1⟩ : AliMikhailHaqCopula).call (fun a => a) 0 0 = .ok none :=
    (copula_call_cases (fun a => a) ⟨1⟩ 0 0 h00 h00).1
      (by norm_num [AliMikhailHaqCopula.denominator])
  have h3 : (⟨1⟩ : AliMikhailHaqCopula).call binary64 (1 / 2 ^ 60) 0 = .ok none :=
    (copula_call_cases binary64 ⟨1⟩ _ 0 hs h00).1
      ((copula_denominator_at_zero binary64 isRounding_binary64 ⟨1⟩ _ (le_refl _) binary64_one
        hs).1.mpr ⟨rfl, (binary64_one_sub_eq_one_iff _ hs.1).mpr (by norm_num)⟩)
  refine ⟨by norm_num [AliMikhailHaqCopula.new], h1, ?_, h2, h3, ?_,
    by norm_num [AliMikhailHaqCopula.new], ?_⟩
  · rw [h1]
    simp
  · rw [h3]
    simp
  · rw [copula_asymmetric_in_binary64.1, copula_asymmetric_in_binary64.2]
    norm_num

theorem copula_boundary_conditions_witness :
    (⟨1 / 2⟩ : AliMikhailHaqCopula).call binary64 (1 / 4) 1 = .ok (some (1 / 4)) ∧
      (⟨1 / 2⟩ : AliMikhailHaqCopula).call binary64 (1 / 4) 0 = .ok (some 0) := by
  obtain ⟨h1, -, h3, -⟩ := (copula_boundary_conditions (1 / 2) (1 / 4) (1 / 2) ⟨1 / 2⟩
    (by norm_num [AliMikhailHaqCopula.new]) (by norm_num) (by norm_num)).1 binary64
    isRounding_binary64 binary64_half binary64_quarter binary64_half
  exact ⟨h1, h3 (by norm_num)⟩

/-! ## Partition of unity of the Bernstein polynomials -/

/-- With `Factorial::get(k) = k!`, the value of `BernsteinPolynomial::get` for `i ≤ n` in
the order of factors of the binomial theorem. -/
theorem bernstein_get_binomial_term (factorial : Natural → Real) (i n : Nat) (x : Real)
    (hfact : ∀ k : Nat, factorial k = (Nat.factorial k : Real)) (hin : i ≤ n) :
    BernsteinPolynomial.get factorial i n x = x ^ i * (1 - x) ^ (n - i) * (Nat.choose n i : Real) := by
  unfold BernsteinPolynomial.get
  simp only [hfact, Int.ofNat_eq_coe, zpow_natCast]
  rw [factorial_quotient_eq_choose i n hin]
  ring

/-- A sum over a mapped range as a sum over the finite range. -/
theorem sum_map_range (f : Nat → Real) (m : Nat) :
    ((List.range m).map f).sum = ∑ i in Finset.range m, f i := by
  induction m with
  | zero => simp
  | succ m ih =>
    rw [List.range_succ, List.map_append, List.sum_append, ih, Finset.sum_range_succ]
    simp

/-- C28: partition of unity: for every natural `n` and every real `x`, the sum over
`i = 0..n` of `BernsteinPolynomial::get(i, n, x)` equals 1; and for `x` in `[0,1]` every
term is non-negative (`Factorial::get(k)` is taken to return `k!`). -/
theorem bernstein_partition_of_unity (factorial : Natural → Real) (n : Natural) (x : Real)
    (hfact : ∀ k : Nat, factorial k = (Nat.factorial k : Real)) :
    ((List.range (n + 1)).map (fun i => BernsteinPolynomial.get factorial i n x)).sum = 1 ∧
      (0 ≤ x ∧ x ≤ 1 → ∀ i : Nat, i ≤ n → 0 ≤ BernsteinPolynomial.get factorial i n x) := by
  refine ⟨?_, fun hx i hin => ?_⟩
  · have hsum := sum_map_range (fun i => BernsteinPolynomial.get factorial i n x) (n + 1)
    rw [hsum, Finset.sum_congr rfl (fun i hi =>
      bernstein_get_binomial_term factorial i n x hfact
        (Nat.lt_succ_iff.mp (Finset.mem_range.mp hi))), ← add_pow]
    norm_num
  · rw [bernstein_get_binomial_term factorial i n x hfact hin]
    have h1 : 0 ≤ 1 - x := by linarith [hx.2]
    have h2 : (0 : Real) ≤ (Nat.choose n i : Real) := by exact_mod_cast Nat.zero_le _
    exact mul_nonneg (mul_nonneg (pow_nonneg hx.1 _) (pow_nonneg h1 _)) h2

theorem bernstein_partition_of_unity_witness :
    ((List.range (2 + 1)).map
        (fun i => BernsteinPolynomial.get (fun k => (Nat.factorial k : Real)) i 2 (1 / 3))).sum
      = 1 :=
  (bernstein_partition_of_unity (fun k => (Nat.factorial k : Real)) 2 (1 / 3) (fun _ => rfl)).1

/-! ## How many points an expiry grid receives -/

/-- Every inserted point makes the volatility grid one longer. -/
theorem length_foldl_insertPoint_snd (ps : List (Rate × Volatility))
    (g : List Rate × List Volatility) :
    (ps.foldl insertPoint g).2.length = g.2.length + ps.length := by
  induction ps generalizing g with
  | nil => rfl
  | cons p ps ih =>
    rw [List.foldl_cons, ih, List.length_cons]
    simp only [insertPoint, length_vectorInsert]
    omega

/-- C23: in a successful `OptionletStripper2` pass, expiry grid `i` receives exactly one
inserted point for tenor `j` if and only if `i <=` the number of coupons in the tenor-`j`
reference cap's floating leg: the grids of expiry `i` are the upstream grids with one point
inserted for each tenor of the duplicate-free list of the tenors `j` with `i <= legSize_j`;
hence after the pass the length of grid `i` equals the upstream length plus the number of
tenors `j` with `i <= legSize_j`. -/
theorem grid_receives_point_iff_within_leg_bound (pricing : Pricing) (solve : Solver1D)
    (q : Quotes) (self s1 : OptionletStripper2) (i : Nat)
    (hS : self.optionletStrikes_.length = self.stripper1_.optionletFixingTimes_.length)
    (hV : self.optionletVolatilities_.length = self.stripper1_.optionletFixingTimes_.length)
    (hpass : self.performCalculations pricing solve q = (.ok (), s1))
    (hi : i < self.stripper1_.optionletFixingTimes_.length) :
    s1.grid i
        = ((s1.insertedTenors i).map fun j => s1.atmPoint pricing j i).foldl insertPoint
            (self.stripper1_.optionletStrikes i, self.stripper1_.optionletVolatilities i) ∧
      (s1.insertedTenors i).Nodup ∧
      (∀ j : Nat, j ∈ s1.insertedTenors i ↔
        j < self.nOptionExpiries_ ∧ i ≤ (s1.caps_.getD j default).floatingLegSize) ∧
      (s1.optionletStrikes_.getD i []).length
        = (self.stripper1_.optionletStrikes i).length
          + ((List.range self.nOptionExpiries_).filter
              fun j => decide (i ≤ (s1.caps_.getD j default).floatingLegSize)).length ∧
      (s1.optionletVolatilities_.getD i []).length
        = (self.stripper1_.optionletVolatilities i).length
          + ((List.range self.nOptionExpiries_).filter
              fun j => decide (i ≤ (s1.caps_.getD j default).floatingLegSize)).length := by
  obtain ⟨hg, -⟩ := OptionletStripper2.performCalculations_grid pricing solve q self s1 i hS hV
    hpass hi
  have hn : s1.nOptionExpiries_ = self.nOptionExpiries_ := by
    have h := (OptionletStripper2.performCalculations_frame pricing solve q self).2.2.2.1
    rw [hpass] at h
    exact h
  have hins : s1.insertedTenors i = (List.range self.nOptionExpiries_).filter
      fun j => decide (i ≤ (s1.caps_.getD j default).floatingLegSize) := by
    rw [OptionletStripper2.insertedTenors, hn]
  have h1 : (s1.optionletStrikes_.getD i []) = (s1.grid i).1 := rfl
  have h2 : (s1.optionletVolatilities_.getD i []) = (s1.grid i).2 := rfl
  refine ⟨hg, ?_, fun j => ?_, ?_, ?_⟩
  · rw [hins]
    exact (List.nodup_range _).filter _
  · rw [hins, List.mem_filter, List.mem_range, decide_eq_true_eq]
  · rw [h1, hg, length_foldl_insertPoint, List.length_map, hins]
  · rw [h2, hg, length_foldl_insertPoint_snd, List.length_map, hins]

theorem grid_receives_point_iff_within_leg_bound_witness :
    ((exampleStripper2.performCalculations shortLegPricing exampleSolver
        exampleQuotes).2.optionletStrikes_.getD 1 []).length
      = (exampleStripper2.stripper1_.optionletStrikes 1).length
        + ((List.range exampleStripper2.nOptionExpiries_).filter
            fun j => decide (1 ≤ ((exampleStripper2.performCalculations shortLegPricing
              exampleSolver exampleQuotes).2.caps_.getD j default).floatingLegSize)).length :=
  (grid_receives_point_iff_within_leg_bound shortLegPricing exampleSolver exampleQuotes
    exampleStripper2 _ 1 rfl rfl
    (exampleSolver_pass_ok shortLegPricing exampleQuotes exampleStripper2
      (fun _ _ => rfl) (by norm_num [exampleStripper2]))
    (by decide)).2.2.2.1

/-! ## A single insertion step -/

theorem lowerBound_le_length (k : Real) (l : List Real) : lowerBound k l ≤ l.length := by
  induction l with
  | nil => simp [lowerBound]
  | cons e es ih =>
    by_cases he : e < k
    · simp only [lowerBound, he, if_true, List.length_cons]
      omega
    · simp [lowerBound, he]

/-- On a non-decreasing grid the lower bound of `k` is the number of strikes strictly less
than `k`. -/
theorem lowerBound_eq_countP (k : Real) (l : List Real) (h : l.Pairwise (· ≤ ·)) :
    lowerBound k l = l.countP (fun e => decide (e < k)) := by
  induction l with
  | nil => simp [lowerBound]
  | cons e es ih =>
    rw [List.pairwise_cons] at h
    by_cases he : e < k
    · simp only [lowerBound, he, if_true]
      rw [List.countP_cons_of_pos _ _ (by simpa using he), ih h.2]
    · simp only [lowerBound, he, if_false]
      rw [List.countP_cons_of_neg _ _ (by simpa using he)]
      symm
      rw [List.countP_eq_zero]
      intro a ha
      have h1 : k ≤ a := le_trans (not_lt.mp he) (h.1 a ha)
      simpa using h1

/-- The strikes before the lower bound are less than `k`. -/
theorem lt_of_mem_take_lowerBound (k : Real) (l : List Real) :
    ∀ e ∈ l.take (lowerBound k l), e < k := by
  induction l with
  | nil => simp [lowerBound]
  | cons a as ih =>
    by_cases ha : a < k
    · simp only [lowerBound, ha, if_true, List.take_succ_cons, List.mem_cons]
      rintro e (rfl | he)
      · exact ha
      · exact ih e he
    · simp [lowerBound, ha]

/-- On a non-decreasing grid the strikes from the lower bound on are not less than `k`. -/
theorem le_of_mem_drop_lowerBound (k : Real) (l : List Real) (h : l.Pairwise (· ≤ ·)) :
    ∀ e ∈ l.drop (lowerBound k l), k ≤ e := by
  induction l with
  | nil => simp [lowerBound]
  | cons a as ih =>
    rw [List.pairwise_cons] at h
    by_cases ha : a < k
    · simp only [lowerBound, ha, if_true, List.drop_succ_cons]
      exact ih h.2
    · simp only [lowerBound, ha, if_false, List.drop_zero, List.mem_cons]
      rintro e (rfl | he)
      · exact not_lt.mp ha
      · exact le_trans (not_lt.mp ha) (h.1 e he)

/-- Inserting into two vectors at the same position inserts the pair into the vector of
pairs. -/
theorem zip_vectorInsert {α β : Type} (l1 : List α) (l2 : List β) (p : Nat) (a : α) (b : β)
    (hlen : l1.length = l2.length) :
    (vectorInsert l1 p a).zip (vectorInsert l2 p b) = vectorInsert (l1.zip l2) p (a, b) := by
  unfold vectorInsert
  rw [List.zip_append (by rw [List.length_take, List.length_take, hlen]), List.zip_cons_cons]
  simp only [List.zip, List.take_zipWith, List.drop_zipWith]

/-- Erasing the inserted element gives back the vector. -/
theorem eraseIdx_vectorInsert {α : Type} (l : List α) (p : Nat) (a : α) (hp : p ≤ l.length) :
    (vectorInsert l p a).eraseIdx p = l := by
  induction l generalizing p with
  | nil =>
    have hp0 : p = 0 := by simpa using hp
    subst hp0
    rfl
  | cons e es ih =>
    cases p with
    | zero => rfl
    | succ p =>
      rw [vectorInsert_cons_succ, List.eraseIdx_cons_succ, ih p (by simpa using hp)]

/-- C24: single insertion step (the body of the insertion loops for a tenor `j` and an
expiry `i` within the tenor's bound): for a strike grid sorted in non-decreasing order and
a volatility grid of the same length, inserting ATM strike `k` places `k` at index
`p` = number of existing strikes strictly less than `k` (every strike before it is less
than `k`, every strike after it is not: it comes before any equal strike), places the
adjusted volatility at the same index `p` of the volatility grid, leaves the strike grid
sorted in non-decreasing order, makes each grid one longer, and keeps every pre-existing
(strike, volatility) pair paired and in its original relative order: erasing position `p`
from the new pairs gives the old pairs. -/
theorem single_insertion_step (pricing : Pricing) (j i : Nat) (s : OptionletStripper2)
    (hS : i < s.optionletStrikes_.length) (hV : i < s.optionletVolatilities_.length)
    (hleg : i ≤ (s.caps_.getD j default).floatingLegSize)
    (hsorted : (s.grid i).1.Pairwise (· ≤ ·))
    (hlen : (s.grid i).1.length = (s.grid i).2.length) :
    ((OptionletStripper2.insertAtm pricing j i s).grid i).1
        = (s.grid i).1.take
              ((s.grid i).1.countP (fun e => decide (e < s.atmCapFloorStrikes_.getD j 0)))
            ++ s.atmCapFloorStrikes_.getD j 0 ::
              (s.grid i).1.drop
                ((s.grid i).1.countP (fun e => decide (e < s.atmCapFloorStrikes_.getD j 0))) ∧
      ((OptionletStripper2.insertAtm pricing j i s).grid i).2
        = (s.grid i).2.take
              ((s.grid i).1.countP (fun e => decide (e < s.atmCapFloorStrikes_.getD j 0)))
            ++ (pricing.adapterVolatility s.stripper1_ (s.optionletTimes_.getD i 0)
                  (s.atmCapFloorStrikes_.getD j 0) + s.spreadsVolImplied_.getD j 0) ::
              (s.grid i).2.drop
                ((s.grid i).1.countP (fun e => decide (e < s.atmCapFloorStrikes_.getD j 0))) ∧
      (s.grid i).1.countP (fun e => decide (e < s.atmCapFloorStrikes_.getD j 0))
        ≤ (s.grid i).1.length ∧
      (∀ e ∈ (s.grid i).1.take
          ((s.grid i).1.countP (fun e => decide (e < s.atmCapFloorStrikes_.getD j 0))),
        e < s.atmCapFloorStrikes_.getD j 0) ∧
      (∀ e ∈ (s.grid i).1.drop
          ((s.grid i).1.countP (fun e => decide (e < s.atmCapFloorStrikes_.getD j 0))),
        s.atmCapFloorStrikes_.getD j 0 ≤ e) ∧
      ((OptionletStripper2.insertAtm pricing j i s).grid i).1.Pairwise (· ≤ ·) ∧
      ((OptionletStripper2.insertAtm pricing j i s).grid i).1.length = (s.grid i).1.length + 1 ∧
      ((OptionletStripper2.insertAtm pricing j i s).grid i).2.length = (s.grid i).2.length + 1 ∧
      (((OptionletStripper2.insertAtm pricing j i s).grid i).1.zip ((OptionletStripper2.insertAtm pricing j i s).grid i).2).eraseIdx
          ((s.grid i).1.countP (fun e => decide (e < s.atmCapFloorStrikes_.getD j 0)))
        = (s.grid i).1.zip (s.grid i).2 := by
  obtain ⟨-, -, -, hg⟩ := OptionletStripper2.insertAtm_grid pricing j i s hS hV
  have hgi := hg i
  rw [if_pos ⟨rfl, hleg⟩] at hgi
  have hp := lowerBound_eq_countP (s.atmCapFloorStrikes_.getD j 0) (s.grid i).1 hsorted
  have hple := lowerBound_le_length (s.atmCapFloorStrikes_.getD j 0) (s.grid i).1
  rw [hgi]
  simp only [insertPoint]
  rw [← hp]
  refine ⟨rfl, rfl, hple, lt_of_mem_take_lowerBound _ _, le_of_mem_drop_lowerBound _ _ hsorted,
    pairwise_le_insert_lowerBound _ _ hsorted, length_vectorInsert _ _ _,
    length_vectorInsert _ _ _, ?_⟩
  rw [zip_vectorInsert _ _ _ _ _ hlen, eraseIdx_vectorInsert]
  rw [List.length_zip, ← hlen, min_self]
  exact hple

theorem single_insertion_step_witness :
    ((OptionletStripper2.insertAtm examplePricing 0 0
        { exampleStripper2 with
          optionletStrikes_ := [[1 / 100, 3 / 100], [1 / 100, 3 / 100]]
          optionletVolatilities_ := [[1 / 5, 1 / 4], [1 / 5, 1 / 4]]
          atmCapFloorStrikes_ := [3 / 100, 0] }).grid 0).1.Pairwise (· ≤ ·) :=
  (single_insertion_step examplePricing 0 0
    { exampleStripper2 with
      optionletStrikes_ := [[1 / 100, 3 / 100], [1 / 100, 3 / 100]]
      optionletVolatilities_ := [[1 / 5, 1 / 4], [1 / 5, 1 / 4]]
      atmCapFloorStrikes_ := [3 / 100, 0] }
    (by decide) (by decide) (Nat.zero_le _)
    (by norm_num [OptionletStripper2.grid]) rfl).2.2.2.2.2.1

/-! ## A pass is a function of the dependencies -/

/-! ## A pass recomputes everything from its dependencies -/

theorem calculate_calculated (q : Quotes) (c : CapFloorTermVolCurve) :
    (c.calculate q).calculated_ = true := by
  unfold CapFloorTermVolCurve.calculate
  by_cases h : c.calculated_ = true
  · rw [if_pos h]; exact h
  · rw [if_neg h, performCalculations_eq]

/-- A calculated curve is left as it is by `calculate()`. -/
theorem calculate_of_calculated (q : Quotes) (c : CapFloorTermVolCurve)
    (h : c.calculated_ = true) : c.calculate q = c := by
  unfold CapFloorTermVolCurve.calculate
  rw [if_pos h]

theorem calculate_optionTenors (q : Quotes) (c : CapFloorTermVolCurve) :
    (c.calculate q).optionTenors_ = c.optionTenors_ := by
  unfold CapFloorTermVolCurve.calculate
  split
  · rfl
  · rw [performCalculations_eq]

namespace OptionletStripper2

/-- One step of the ATM loop, with the cap it builds and prices made explicit. -/
theorem atmStep_eq (pricing : Pricing) (q : Quotes) (tenors : List Period)
    (times : List Time) (s : OptionletStripper2) (j : Nat) :
    atmStep pricing q tenors times s j
      = match ((⟨pricing.makeCapFloor (tenors.getD j default), .none, false, 0⟩ :
            CapFloor).setPricingEngine
              (.flat (s.atmCapFloorTermVolCurve_.volatility q (times.getD j 0)
                (333333 / 10000)).1 s.dc_)).NPV pricing 0 with
        | (.ok v, cap1) =>
          (.ok (),
            { s with
              atmCapFloorTermVolCurve_ :=
                (s.atmCapFloorTermVolCurve_.volatility q (times.getD j 0) (333333 / 10000)).2,
              caps_ := s.caps_.set j cap1,
              atmCapFloorStrikes_ := s.atmCapFloorStrikes_.set j
                (pricing.atmRate (pricing.makeCapFloor (tenors.getD j default))),
              atmCapFloorPrices_ := s.atmCapFloorPrices_.set j v })
        | (.error e, cap1) =>
          (.error e,
            { s with
              atmCapFloorTermVolCurve_ :=
                (s.atmCapFloorTermVolCurve_.volatility q (times.getD j 0) (333333 / 10000)).2,
              caps_ := s.caps_.set j cap1,
              atmCapFloorStrikes_ := s.atmCapFloorStrikes_.set j
                (pricing.atmRate (pricing.makeCapFloor (tenors.getD j default))) }) := by
  unfold atmStep
  simp only [List.set_set]
  split <;> rfl

end OptionletStripper2

namespace OptionletStripper2

/-- Writing the same value at the same index of two vectors of one size makes them agree at
that index and keeps them agreeing wherever they did. -/
theorem getD_set_agree {α : Type} (l1 l2 : List α) (j k : Nat) (x d : α)
    (hlen : l1.length = l2.length) (h : k = j ∨ l1.getD k d = l2.getD k d) :
    (l1.set j x).getD k d = (l2.set j x).getD k d := by
  rw [getD_set_eq, getD_set_eq, hlen]
  by_cases hjk : j = k ∧ j < l2.length
  · rw [if_pos hjk, if_pos hjk]
  · rw [if_neg hjk, if_neg hjk]
    rcases h with h | h
    · subst h
      have hge : ¬ k < l2.length := fun hlt => hjk ⟨rfl, hlt⟩
      rw [List.getD_eq_default _ _ (by omega), List.getD_eq_default _ _ (by omega)]
    · exact h

/-- Two runs of the ATM loop from states with the same curve and day counter go in
lockstep: same outcome, same curve afterwards, and after success the same cap, ATM strike
and ATM price at every index the loop visited or where the states agreed before. -/
theorem atmLoop_lockstep (pricing : Pricing) (q : Quotes) (tenors : List Period)
    (times : List Time) (js : List Nat) (a b : OptionletStripper2)
    (hc : a.atmCapFloorTermVolCurve_ = b.atmCapFloorTermVolCurve_) (hd : a.dc_ = b.dc_)
    (hl1 : a.caps_.length = b.caps_.length)
    (hl2 : a.atmCapFloorStrikes_.length = b.atmCapFloorStrikes_.length)
    (hl3 : a.atmCapFloorPrices_.length = b.atmCapFloorPrices_.length) :
    (atmLoop pricing q tenors times js a).1 = (atmLoop pricing q tenors times js b).1 ∧
      (atmLoop pricing q tenors times js a).2.atmCapFloorTermVolCurve_
        = (atmLoop pricing q tenors times js b).2.atmCapFloorTermVolCurve_ ∧
      (atmLoop pricing q tenors times js a).2.caps_.length
        = (atmLoop pricing q tenors times js b).2.caps_.length ∧
      (atmLoop pricing q tenors times js a).2.atmCapFloorStrikes_.length
        = (atmLoop pricing q tenors times js b).2.atmCapFloorStrikes_.length ∧
      (atmLoop pricing q tenors times js a).2.atmCapFloorPrices_.length
        = (atmLoop pricing q tenors times js b).2.atmCapFloorPrices_.length ∧
      ((atmLoop pricing q tenors times js a).1 = .ok () →
        ∀ k : Nat,
          (k ∈ js ∨ (a.caps_.getD k default = b.caps_.getD k default ∧
            a.atmCapFloorStrikes_.getD k 0 = b.atmCapFloorStrikes_.getD k 0 ∧
            a.atmCapFloorPrices_.getD k 0 = b.atmCapFloorPrices_.getD k 0)) →
          (atmLoop pricing q tenors times js a).2.caps_.getD k default
              = (atmLoop pricing q tenors times js b).2.caps_.getD k default ∧
            (atmLoop pricing q tenors times js a).2.atmCapFloorStrikes_.getD k 0
              = (atmLoop pricing q tenors times js b).2.atmCapFloorStrikes_.getD k 0 ∧
            (atmLoop pricing q tenors times js a).2.atmCapFloorPrices_.getD k 0
              = (atmLoop pricing q tenors times js b).2.atmCapFloorPrices_.getD k 0) := by
  induction js generalizing a b with
  | nil =>
    refine ⟨rfl, hc, hl1, hl2, hl3, fun _ k hk => ?_⟩
    rcases hk with hk | hk
    · exact absurd hk (List.not_mem_nil _)
    · exact hk
  | cons j js ih =>
    unfold atmLoop
    rw [atmStep_eq pricing q tenors times a j, atmStep_eq pricing q tenors times b j]
    have hs : ((⟨pricing.makeCapFloor (tenors.getD j default), .none, false, 0⟩ :
        CapFloor).setPricingEngine
          (.flat (a.atmCapFloorTermVolCurve_.volatility q (times.getD j 0)
            (333333 / 10000)).1 a.dc_)).NPV pricing 0
        = ((⟨pricing.makeCapFloor (tenors.getD j default), .none, false, 0⟩ :
        CapFloor).setPricingEngine
          (.flat (b.atmCapFloorTermVolCurve_.volatility q (times.getD j 0)
            (333333 / 10000)).1 b.dc_)).NPV pricing 0 := by
      rw [hc, hd]
    rw [hs]
    rcases hres : ((⟨pricing.makeCapFloor (tenors.getD j default), .none, false, 0⟩ :
        CapFloor).setPricingEngine
          (.flat (b.atmCapFloorTermVolCurve_.volatility q (times.getD j 0)
            (333333 / 10000)).1 b.dc_)).NPV pricing 0 with ⟨r, cap1⟩
    cases r with
    | error e =>
      simp only
      refine ⟨trivial, by rw [hc], ?_, ?_, hl3, fun h => by cases h⟩
      · rw [List.length_set, List.length_set, hl1]
      · rw [List.length_set, List.length_set, hl2]
    | ok v =>
      simp only
      obtain ⟨k1, k2, k3, k4, k5, k6⟩ := ih
        ({ a with
            atmCapFloorTermVolCurve_ :=
              (a.atmCapFloorTermVolCurve_.volatility q (times.getD j 0) (333333 / 10000)).2,
            caps_ := a.caps_.set j cap1,
            atmCapFloorStrikes_ := a.atmCapFloorStrikes_.set j
              (pricing.atmRate (pricing.makeCapFloor (tenors.getD j default))),
            atmCapFloorPrices_ := a.atmCapFloorPrices_.set j v } : OptionletStripper2)
        ({ b with
            atmCapFloorTermVolCurve_ :=
              (b.atmCapFloorTermVolCurve_.volatility q (times.getD j 0) (333333 / 10000)).2,
            caps_ := b.caps_.set j cap1,
            atmCapFloorStrikes_ := b.atmCapFloorStrikes_.set j
              (pricing.atmRate (pricing.makeCapFloor (tenors.getD j default))),
            atmCapFloorPrices_ := b.atmCapFloorPrices_.set j v } : OptionletStripper2)
        (by rw [hc]) hd (by simp only [List.length_set]; exact hl1)
        (by simp only [List.length_set]; exact hl2)
        (by simp only [List.length_set]; exact hl3)
      refine ⟨k1, k2, k3, k4, k5, fun hok k hk => ?_⟩
      apply k6 hok k
      by_cases hkj : k = j
      · right
        exact ⟨getD_set_agree _ _ _ _ _ _ hl1 (Or.inl hkj),
          getD_set_agree _ _ _ _ _ _ hl2 (Or.inl hkj),
          getD_set_agree _ _ _ _ _ _ hl3 (Or.inl hkj)⟩
      · rcases hk with hk | hk
        · rcases List.mem_cons.mp hk with h | h
          · exact absurd h hkj
          · exact Or.inl h
        · right
          exact ⟨getD_set_agree _ _ _ _ _ _ hl1 (Or.inr hk.1),
            getD_set_agree _ _ _ _ _ _ hl2 (Or.inr hk.2.1),
            getD_set_agree _ _ _ _ _ _ hl3 (Or.inr hk.2.2)⟩

end OptionletStripper2

/-- Two vectors of one size with the same element at every index are equal. -/
theorem ext_of_getD {α : Type} (d : α) (l1 l2 : List α) (hlen : l1.length = l2.length)
    (h : ∀ k : Nat, k < l1.length → l1.getD k d = l2.getD k d) : l1 = l2 := by
  apply List.ext_getElem hlen
  intro k h1 h2
  have hk := h k h1
  rw [List.getD_eq_getElem _ _ h1, List.getD_eq_getElem _ _ h2] at hk
  exact hk

namespace OptionletStripper2

/-- The ATM stage written as the ATM loop on the state after the upstream copy, with the
curve recalculated. -/
theorem atmStage_eq (pricing : Pricing) (q : Quotes) (s : OptionletStripper2) :
    s.atmStage pricing q
      = atmLoop pricing q s.atmCapFloorTermVolCurve_.optionTenors_
          (s.atmCapFloorTermVolCurve_.calculate q).optionTimes_
          (List.range s.nOptionExpiries_)
          { s.copyUpstream with
            atmCapFloorTermVolCurve_ := s.atmCapFloorTermVolCurve_.calculate q } := by
  obtain ⟨c1, -, -, -, -, -, c7⟩ := copyUpstream_nOptionExpiries s
  unfold atmStage
  simp only [CapFloorTermVolCurve.optionTenors, CapFloorTermVolCurve.optionTimes, c1, c7]

end OptionletStripper2

namespace OptionletStripper2

theorem copyUpstream_prices (s : OptionletStripper2) :
    s.copyUpstream.atmCapFloorPrices_ = s.atmCapFloorPrices_ := by
  unfold copyUpstream
  rw [copyUpstream_fold]

/-- The ATM loop keeps the sizes of the vectors it writes. -/
theorem atmLoop_lengths (pricing : Pricing) (q : Quotes) (tenors : List Period)
    (times : List Time) (js : List Nat) (s : OptionletStripper2) :
    (atmLoop pricing q tenors times js s).2.caps_.length = s.caps_.length ∧
      (atmLoop pricing q tenors times js s).2.atmCapFloorStrikes_.length
        = s.atmCapFloorStrikes_.length ∧
      (atmLoop pricing q tenors times js s).2.atmCapFloorPrices_.length
        = s.atmCapFloorPrices_.length := by
  induction js generalizing s with
  | nil => exact ⟨rfl, rfl, rfl⟩
  | cons j js ih =>
    unfold atmLoop
    rw [atmStep_eq pricing q tenors times s j]
    rcases hres : ((⟨pricing.makeCapFloor (tenors.getD j default), .none, false, 0⟩ :
        CapFloor).setPricingEngine
          (.flat (s.atmCapFloorTermVolCurve_.volatility q (times.getD j 0)
            (333333 / 10000)).1 s.dc_)).NPV pricing 0 with ⟨r, cap1⟩
    cases r with
    | error e =>
      simp only [List.length_set, and_self]
    | ok v =>
      simp only
      obtain ⟨k1, k2, k3⟩ := ih
        ({ s with
            atmCapFloorTermVolCurve_ :=
              (s.atmCapFloorTermVolCurve_.volatility q (times.getD j 0) (333333 / 10000)).2,
            caps_ := s.caps_.set j cap1,
            atmCapFloorStrikes_ := s.atmCapFloorStrikes_.set j
              (pricing.atmRate (pricing.makeCapFloor (tenors.getD j default))),
            atmCapFloorPrices_ := s.atmCapFloorPrices_.set j v } : OptionletStripper2)
      simp only [List.length_set] at k1 k2 k3
      exact ⟨k1, k2, k3⟩

/-- Putting the frames of two runs together: equal results in the written fields give equal
states up to the fields the loop does not read. -/
theorem assemble_runs (sA sB RA RB : OptionletStripper2)
    (hR : sA = { sB with
      caps_ := sA.caps_, atmCapFloorStrikes_ := sA.atmCapFloorStrikes_,
      atmCapFloorPrices_ := sA.atmCapFloorPrices_, calculated_ := sA.calculated_,
      spreadsVolImplied_ := sA.spreadsVolImplied_, maxEvaluations_ := sA.maxEvaluations_,
      accuracy_ := sA.accuracy_ })
    (hfa : SameButAtm RA sA) (hfb : SameButAtm RB sB)
    (hC : RA.atmCapFloorTermVolCurve_ = RB.atmCapFloorTermVolCurve_)
    (hX : RA.caps_ = RB.caps_) (hY : RA.atmCapFloorStrikes_ = RB.atmCapFloorStrikes_)
    (hZ : RA.atmCapFloorPrices_ = RB.atmCapFloorPrices_) :
    RA = { RB with
      calculated_ := sA.calculated_, spreadsVolImplied_ := sA.spreadsVolImplied_,
      maxEvaluations_ := sA.maxEvaluations_, accuracy_ := sA.accuracy_ } := by
  unfold SameButAtm at hfa hfb
  cases sA
  cases sB
  cases RA
  cases RB
  simp only [OptionletStripper2.mk.injEq] at hR hfa hfb hC hX hY hZ ⊢
  simp_all

/-- The ATM loop over all tenors is a function of what it reads. -/
theorem atmLoop_congr (pricing : Pricing) (q : Quotes) (tenors : List Period)
    (times : List Time) (n : Nat) (sA sB : OptionletStripper2)
    (hR : sA = { sB with
      caps_ := sA.caps_, atmCapFloorStrikes_ := sA.atmCapFloorStrikes_,
      atmCapFloorPrices_ := sA.atmCapFloorPrices_, calculated_ := sA.calculated_,
      spreadsVolImplied_ := sA.spreadsVolImplied_, maxEvaluations_ := sA.maxEvaluations_,
      accuracy_ := sA.accuracy_ })
    (hCa : sA.caps_.length = n) (hKa : sA.atmCapFloorStrikes_.length = n)
    (hPa : sA.atmCapFloorPrices_.length = n)
    (hCb : sB.caps_.length = n) (hKb : sB.atmCapFloorStrikes_.length = n)
    (hPb : sB.atmCapFloorPrices_.length = n) :
    (atmLoop pricing q tenors times (List.range n) sA).1
        = (atmLoop pricing q tenors times (List.range n) sB).1 ∧
      ((atmLoop pricing q tenors times (List.range n) sA).1 = .ok () →
        (atmLoop pricing q tenors times (List.range n) sA).2
          = { (atmLoop pricing q tenors times (List.range n) sB).2 with
              calculated_ := sA.calculated_, spreadsVolImplied_ := sA.spreadsVolImplied_,
              maxEvaluations_ := sA.maxEvaluations_, accuracy_ := sA.accuracy_ }) := by
  have hc : sA.atmCapFloorTermVolCurve_ = sB.atmCapFloorTermVolCurve_ := by rw [hR]
  have hd : sA.dc_ = sB.dc_ := by rw [hR]
  obtain ⟨k1, k2, k3, k4, k5, k6⟩ := atmLoop_lockstep pricing q tenors times (List.range n)
    sA sB hc hd (by rw [hCa, hCb]) (by rw [hKa, hKb]) (by rw [hPa, hPb])
  obtain ⟨l1, l2, l3⟩ := atmLoop_lengths pricing q tenors times (List.range n) sA
  refine ⟨k1, fun hok => ?_⟩
  have hent := k6 hok
  apply assemble_runs sA sB _ _ hR (atmLoop_frame pricing q tenors times _ sA)
    (atmLoop_frame pricing q tenors times _ sB) k2
  · apply ext_of_getD default _ _ k3
    intro k hk
    exact (hent k (Or.inl (List.mem_range.mpr (by omega)))).1
  · apply ext_of_getD 0 _ _ k4
    intro k hk
    exact (hent k (Or.inl (List.mem_range.mpr (by omega)))).2.1
  · apply ext_of_getD 0 _ _ k5
    intro k hk
    exact (hent k (Or.inl (List.mem_range.mpr (by omega)))).2.2

/-- The ATM stage is a function of the dependencies: from two states with the same upstream
stripper, the same curve (up to its lazy recalculation), day counter and number of tenors,
and vectors of the sizes the constructor gives them, it has the same outcome and, on
success, leaves the same state up to the fields it does not write. -/
theorem atmStage_congr (pricing : Pricing) (q : Quotes) (a b : OptionletStripper2)
    (hst : a.stripper1_ = b.stripper1_)
    (hcv : a.atmCapFloorTermVolCurve_.calculate q = b.atmCapFloorTermVolCurve_.calculate q)
    (hdc : a.dc_ = b.dc_) (hn : a.nOptionExpiries_ = b.nOptionExpiries_)
    (hSa : a.optionletStrikes_.length = a.stripper1_.optionletFixingTimes_.length)
    (hVa : a.optionletVolatilities_.length = a.stripper1_.optionletFixingTimes_.length)
    (hSb : b.optionletStrikes_.length = b.stripper1_.optionletFixingTimes_.length)
    (hVb : b.optionletVolatilities_.length = b.stripper1_.optionletFixingTimes_.length)
    (hCa : a.caps_.length = a.nOptionExpiries_)
    (hKa : a.atmCapFloorStrikes_.length = a.nOptionExpiries_)
    (hPa : a.atmCapFloorPrices_.length = a.nOptionExpiries_)
    (hCb : b.caps_.length = b.nOptionExpiries_)
    (hKb : b.atmCapFloorStrikes_.length = b.nOptionExpiries_)
    (hPb : b.atmCapFloorPrices_.length = b.nOptionExpiries_) :
    (a.atmStage pricing q).1 = (b.atmStage pricing q).1 ∧
      ((a.atmStage pricing q).1 = .ok () →
        (a.atmStage pricing q).2
          = { (b.atmStage pricing q).2 with
              calculated_ := a.calculated_, spreadsVolImplied_ := a.spreadsVolImplied_,
              maxEvaluations_ := a.maxEvaluations_, accuracy_ := a.accuracy_ }) := by
  have hten : a.atmCapFloorTermVolCurve_.optionTenors_
      = b.atmCapFloorTermVolCurve_.optionTenors_ := by
    rw [← calculate_optionTenors q a.atmCapFloorTermVolCurve_, hcv, calculate_optionTenors]
  have hA : a.atmStage pricing q
      = atmLoop pricing q b.atmCapFloorTermVolCurve_.optionTenors_
          (b.atmCapFloorTermVolCurve_.calculate q).optionTimes_
          (List.range b.nOptionExpiries_)
          { a.copyUpstream with
            atmCapFloorTermVolCurve_ := b.atmCapFloorTermVolCurve_.calculate q } := by
    rw [atmStage_eq, hten, hcv, hn]
  obtain ⟨-, -, -, -, ca5, ca6, -⟩ := copyUpstream_nOptionExpiries a
  obtain ⟨-, -, -, -, cb5, cb6, -⟩ := copyUpstream_nOptionExpiries b
  have hR : ({ a.copyUpstream with
        atmCapFloorTermVolCurve_ := b.atmCapFloorTermVolCurve_.calculate q } : OptionletStripper2)
      = { ({ b.copyUpstream with
            atmCapFloorTermVolCurve_ := b.atmCapFloorTermVolCurve_.calculate q } :
              OptionletStripper2) with
          caps_ := a.copyUpstream.caps_,
          atmCapFloorStrikes_ := a.copyUpstream.atmCapFloorStrikes_,
          atmCapFloorPrices_ := a.copyUpstream.atmCapFloorPrices_,
          calculated_ := a.copyUpstream.calculated_,
          spreadsVolImplied_ := a.copyUpstream.spreadsVolImplied_,
          maxEvaluations_ := a.copyUpstream.maxEvaluations_,
          accuracy_ := a.copyUpstream.accuracy_ } := by
    rw [copyUpstream_eq a hSa hVa, copyUpstream_eq b hSb hVb]
    cases a
    cases b
    simp only at hst hdc hn
    subst hst hdc hn
    rfl
  obtain ⟨k1, k2⟩ := atmLoop_congr pricing q b.atmCapFloorTermVolCurve_.optionTenors_
    (b.atmCapFloorTermVolCurve_.calculate q).optionTimes_ b.nOptionExpiries_ _ _ hR
    (by rw [ca5, hCa, hn]) (by rw [ca6, hKa, hn]) (by rw [copyUpstream_prices, hPa, hn])
    (by rw [cb5, hCb]) (by rw [cb6, hKb]) (by rw [copyUpstream_prices, hPb])
  obtain ⟨f1, f2, -⟩ := copyUpstream_flags a
  obtain ⟨-, -, c3, c4, -⟩ := copyUpstream_nOptionExpiries a
  rw [hA, atmStage_eq pricing q b]
  refine ⟨k1, fun hok => ?_⟩
  refine (k2 hok).trans ?_
  rw [f1, f2, c3, c4]

end OptionletStripper2

namespace OptionletStripper2

/-- The loop of `spreadsVolImplied` reads the upstream stripper, the caps, the ATM prices
and the solver settings only. -/
theorem spreadsLoop_congr (pricing : Pricing) (solve : Solver1D) (s t : OptionletStripper2)
    (h1 : s.stripper1_ = t.stripper1_) (h2 : s.caps_ = t.caps_)
    (h3 : s.atmCapFloorPrices_ = t.atmCapFloorPrices_) (h4 : s.accuracy_ = t.accuracy_)
    (h5 : s.maxEvaluations_ = t.maxEvaluations_) (js : List Nat) (result : List Volatility) :
    spreadsLoop pricing solve s js result = spreadsLoop pricing solve t js result := by
  induction js generalizing result with
  | nil => rfl
  | cons j js ih =>
    unfold spreadsLoop
    simp only [h1, h2, h3, h4, h5]
    cases solve (ObjectiveFunction.call pricing)
        (ObjectiveFunction.new t.stripper1_ (t.caps_.getD j default)
          (t.atmCapFloorPrices_.getD j 0)) t.accuracy_ (1 / 10000) (-1 / 10) (1 / 10)
        t.maxEvaluations_ with
    | error e => rfl
    | ok root => exact ih _

theorem foldl_commute {σ ι : Type} (f : σ → σ) (step : σ → ι → σ)
    (h : ∀ s i, step (f s) i = f (step s i)) (is : List ι) (s : σ) :
    is.foldl step (f s) = f (is.foldl step s) := by
  induction is generalizing s with
  | nil => rfl
  | cons i is ih => rw [List.foldl_cons, List.foldl_cons, h, ih]

/-- The insertion loops do not read the lazy-object flag. -/
theorem insertionLoops_flag (pricing : Pricing) (s : OptionletStripper2) (c : Bool) :
    ({ s with calculated_ := c } : OptionletStripper2).insertionLoops pricing
      = { s.insertionLoops pricing with calculated_ := c } := by
  unfold insertionLoops
  have hstep : ∀ (j i : Nat) (s : OptionletStripper2),
      insertAtm pricing j i ({ s with calculated_ := c } : OptionletStripper2)
        = { insertAtm pricing j i s with calculated_ := c } := by
    intro j i s
    unfold insertAtm
    simp only
    split <;> rfl
  exact foldl_commute (fun s : OptionletStripper2 => { s with calculated_ := c })
    (fun s j =>
      (List.range s.optionletVolatilities_.length).foldl (fun s i => insertAtm pricing j i s) s)
    (fun s j => foldl_commute (fun s : OptionletStripper2 => { s with calculated_ := c })
      (fun s i => insertAtm pricing j i s) (fun s i => hstep j i s) _ s)
    (List.range s.nOptionExpiries_) s

theorem with_spreads_flag (x y : OptionletStripper2) (c : Bool) (v spreads : List Volatility)
    (m : Size) (e : Real)
    (h : x = { y with
      calculated_ := c, spreadsVolImplied_ := v, maxEvaluations_ := m, accuracy_ := e })
    (hm : y.maxEvaluations_ = m) (he : y.accuracy_ = e) :
    ({ x with spreadsVolImplied_ := spreads } : OptionletStripper2)
      = { ({ y with spreadsVolImplied_ := spreads } : OptionletStripper2) with
          calculated_ := c } := by
  subst h hm he
  rfl

/-- A pass is a function of the dependencies: from two states with the same upstream
stripper, curve (up to its lazy recalculation), day counter, number of tenors and solver
settings, and vectors of the sizes the constructor gives them, it has the same outcome
and, on success, leaves the same state up to the lazy-object flag. -/
theorem performCalculations_congr (pricing : Pricing) (solve : Solver1D) (q : Quotes)
    (a b : OptionletStripper2)
    (hst : a.stripper1_ = b.stripper1_)
    (hcv : a.atmCapFloorTermVolCurve_.calculate q = b.atmCapFloorTermVolCurve_.calculate q)
    (hdc : a.dc_ = b.dc_) (hn : a.nOptionExpiries_ = b.nOptionExpiries_)
    (hacc : a.accuracy_ = b.accuracy_) (hmax : a.maxEvaluations_ = b.maxEvaluations_)
    (hSa : a.optionletStrikes_.length = a.stripper1_.optionletFixingTimes_.length)
    (hVa : a.optionletVolatilities_.length = a.stripper1_.optionletFixingTimes_.length)
    (hSb : b.optionletStrikes_.length = b.stripper1_.optionletFixingTimes_.length)
    (hVb : b.optionletVolatilities_.length = b.stripper1_.optionletFixingTimes_.length)
    (hCa : a.caps_.length = a.nOptionExpiries_)
    (hKa : a.atmCapFloorStrikes_.length = a.nOptionExpiries_)
    (hPa : a.atmCapFloorPrices_.length = a.nOptionExpiries_)
    (hCb : b.caps_.length = b.nOptionExpiries_)
    (hKb : b.atmCapFloorStrikes_.length = b.nOptionExpiries_)
    (hPb : b.atmCapFloorPrices_.length = b.nOptionExpiries_) :
    (a.performCalculations pricing solve q).1 = (b.performCalculations pricing solve q).1 ∧
      ((a.performCalculations pricing solve q).1 = .ok () →
        (a.performCalculations pricing solve q).2
          = { (b.performCalculations pricing solve q).2 with calculated_ := a.calculated_ }) := by
  obtain ⟨k1, k2⟩ := atmStage_congr pricing q a b hst hcv hdc hn hSa hVa hSb hVb hCa hKa hPa
    hCb hKb hPb
  obtain ⟨-, fb2, fb3, -⟩ := performCalculations_frame pricing solve q b
  have hb4 := (atmStage_fields pricing q b).2.2.2.1
  have hb5 : (b.atmStage pricing q).2.maxEvaluations_ = b.maxEvaluations_ := by
    obtain ⟨-, -, -, -, -, -, -, a8, -⟩ := sameButAtm_fields (atmStage_frame pricing q b)
    exact a8.trans (copyUpstream_flags b).2.1
  unfold performCalculations
  rcases hA : a.atmStage pricing q with ⟨ra, s3a⟩
  rcases hB : b.atmStage pricing q with ⟨rb, s3b⟩
  rw [hA, hB] at k1 k2
  rw [hB] at hb4 hb5
  simp only at k1 k2 hb4 hb5
  subst k1
  cases ra with
  | error e => exact ⟨rfl, fun h => by cases h⟩
  | ok u =>
    simp only
    have h3 := k2 rfl
    have hsp : s3a.spreadsVolImplied pricing solve = s3b.spreadsVolImplied pricing solve := by
      unfold spreadsVolImplied
      have hn3 : s3a.nOptionExpiries_ = s3b.nOptionExpiries_ := by rw [h3]
      rw [hn3]
      exact spreadsLoop_congr pricing solve s3a s3b (by rw [h3]) (by rw [h3]) (by rw [h3])
        (by rw [h3]; exact hacc.trans hb4.symm) (by rw [h3]; exact hmax.trans hb5.symm) _ _
    rw [hsp]
    cases s3b.spreadsVolImplied pricing solve with
    | error e => exact ⟨rfl, fun h => by cases h⟩
    | ok spreads =>
      simp only [true_and]
      intro _
      rw [with_spreads_flag s3a s3b _ _ spreads _ _ h3 (hb5.trans hmax.symm)
        (hb4.trans hacc.symm), insertionLoops_flag]

end OptionletStripper2

namespace OptionletStripper2

/-- The constructor leaves the vectors with the sizes of `Sized`. -/
theorem new_sized (optionletStripper1 : OptionletStripper1)
    (atmCapFloorTermVolCurve : CapFloorTermVolCurve) (s : OptionletStripper2)
    (h : OptionletStripper2.new optionletStripper1 atmCapFloorTermVolCurve = .ok s) :
    s.Sized := by
  unfold OptionletStripper2.new at h
  simp only at h
  split at h
  · cases h
    simp only [Sized, List.length_replicate, and_self]
  · cases h

theorem sameButGrids_dc_curve {a b : OptionletStripper2} (h : SameButGrids a b) :
    a.dc_ = b.dc_ ∧ a.atmCapFloorTermVolCurve_ = b.atmCapFloorTermVolCurve_ := by
  unfold SameButGrids at h
  refine ⟨?_, ?_⟩ <;> rw [h]

theorem sameButAtm_dc {a b : OptionletStripper2} (h : SameButAtm a b) : a.dc_ = b.dc_ := by
  unfold SameButAtm at h
  rw [h]

/-- The ATM loop leaves a calculated curve as it is. -/
theorem atmLoop_curve (pricing : Pricing) (q : Quotes) (tenors : List Period)
    (times : List Time) (js : List Nat) (s : OptionletStripper2)
    (hc : s.atmCapFloorTermVolCurve_.calculated_ = true) :
    (atmLoop pricing q tenors times js s).2.atmCapFloorTermVolCurve_
      = s.atmCapFloorTermVolCurve_ := by
  induction js generalizing s with
  | nil => rfl
  | cons j js ih =>
    have hv : (s.atmCapFloorTermVolCurve_.volatility q (times.getD j 0) (333333 / 10000)).2
        = s.atmCapFloorTermVolCurve_ := by
      unfold CapFloorTermVolCurve.volatility CapFloorTermVolCurve.volatilityImpl
      exact calculate_of_calculated q _ hc
    unfold atmLoop
    rw [atmStep_eq pricing q tenors times s j]
    rcases hres : ((⟨pricing.makeCapFloor (tenors.getD j default), .none, false, 0⟩ :
        CapFloor).setPricingEngine
          (.flat (s.atmCapFloorTermVolCurve_.volatility q (times.getD j 0)
            (333333 / 10000)).1 s.dc_)).NPV pricing 0 with ⟨r, cap1⟩
    cases r with
    | error e => exact hv
    | ok v =>
      simp only
      rw [ih _ (by rw [hv]; exact hc)]
      exact hv

/-- After a successful pass the day counter is the one before, the ATM curve is the
recalculated curve, and the vectors have the sizes of `Sized` again. -/
theorem performCalculations_post (pricing : Pricing) (solve : Solver1D) (q : Quotes)
    (self s1 : OptionletStripper2) (hs : self.Sized)
    (hpass : self.performCalculations pricing solve q = (.ok (), s1)) :
    s1.dc_ = self.dc_ ∧
      s1.atmCapFloorTermVolCurve_ = self.atmCapFloorTermVolCurve_.calculate q ∧
      s1.Sized := by
  obtain ⟨hS, hV, hC, hK, hP⟩ := hs
  obtain ⟨l1, l2⟩ := performCalculations_lengths pricing solve q self s1 hS hV hpass
  obtain ⟨-, -, -, f4, f5⟩ := performCalculations_frame pricing solve q self
  rw [hpass] at f4 f5
  simp only at f4 f5
  obtain ⟨s3, spreads, hatm, -, rfl⟩ := performCalculations_ok_inv pricing solve q self s1 hpass
  obtain ⟨g1, g2, -, -, -, -, g7, -⟩ := sameButGrids_fields (insertionLoops_sameButGrids pricing
    ({ s3 with spreadsVolImplied_ := spreads } : OptionletStripper2))
  obtain ⟨g8, g9⟩ := sameButGrids_dc_curve (insertionLoops_sameButGrids pricing
    ({ s3 with spreadsVolImplied_ := spreads } : OptionletStripper2))
  simp only at g1 g2 g7 g8 g9
  have hdc3 := sameButAtm_dc (atmStage_frame pricing q self)
  have heq := atmStage_eq pricing q self
  obtain ⟨m1, m2, m3⟩ := atmLoop_lengths pricing q self.atmCapFloorTermVolCurve_.optionTenors_
    (self.atmCapFloorTermVolCurve_.calculate q).optionTimes_ (List.range self.nOptionExpiries_)
    { self.copyUpstream with
      atmCapFloorTermVolCurve_ := self.atmCapFloorTermVolCurve_.calculate q }
  have m4 := atmLoop_curve pricing q self.atmCapFloorTermVolCurve_.optionTenors_
    (self.atmCapFloorTermVolCurve_.calculate q).optionTimes_ (List.range self.nOptionExpiries_)
    { self.copyUpstream with
      atmCapFloorTermVolCurve_ := self.atmCapFloorTermVolCurve_.calculate q }
    (calculate_calculated q _)
  rw [← heq, hatm] at m1 m2 m3 m4
  rw [hatm] at hdc3
  simp only at m1 m2 m3 m4 hdc3
  obtain ⟨-, -, -, -, c5, c6, -⟩ := copyUpstream_nOptionExpiries self
  rw [c5] at m1
  rw [c6] at m2
  rw [copyUpstream_prices] at m3
  refine ⟨g8.trans (hdc3.trans (copyUpstream_flags self).2.2), g9.trans m4, ?_⟩
  refine ⟨l1.trans (by rw [f5]), l2.trans (by rw [f5]), ?_, ?_, ?_⟩
  · rw [g1, m1, hC, f4]
  · rw [g2, m2, hK, f4]
  · rw [g7, m3, hP, f4]

end OptionletStripper2

/-! ## A pass starts from scratch -/

/-- C25: `OptionletStripper2::performCalculations` recomputes everything from scratch.
From any two states `a` and `b` of a stripper with the same dependencies (upstream
stripper, ATM curve up to its lazy recalculation, day counter, number of tenors and solver
settings) and vectors of the sizes the constructor gives them, the pass has the same
outcome, and when it succeeds it leaves the same object but for the lazy-object flag, which
it does not write: the same strike grids, volatility grids, ATM strikes, ATM prices and
spreads, whatever the previous contents were.  In particular a second pass run on the
state a successful pass left succeeds and gives that state again: inserted points do not
accumulate. -/
theorem pass_recomputes_from_scratch (pricing : Pricing) (solve : Solver1D) (q : Quotes)
    (a b : OptionletStripper2)
    (hst : a.stripper1_ = b.stripper1_)
    (hcv : a.atmCapFloorTermVolCurve_.calculate q = b.atmCapFloorTermVolCurve_.calculate q)
    (hdc : a.dc_ = b.dc_) (hn : a.nOptionExpiries_ = b.nOptionExpiries_)
    (hacc : a.accuracy_ = b.accuracy_) (hmax : a.maxEvaluations_ = b.maxEvaluations_)
    (ha : a.Sized) (hb : b.Sized) :
    (a.performCalculations pricing solve q).1 = (b.performCalculations pricing solve q).1 ∧
      ((b.performCalculations pricing solve q).1 = .ok () →
        (a.performCalculations pricing solve q).2
            = { (b.performCalculations pricing solve q).2 with calculated_ := a.calculated_ } ∧
          (a.performCalculations pricing solve q).2.optionletStrikes_
            = (b.performCalculations pricing solve q).2.optionletStrikes_ ∧
          (a.performCalculations pricing solve q).2.optionletVolatilities_
            = (b.performCalculations pricing solve q).2.optionletVolatilities_ ∧
          (a.performCalculations pricing solve q).2.atmCapFloorStrikes_
            = (b.performCalculations pricing solve q).2.atmCapFloorStrikes_ ∧
          (a.performCalculations pricing solve q).2.atmCapFloorPrices_
            = (b.performCalculations pricing solve q).2.atmCapFloorPrices_ ∧
          (a.performCalculations pricing solve q).2.spreadsVolImplied_
            = (b.performCalculations pricing solve q).2.spreadsVolImplied_ ∧
          (b.performCalculations pricing solve q).2.performCalculations pricing solve q
            = (.ok (), (b.performCalculations pricing solve q).2)) := by
  obtain ⟨k1, k2⟩ := OptionletStripper2.performCalculations_congr pricing solve q a b hst hcv
    hdc hn hacc hmax ha.1 ha.2.1 hb.1 hb.2.1 ha.2.2.1 ha.2.2.2.1 ha.2.2.2.2 hb.2.2.1
    hb.2.2.2.1 hb.2.2.2.2
  refine ⟨k1, fun hok => ?_⟩
  have h2 := k2 (k1.trans hok)
  refine ⟨h2, by rw [h2], by rw [h2], by rw [h2], by rw [h2], by rw [h2], ?_⟩
  have hpass : b.performCalculations pricing solve q
      = (.ok (), (b.performCalculations pricing solve q).2) := Prod.ext hok rfl
  obtain ⟨f1, f2, f3, f4, f5⟩ := OptionletStripper2.performCalculations_frame pricing solve q b
  obtain ⟨p1, p2, p3⟩ := OptionletStripper2.performCalculations_post pricing solve q b _ hb hpass
  obtain ⟨r1, r2⟩ := OptionletStripper2.performCalculations_congr pricing solve q
    (b.performCalculations pricing solve q).2 b f5
    (by rw [p2]; exact calculate_of_calculated q _ (calculate_calculated q _))
    p1 f4 f2 f3 p3.1 p3.2.1 hb.1 hb.2.1 p3.2.2.1 p3.2.2.2.1 p3.2.2.2.2 hb.2.2.1
    hb.2.2.2.1 hb.2.2.2.2
  exact Prod.ext (r1.trans hok) (r2 (r1.trans hok))

theorem pass_recomputes_from_scratch_witness :
    (OptionletStripper2.performCalculations examplePricing exampleSolver exampleQuotes
        { exampleStripper2 with
          optionletStrikes_ := [[1 / 2], [1 / 3, 1 / 4]]
          atmCapFloorPrices_ := [7, 7]
          spreadsVolImplied_ := [1, 1] }).2.optionletStrikes_
        = (exampleStripper2.performCalculations examplePricing exampleSolver
            exampleQuotes).2.optionletStrikes_ ∧
      (exampleStripper2.performCalculations examplePricing exampleSolver
          exampleQuotes).2.performCalculations examplePricing exampleSolver exampleQuotes
        = (.ok (), (exampleStripper2.performCalculations examplePricing exampleSolver
            exampleQuotes).2) :=
  have h := (pass_recomputes_from_scratch examplePricing exampleSolver exampleQuotes
    { exampleStripper2 with
      optionletStrikes_ := [[1 / 2], [1 / 3, 1 / 4]]
      atmCapFloorPrices_ := [7, 7]
      spreadsVolImplied_ := [1, 1] }
    exampleStripper2 rfl rfl rfl rfl rfl rfl ⟨rfl, rfl, rfl, rfl, rfl⟩
    ⟨rfl, rfl, rfl, rfl, rfl⟩).2 (congrArg Prod.fst example_pass_ok)
  ⟨h.2.1, h.2.2.2.2.2.2⟩

/-! ## The least-square cost function -/

/-- The element-wise square of a difference of two arrays of one size. -/
theorem zipWith_mul_self_sub (t f : List Real) :
    List.zipWith (· * ·) (List.zipWith (· - ·) t f) (List.zipWith (· - ·) t f)
      = List.zipWith (fun a b => (a - b) ^ 2) t f := by
  induction t generalizing f with
  | nil => simp
  | cons a t ih =>
    cases f with
    | nil => simp
    | cons b f =>
      simp only [List.zipWith_cons_cons, ih]
      rw [pow_two]

theorem sum_zipWith_sq_nonneg (t f : List Real) :
    0 ≤ (List.zipWith (fun a b => (a - b) ^ 2) t f).sum := by
  apply List.sum_nonneg
  intro e he
  rw [List.mem_iff_getElem] at he
  obtain ⟨n, hn, rfl⟩ := he
  rw [List.getElem_zipWith]
  exact sq_nonneg _

/-- What `value` and `values` compute from the target and the fitted values the problem
reports. -/
theorem value_and_values_eq (lsp : LeastSquareProblem) (x : Array) :
    (LeastSquareFunction.value lsp x
        = (Array.sub
            (lsp.targetAndValue x (Array.ofSize lsp.size) (Array.ofSize lsp.size)).1
            (lsp.targetAndValue x (Array.ofSize lsp.size) (Array.ofSize lsp.size)).2).map
          fun diff => (List.zipWith (· * ·) diff diff).sum) ∧
      (LeastSquareFunction.values lsp x
        = (Array.sub
            (lsp.targetAndValue x (Array.ofSize lsp.size) (Array.ofSize lsp.size)).1
            (lsp.targetAndValue x (Array.ofSize lsp.size) (Array.ofSize lsp.size)).2).map
          fun diff => List.zipWith (· * ·) diff diff) := by
  unfold LeastSquareFunction.value LeastSquareFunction.values
  simp only
  cases Array.sub
      (lsp.targetAndValue x (Array.ofSize lsp.size) (Array.ofSize lsp.size)).1
      (lsp.targetAndValue x (Array.ofSize lsp.size) (Array.ofSize lsp.size)).2 with
  | error e => exact ⟨rfl, rfl⟩
  | ok diff =>
    simp only [DotProduct, Array.mul, if_true, Except.map, and_self]

/-- C21: for every `x`, `LeastSquareFunction::value(x)` equals the sum of the entries of
`LeastSquareFunction::values(x)` (both fail alike when the problem reports a target and
fitted values of different sizes); when the sizes agree it returns the squared Euclidean
norm of `target - fct2fit` as produced by the problem's `targetAndValue`, the sum of the
`(target[i] - fct2fit[i])²`; in particular a returned `value(x)` is non-negative. -/
theorem value_is_squared_norm (lsp : LeastSquareProblem) (x : Array) :
    LeastSquareFunction.value lsp x = (LeastSquareFunction.values lsp x).map List.sum ∧
      (∀ target fct2fit : Array,
        lsp.targetAndValue x (Array.ofSize lsp.size) (Array.ofSize lsp.size)
            = (target, fct2fit) →
        target.length = fct2fit.length →
          LeastSquareFunction.value lsp x
              = .ok (List.zipWith (fun a b => (a - b) ^ 2) target fct2fit).sum ∧
            LeastSquareFunction.values lsp x
              = .ok (List.zipWith (fun a b => (a - b) ^ 2) target fct2fit)) ∧
      (∀ v : Real, LeastSquareFunction.value lsp x = .ok v → 0 ≤ v) := by
  obtain ⟨h1, h2⟩ := value_and_values_eq lsp x
  have hsub : ∀ t f : Array, (Array.sub t f = .ok (List.zipWith (· - ·) t f) ∧
      t.length = f.length) ∨ ∃ e, Array.sub t f = .error e := by
    intro t f
    unfold Array.sub
    by_cases h : t.length = f.length
    · exact Or.inl ⟨by rw [if_pos h], h⟩
    · exact Or.inr ⟨_, by rw [if_neg h]⟩
  refine ⟨?_, fun target fct2fit hr hlen => ?_, fun v hv => ?_⟩
  · rw [h1, h2]
    cases Array.sub
        (lsp.targetAndValue x (Array.ofSize lsp.size) (Array.ofSize lsp.size)).1
        (lsp.targetAndValue x (Array.ofSize lsp.size) (Array.ofSize lsp.size)).2 with
    | error e => rfl
    | ok diff => rfl
  · rw [h1, h2, hr]
    simp only [Array.sub, hlen, if_true, Except.map, zipWith_mul_self_sub, and_self]
  · rw [h1] at hv
    rcases hsub (lsp.targetAndValue x (Array.ofSize lsp.size) (Array.ofSize lsp.size)).1
        (lsp.targetAndValue x (Array.ofSize lsp.size) (Array.ofSize lsp.size)).2 with
      ⟨hs, -⟩ | ⟨e, hs⟩
    · rw [hs] at hv
      simp only [Except.map, Except.ok.injEq, zipWith_mul_self_sub] at hv
      rw [← hv]
      exact sum_zipWith_sq_nonneg _ _
    · rw [hs] at hv
      simp [Except.map] at hv

/-! ## Value and gradient of the least-square cost function -/

/-- The elements of a transposed matrix. -/
theorem transpose_elem (m : Matrix) (j i : Nat) (hj : j < m.columns_) (hi : i < m.rows_) :
    (transpose m).elem j i = m.elem i j := by
  unfold transpose Matrix.elem
  simp only
  rw [getD_map_range_of_lt _ _ _ _ hj, getD_map_range_of_lt _ _ _ _ hi]

/-- The product of the transposed derivative matrix and the residuals. -/
theorem transpose_mulVec (m : Matrix) (v : Array) (hv : v.length = m.rows_) :
    (transpose m).mulVec v
      = .ok ((List.range m.columns_).map fun j =>
          ((List.range m.rows_).map fun k => v.getD k 0 * m.elem k j).sum) := by
  unfold Matrix.mulVec
  have h1 : (transpose m).columns_ = m.rows_ := rfl
  have h2 : (transpose m).rows_ = m.columns_ := rfl
  rw [h1, h2, if_pos hv]
  congr 1
  apply List.map_congr_left
  intro j hj
  congr 1
  apply List.map_congr_left
  intro k hk
  rw [transpose_elem m j k (List.mem_range.mp hj) (List.mem_range.mp hk)]

/-- The elements of a difference of two arrays of one size. -/
theorem getD_zipWith_sub (t f : List Real) (k : Nat) (hlen : t.length = f.length) :
    (List.zipWith (· - ·) t f).getD k 0 = t.getD k 0 - f.getD k 0 := by
  by_cases hk : k < t.length
  · rw [List.getD_eq_getElem _ _ (by simpa [← hlen] using hk), List.getD_eq_getElem _ _ hk,
      List.getD_eq_getElem _ _ (by rw [← hlen]; exact hk), List.getElem_zipWith]
  · rw [List.getD_eq_default _ _ (by simpa [← hlen] using hk),
      List.getD_eq_default _ _ (not_lt.mp hk),
      List.getD_eq_default _ _ (by rw [← hlen]; exact not_lt.mp hk)]
    norm_num

/-- C29: for every `x`, whenever the problem's `targetAndValue` and
`targetValueAndGradient` report the same target and fitted values at `x`,
`LeastSquareFunction::valueAndGradient(grad, x)` leaves `grad` equal to what
`gradient(grad, x)` leaves, fails when and as `gradient` fails, and otherwise returns
exactly `value(x)`; when the reported target, fitted values and derivative matrix `J` have
matching sizes, both return and `grad` is `-2 * transpose(J) * (target - fct2fit)`. -/
theorem valueAndGradient_agrees_with_value_and_gradient (lsp : LeastSquareProblem)
    (grad_f x : Array)
    (hsame : (lsp.targetValueAndGradient x (Matrix.ofSize lsp.size x.length)
        (Array.ofSize lsp.size) (Array.ofSize lsp.size)).2
      = lsp.targetAndValue x (Array.ofSize lsp.size) (Array.ofSize lsp.size)) :
    (LeastSquareFunction.valueAndGradient lsp grad_f x).2
        = (LeastSquareFunction.gradient lsp grad_f x).2 ∧
      ((LeastSquareFunction.gradient lsp grad_f x).1 = .ok () →
        (LeastSquareFunction.valueAndGradient lsp grad_f x).1
          = LeastSquareFunction.value lsp x) ∧
      (∀ e, (LeastSquareFunction.gradient lsp grad_f x).1 = .error e →
        (LeastSquareFunction.valueAndGradient lsp grad_f x).1 = .error e) ∧
      (∀ (J : Matrix) (target fct2fit : Array),
        lsp.targetValueAndGradient x (Matrix.ofSize lsp.size x.length)
            (Array.ofSize lsp.size) (Array.ofSize lsp.size) = (J, target, fct2fit) →
        target.length = fct2fit.length → J.rows_ = target.length →
          LeastSquareFunction.gradient lsp grad_f x
              = (.ok (), (List.range J.columns_).map fun j =>
                  -2 * ((List.range J.rows_).map fun k =>
                    (target.getD k 0 - fct2fit.getD k 0) * J.elem k j).sum) ∧
            LeastSquareFunction.valueAndGradient lsp grad_f x
              = (LeastSquareFunction.value lsp x, (List.range J.columns_).map fun j =>
                  -2 * ((List.range J.rows_).map fun k =>
                    (target.getD k 0 - fct2fit.getD k 0) * J.elem k j).sum) ∧
            LeastSquareFunction.value lsp x
              = .ok (List.zipWith (fun a b => (a - b) ^ 2) target fct2fit).sum) := by
  rcases hr : lsp.targetValueAndGradient x (Matrix.ofSize lsp.size x.length)
    (Array.ofSize lsp.size) (Array.ofSize lsp.size) with ⟨J0, t0, f0⟩
  rw [hr] at hsame
  simp only at hsame
  have hval : LeastSquareFunction.value lsp x
      = match Array.sub t0 f0 with
        | .error e => .error e
        | .ok diff => DotProduct diff diff := by
    unfold LeastSquareFunction.value
    simp only
    rw [← hsame]
  have hgrad : LeastSquareFunction.gradient lsp grad_f x
      = match Array.sub t0 f0 with
        | .error e => (.error e, grad_f)
        | .ok diff =>
          match (transpose J0).mulVec diff with
          | .error e => (.error e, grad_f)
          | .ok g => (.ok (), Array.smul (-2) g) := by
    unfold LeastSquareFunction.gradient
    simp only
    rw [hr]
  have hvag : LeastSquareFunction.valueAndGradient lsp grad_f x
      = match Array.sub t0 f0 with
        | .error e => (.error e, grad_f)
        | .ok diff =>
          match (transpose J0).mulVec diff with
          | .error e => (.error e, grad_f)
          | .ok g => (DotProduct diff diff, Array.smul (-2) g) := by
    unfold LeastSquareFunction.valueAndGradient
    simp only
    rw [hr]
  rw [hval, hgrad, hvag]
  refine ⟨?_, ?_, ?_, ?_⟩
  · cases Array.sub t0 f0 with
    | error e => rfl
    | ok diff =>
      simp only
      cases (transpose J0).mulVec diff <;> rfl
  · cases Array.sub t0 f0 with
    | error e => intro h; cases h
    | ok diff =>
      simp only
      cases (transpose J0).mulVec diff with
      | error e => intro h; cases h
      | ok g => intro _; rfl
  · intro e
    cases Array.sub t0 f0 with
    | error e1 => simp only; exact fun h => by cases h; rfl
    | ok diff =>
      simp only
      cases (transpose J0).mulVec diff with
      | error e1 => simp only; exact fun h => by cases h; rfl
      | ok g => exact fun h => by cases h
  · intro J target fct2fit hJ hlen hrows
    simp only [Prod.mk.injEq] at hJ
    obtain ⟨rfl, rfl, rfl⟩ := hJ
    have hsub : Array.sub t0 f0 = .ok (List.zipWith (· - ·) t0 f0) := by
      rw [Array.sub, if_pos hlen]
    have hdl : (List.zipWith (· - ·) t0 f0).length = J0.rows_ := by
      rw [List.length_zipWith, ← hlen, min_self, hrows]
    rw [hsub]
    simp only
    rw [transpose_mulVec J0 _ hdl]
    simp only [Array.smul, List.map_map, DotProduct, if_true, zipWith_mul_self_sub]
    have hg : (List.range J0.columns_).map ((fun e => -2 * e) ∘ fun j =>
          ((List.range J0.rows_).map fun k =>
            (List.zipWith (· - ·) t0 f0).getD k 0 * J0.elem k j).sum)
        = (List.range J0.columns_).map fun j =>
          -2 * ((List.range J0.rows_).map fun k =>
            (t0.getD k 0 - f0.getD k 0) * J0.elem k j).sum := by
      apply List.map_congr_left
      intro j _
      simp only [Function.comp, getD_zipWith_sub _ _ _ hlen]
    rw [hg]
    simp only [and_self]

theorem valueAndGradient_agrees_with_value_and_gradient_witness :
    LeastSquareFunction.valueAndGradient exampleProblem [] [3]
        = (LeastSquareFunction.value exampleProblem [3], [88]) ∧
      LeastSquareFunction.gradient exampleProblem [] [3] = (.ok (), [88]) ∧
      LeastSquareFunction.value exampleProblem [3] = .ok 53 := by
  obtain ⟨h1, h2, h3⟩ := (valueAndGradient_agrees_with_value_and_gradient exampleProblem [] [3]
    rfl).2.2.2 ⟨2, 1, [[1], [6]]⟩ [1, 2] [3, 9]
    (by norm_num [exampleProblem]) rfl rfl
  have hr1 : List.range 1 = [0] := rfl
  have hr2 : List.range 2 = [0, 1] := rfl
  have hg : ((List.range (⟨2, 1, [[1], [6]]⟩ : Matrix).columns_).map fun j =>
      -2 * ((List.range (⟨2, 1, [[1], [6]]⟩ : Matrix).rows_).map fun k =>
        (([1, 2] : List Real).getD k 0 - ([3, 9] : List Real).getD k 0)
          * (⟨2, 1, [[1], [6]]⟩ : Matrix).elem k j).sum) = [88] := by
    norm_num [hr1, hr2, Matrix.elem]
  rw [hg] at h1 h2
  refine ⟨h2, h1, ?_⟩
  rw [h3]
  norm_num

/-! ## The lattice-rule sequence -/

/-- For a non-negative argument `fmod(x, 1.0)` is the fractional part. -/
theorem fmod_one_of_nonneg (x : Real) (hx : 0 ≤ x) : fmod x 1 = Int.fract x := by
  unfold fmod
  rw [div_one, if_pos hx, mul_one]
  rfl

theorem nextSequence_fold (is : List Nat) (s : LatticeRsg) :
    is.foldl
        (fun s j =>
          let theta : Real := (s.i_ : Real) * s.z_.getD j 0 / (s.N_ : Real)
          { s with
            sequence_ := { s.sequence_ with value := s.sequence_.value.set j (fmod theta 1) } })
        s
      = { s with
          sequence_ :=
            { s.sequence_ with
              value := is.foldl
                (fun v j => v.set j (fmod ((s.i_ : Real) * s.z_.getD j 0 / (s.N_ : Real)) 1))
                s.sequence_.value } } := by
  induction is generalizing s with
  | nil => rfl
  | cons i is ih => simp only [List.foldl_cons]; rw [ih]

/-- The sample `nextSequence` returns and the generator it leaves, for a generator whose
sample vector has `dimensionality_` entries. -/
theorem nextSequence_eq (s : LatticeRsg) (hlen : s.sequence_.value.length = s.dimensionality_) :
    s.nextSequence
      = (⟨(List.range s.dimensionality_).map
            (fun j => fmod ((s.i_ : Real) * s.z_.getD j 0 / (s.N_ : Real)) 1),
          s.sequence_.weight⟩,
        { s with
          i_ := s.i_ + 1,
          sequence_ := ⟨(List.range s.dimensionality_).map
              (fun j => fmod ((s.i_ : Real) * s.z_.getD j 0 / (s.N_ : Real)) 1),
            s.sequence_.weight⟩ }) := by
  unfold LatticeRsg.nextSequence
  simp only
  rw [nextSequence_fold]
  simp only
  have h := foldl_set_range_aux
    (fun j => fmod ((s.i_ : Real) * s.z_.getD j 0 / (s.N_ : Real)) 1) s.sequence_.value
    s.dimensionality_ (by omega)
  rw [h, List.drop_eq_nil_of_le (by omega), List.append_nil]

/-- A freshly constructed generator after `k` draws: the index is `k`, everything else is
as constructed but the last sample. -/
theorem afterDraws_new (dimensionality : Size) (z : List Real) (N : Size) (k : Nat) :
    ((LatticeRsg.new dimensionality z N).afterDraws k).i_ = k ∧
      ((LatticeRsg.new dimensionality z N).afterDraws k).dimensionality_ = dimensionality ∧
      ((LatticeRsg.new dimensionality z N).afterDraws k).N_ = N ∧
      ((LatticeRsg.new dimensionality z N).afterDraws k).z_ = z ∧
      ((LatticeRsg.new dimensionality z N).afterDraws k).sequence_.weight = 1 ∧
      ((LatticeRsg.new dimensionality z N).afterDraws k).sequence_.value.length
        = dimensionality := by
  induction k with
  | zero => simp [LatticeRsg.afterDraws, LatticeRsg.new]
  | succ k ih =>
    obtain ⟨h1, h2, h3, h4, h5, h6⟩ := ih
    rw [LatticeRsg.afterDraws, nextSequence_eq _ (by rw [h6, h2])]
    simp only [h1, h2, h3, h4, h5, List.length_map, List.length_range, and_self]

/-- C30: for a freshly constructed `LatticeRsg` with `N > 0`, at least `dimensionality`
entries in `z` and every `z_j >= 0`, the `k`-th call of `nextSequence` (`k` counted from 0)
returns in each component `j` the fractional part of `k*z_j/N`, which lies in `[0,1)`; the
first sample is all zeros, the sample weight is always 1, and each call advances the
internal index by exactly one (from `k` to `k+1`). -/
theorem lattice_kth_sample (dimensionality : Size) (z : List Real) (N : Size) (k : Nat)
    (hN : 0 < N) (hz : dimensionality ≤ z.length)
    (hpos : ∀ j : Nat, j < dimensionality → 0 ≤ z.getD j 0) :
    ((LatticeRsg.new dimensionality z N).afterDraws k).i_ = k ∧
      ((LatticeRsg.new dimensionality z N).afterDraws k).nextSequence.2.i_ = k + 1 ∧
      ((LatticeRsg.new dimensionality z N).afterDraws k).nextSequence.1.weight = 1 ∧
      ((LatticeRsg.new dimensionality z N).afterDraws k).nextSequence.1.value.length
        = dimensionality ∧
      (∀ j : Nat, j < dimensionality →
        ((LatticeRsg.new dimensionality z N).afterDraws k).nextSequence.1.value.getD j 0
            = Int.fract ((k : Real) * z.getD j 0 / (N : Real)) ∧
          0 ≤ ((LatticeRsg.new dimensionality z N).afterDraws k).nextSequence.1.value.getD j 0 ∧
          ((LatticeRsg.new dimensionality z N).afterDraws k).nextSequence.1.value.getD j 0
            < 1) ∧
      (LatticeRsg.new dimensionality z N).nextSequence.1.value
        = List.replicate dimensionality 0 := by
  have _hN := hN
  have _hz := hz
  obtain ⟨h1, h2, h3, h4, h5, h6⟩ := afterDraws_new dimensionality z N k
  have hval : ∀ j : Nat, j < dimensionality →
      ((LatticeRsg.new dimensionality z N).afterDraws k).nextSequence.1.value.getD j 0
        = Int.fract ((k : Real) * z.getD j 0 / (N : Real)) := by
    intro j hj
    rw [nextSequence_eq _ (by rw [h6, h2])]
    simp only [h1, h2, h3, h4]
    rw [getD_map_range_of_lt _ _ _ _ hj]
    apply fmod_one_of_nonneg
    exact div_nonneg (mul_nonneg (Nat.cast_nonneg _) (hpos j hj)) (Nat.cast_nonneg _)
  refine ⟨h1, ?_, ?_, ?_, fun j hj => ?_, ?_⟩
  · rw [nextSequence_eq _ (by rw [h6, h2])]
    simp only [h1]
  · rw [nextSequence_eq _ (by rw [h6, h2])]
    exact h5
  · rw [nextSequence_eq _ (by rw [h6, h2])]
    simp only [List.length_map, List.length_range, h2]
  · rw [hval j hj]
    exact ⟨rfl, Int.fract_nonneg _, Int.fract_lt_one _⟩
  · rw [nextSequence_eq _ (by simp [LatticeRsg.new])]
    simp only [LatticeRsg.new, Nat.cast_zero, zero_mul, zero_div]
    have h0 : fmod 0 1 = 0 := by
      rw [fmod_one_of_nonneg 0 (le_refl _)]
      simp
    rw [h0]
    apply List.ext_getElem
    · simp
    · intro n hn1 hn2
      simp

theorem lattice_kth_sample_witness :
    ((LatticeRsg.new 2 [1, 3] 4).afterDraws 3).nextSequence.1.value.getD 1 0
      = Int.fract ((3 : Real) * 3 / 4) :=
  ((lattice_kth_sample 2 [1, 3] 4 3 (by decide) (by decide)
    (by
      intro j hj
      rcases j with _ | _ | j
      · norm_num
      · norm_num
      · omega)).2.2.2.2.1 1 (by decide)).1

/-! ## Skipping in the lattice-rule sequence -/

/-- C22, evaluated where it fails: on a generator that has already drawn one sample,
`skipTo(2)` followed by `nextSequence()` returns the sample of index 3, `(3/4)`, not the
sample of index 2, `(1/2)`, which a fresh generator returns after `skipTo(2)`: `skipTo` adds
`n` to the index instead of setting it. -/
theorem skipTo_is_relative_to_current_index :
    (LatticeRsg.new 1 [1] 4).nextSequence.2.i_ = 1 ∧
      ((LatticeRsg.new 1 [1] 4).nextSequence.2.skipTo 2).i_ = 3 ∧
      ((LatticeRsg.new 1 [1] 4).nextSequence.2.skipTo 2).nextSequence.1.value = [3 / 4] ∧
      ((LatticeRsg.new 1 [1] 4).skipTo 2).nextSequence.1.value = [1 / 2] ∧
      Int.fract ((2 : Real) * 1 / 4) = 1 / 2 := by
  have hf : ∀ a : Real, 0 ≤ a → a < 1 → fmod a 1 = a := by
    intro a h0 h1
    rw [fmod_one_of_nonneg a h0, Int.fract_eq_iff]
    exact ⟨h0, h1, 0, by simp⟩
  have hr : List.range 1 = [0] := rfl
  have h1 : (LatticeRsg.new 1 [1] 4).nextSequence.2
      = { LatticeRsg.new 1 [1] 4 with i_ := 1 } := by
    rw [nextSequence_eq _ (by simp [LatticeRsg.new])]
    simp only [LatticeRsg.new, hr, List.map_cons, List.map_nil]
    norm_num [hf]
  refine ⟨by rw [h1], by rw [h1]; rfl, ?_, ?_, ?_⟩
  · rw [h1, nextSequence_eq _ (by simp [LatticeRsg.new, LatticeRsg.skipTo])]
    simp only [LatticeRsg.new, LatticeRsg.skipTo, hr, List.map_cons, List.map_nil]
    have h34 := hf (3 / 4) (by norm_num) (by norm_num)
    norm_num [h34]
  · rw [nextSequence_eq _ (by simp [LatticeRsg.new, LatticeRsg.skipTo])]
    simp only [LatticeRsg.new, LatticeRsg.skipTo, hr, List.map_cons, List.map_nil]
    have h12 := hf (1 / 2) (by norm_num) (by norm_num)
    norm_num [h12]
  · rw [Int.fract_eq_iff]
    exact ⟨by norm_num, by norm_num, 0, by norm_num⟩

end QuantLib
